import Mathlib

/-! # IcePHP profiles and code generation

A shallow embedding of `src/php/src/ice/profile.cpp` (the PHP code generator
`IcePHP::CodeVisitor`, the profile registry `createProfile`, the descriptor
loader inside `IcePHP::profileInit` and the activation entry point `do_load`).

Conventions of the embedding:

* a C++ `char` is a byte, `Fin 256`; a `std::string` is a list of bytes;
* `string::npos` is `none`;
* the output stream `_out` of the visitor is the byte string written so far;
* functions of `ice_util`, of the Slice library and of the property store that
  the file calls but does not define are parameters (`Util`, `Env`);
* global state (`_profiles`, `ICE_G(profile)`, `ICE_G(properties)`) is passed
  explicitly as a `World`;
* a failed `assert` is a result of its own (`none`, `Status.assertFailed`), as in a
  build with assertions enabled.
-/

namespace IcePHP

/-! ## Bytes and strings -/

/-- A C++ `char`, read as an unsigned byte. -/
abbrev Byte := Fin 256

/-- A `std::string`. -/
abbrev Str := List Byte

/-- The byte of an ASCII character. -/
def byte (c : Char) : Byte := ⟨c.toNat % 256, Nat.mod_lt _ (by decide)⟩

/-- The byte string of an ASCII string literal of the source. -/
def str (s : String) : Str := s.toList.map byte

/-- The stream manipulator `endl` (the flush is not observable in the text). -/
def endl : Str := str "\n"

/-- The index of the first byte of `s` that satisfies `p`. -/
def firstIdx (p : Byte → Bool) : Str → Option Nat
  | [] => none
  | x :: xs => if p x then some 0 else (firstIdx p xs).map (fun k => k + 1)

/-- The index of the last byte of `s` that satisfies `p`. -/
def lastIdx (p : Byte → Bool) : Str → Option Nat
  | [] => none
  | x :: xs =>
    match lastIdx p xs with
    | some k => some (k + 1)
    | none => if p x then some 0 else none

/-- The search `s.find(c, pos)`. -/
def find (s : Str) (c : Byte) (pos : Nat) : Option Nat :=
  (firstIdx (fun x => decide (x = c)) (s.drop pos)).map (fun k => k + pos)

/-- The search `s.rfind(c)`. -/
def rfind (s : Str) (c : Byte) : Option Nat :=
  lastIdx (fun x => decide (x = c)) s

/-- The search `s.find_first_of(chars, pos)`. -/
def find_first_of (s chars : Str) (pos : Nat) : Option Nat :=
  (firstIdx (fun x => decide (x ∈ chars)) (s.drop pos)).map (fun k => k + pos)

/-- The search `s.find_first_not_of(chars, pos)`. -/
def find_first_not_of (s chars : Str) (pos : Nat) : Option Nat :=
  (firstIdx (fun x => decide (x ∉ chars)) (s.drop pos)).map (fun k => k + pos)

/-- The search `s.find_last_not_of(chars)`. -/
def find_last_not_of (s chars : Str) : Option Nat :=
  lastIdx (fun x => decide (x ∉ chars)) s

/-- The call `s.substr(pos, n)`, for `pos` within the string. -/
def substr (s : Str) (pos n : Nat) : Str := (s.drop pos).take n

/-- The call `s.erase(idx)`: drops everything from index `idx` on. -/
def erase (s : Str) (idx : Nat) : Str := s.take idx

/-- The conversion of a `char` buffer to a `std::string`: the bytes before the first
NUL. -/
def cstring (buf : Str) : Str := buf.takeWhile (fun x => decide (x ≠ 0))

/-! ## The parts of the Slice parse tree that the generator reads -/

/-- A `Slice::ClassDef`: scoped name, the three flags the generator reads and the
ordered base list `bases()`. -/
inductive ClassDef where
  | mk (scopedName : Str) (isInterface isLocal isAbstract : Bool) (bases : List ClassDef)

namespace ClassDef

/-- The scoped name `p->scoped()` (`scoped` is a reserved word here). -/
def scopedName : ClassDef → Str
  | mk s _ _ _ _ => s

/-- The flag `p->isInterface()`. -/
def isInterface : ClassDef → Bool
  | mk _ i _ _ _ => i

/-- The flag `p->isLocal()`. -/
def isLocal : ClassDef → Bool
  | mk _ _ l _ _ => l

/-- The flag `p->isAbstract()`. -/
def isAbstract : ClassDef → Bool
  | mk _ _ _ a _ => a

/-- The base list `p->bases()`. -/
def bases : ClassDef → List ClassDef
  | mk _ _ _ _ bs => bs

end ClassDef

/-- A `Slice::Enum`: scoped name and the names of its enumerators, in declaration
order (`getEnumerators()`, each read through `name()`). -/
structure EnumDef where
  scopedName : Str
  enumerators : List Str

/-- The kinds of `Slice::Builtin`. -/
inductive BuiltinKind where
  | KindByte
  | KindBool
  | KindShort
  | KindInt
  | KindLong
  | KindFloat
  | KindDouble
  | KindString
  | KindObject
  | KindObjectProxy
  | KindLocalObject
  deriving DecidableEq

/-- A `Slice::Type`, by the dynamic casts the generator performs on it: a builtin,
an enum, a struct (of which it reads the scoped name), or one of the other kinds
(sequence, dictionary, proxy, class declaration), of which it reads nothing. -/
inductive SliceType where
  | builtin (k : BuiltinKind)
  | enum (en : EnumDef)
  | struct (scopedName : Str)
  | sequence
  | dictionary
  | proxy
  | classDecl

/-- A `Slice::ClassDecl`: scoped name, interface flag and the definition it resolves
to, if any. -/
structure ClassDecl where
  scopedName : Str
  isInterface : Bool
  definition : Option ClassDef

/-- A `Slice::Exception`: scoped name, local flag and the base exception, if any. -/
inductive ExceptionDef where
  | mk (scopedName : Str) (isLocal : Bool) (base : Option ExceptionDef)

namespace ExceptionDef

/-- The scoped name `p->scoped()`. -/
def scopedName : ExceptionDef → Str
  | mk s _ _ => s

/-- The flag `p->isLocal()`. -/
def isLocal : ExceptionDef → Bool
  | mk _ l _ => l

/-- The base `p->base()`. -/
def base : ExceptionDef → Option ExceptionDef
  | mk _ _ b => b

end ExceptionDef

/-- A `Slice::Struct`, of which the generator reads the scoped name. -/
structure StructDef where
  scopedName : Str

/-- A `Slice::ParamDecl`. -/
structure ParamDecl where
  name : Str
  isOutParam : Bool
  type : SliceType

/-- A `Slice::Operation`: name, parameters in declaration order, and the container
cast to a class definition (`none` when the cast fails). -/
structure Operation where
  name : Str
  parameters : List ParamDecl
  container : Option ClassDef

/-- A `Slice::DataMember`. -/
structure DataMember where
  name : Str

/-- A `Slice::Dictionary`: scoped name and key type. -/
structure DictionaryDef where
  scopedName : Str
  keyType : SliceType

/-- A `Slice::Const`: scoped name, declared type and the literal value as parsed
text. -/
structure ConstDef where
  scopedName : Str
  type : SliceType
  value : Str

/-! ## Helpers of `ice_util` used by the generator -/

/-- What the generator uses and the sources do not define, taken as parameters:
`flatten`, `fixIdent`, `lowerCase` and `isNativeKey` of `ice_util.h`;
`IceUtil::stringToInt64` (the value it stores in its second argument); and
`longBits`, the width in bits of the platform type `long`, which fixes
`sizeof(long)`, `LONG_MIN` and `LONG_MAX`. -/
structure Util where
  flatten : Str → Str
  fixIdent : Str → Str
  lowerCase : Str → Str
  isNativeKey : SliceType → Bool
  stringToInt64 : Str → Int
  longBits : Nat

/-- The value of a string of decimal digits. -/
def decimalValue (s : Str) : Nat := s.foldl (fun acc c => 10 * acc + (c.val - 48)) 0

/-- Reads an optionally signed decimal number. -/
def signedDecimalValue (s : Str) : Int :=
  match s with
  | [] => 0
  | c :: rest => if c = byte '-' then - (decimalValue rest : Int) else (decimalValue s : Int)

/-- A concrete `Util` for running the generator on examples: scoped names are
flattened by turning every colon into an underscore, identifiers and case are left
alone, the builtin types are the native keys, numbers are read as signed decimals
and `long` has 32 bits. -/
def exampleUtil : Util where
  flatten := fun s => s.map (fun c => if c = byte ':' then byte '_' else c)
  fixIdent := fun s => s
  lowerCase := fun s => s
  isNativeKey := fun t =>
    match t with
    | SliceType.builtin _ => true
    | _ => false
  stringToInt64 := signedDecimalValue
  longBits := 32

/-! ## `std::map` -/

/-- A `std::map<string, V>` as an association list with unique keys (the order of
iteration is not modelled). -/
abbrev StrMap (V : Type) := List (Str × V)

namespace StrMap

/-- The lookup `m.find(k)`; `none` is `m.end()`. -/
def find {V : Type} (m : StrMap V) (k : Str) : Option V :=
  match m with
  | [] => none
  | (k1, x) :: rest => if k1 = k then some x else find rest k

/-- The assignment `m[k] = x`: overwrites the entry of `k` or adds one. -/
def assign {V : Type} (m : StrMap V) (k : Str) (x : V) : StrMap V :=
  match m with
  | [] => [(k, x)]
  | (k1, y) :: rest => if k1 = k then (k, x) :: rest else (k1, y) :: assign rest k x

end StrMap

/-! ## The code visitor -/

/-- The state of a `CodeVisitor`: the text written to `_out`, the class index
`_classes`, and the warnings raised through `zend_error(E_WARNING, ...)`. -/
structure CodeVisitor where
  out : Str
  classes : StrMap ClassDef
  warnings : List Str

/-- The loop that writes a base list: a comma before every entry but the first,
then the flattened scoped name. `atBegin` is the test `q != bases.begin()`
negated. -/
def writeBases (u : Util) : Bool → List ClassDef → Str → Str
  | _, [], out => out
  | atBegin, q :: qs, out =>
    let out := if atBegin then out else out ++ str ","
    writeBases u false qs (out ++ u.flatten q.scopedName)

/-- The class branch of `visitClassDefStart` from `extends` on: chooses the
superclass, pops it from the local copy of the base list when it came from there,
and returns the text together with the bases that are left. -/
def writeSuperclass (u : Util) (p : ClassDef) (out : Str) : Str × List ClassDef :=
  match p.bases with
  | b :: bs =>
    if !b.isInterface then (out ++ u.flatten b.scopedName, bs)
    else if p.isLocal then (out ++ str "Ice_LocalObjectImpl", b :: bs)
    else (out ++ str "Ice_ObjectImpl", b :: bs)
  | [] =>
    if p.isLocal then (out ++ str "Ice_LocalObjectImpl", [])
    else (out ++ str "Ice_ObjectImpl", [])

/-- The method `CodeVisitor::visitClassDefStart`. -/
def visitClassDefStart (u : Util) (v : CodeVisitor) (p : ClassDef) : CodeVisitor :=
  let flat := u.flatten p.scopedName
  let classes := v.classes.assign (u.lowerCase flat) p
  let bases := p.bases
  let out := v.out
  let out :=
    if p.isInterface then
      let out := out ++ str "interface " ++ flat ++ str " implements "
      if !bases.isEmpty then writeBases u true bases out
      else if p.isLocal then out ++ str "Ice_LocalObject"
      else out ++ str "Ice_Object"
    else
      let out := if p.isAbstract then out ++ str "abstract " else out
      let out := out ++ str "class " ++ flat ++ str " extends "
      let r := writeSuperclass u p out
      if !r.2.isEmpty then writeBases u true r.2 (r.1 ++ str " implements ")
      else r.1
  { v with out := out ++ endl ++ str "\x7b" ++ endl, classes := classes }

/-- The text of `_out << i` for a non-negative `long` under the default (decimal)
flags. -/
def decimal (n : Nat) : Str := (Nat.toDigits 10 n).map byte

/-- The loop of `visitEnum`: one `const` line per enumerator, `i` counting from the
value it is started with. The counter is a `long`; it cannot overflow on a list that
fits in memory, so it is a natural number here. -/
def writeEnumerators (u : Util) : List Str → Nat → Str → Str
  | [], _, out => out
  | q :: qs, i, out =>
    writeEnumerators u qs (i + 1)
      (out ++ str "const " ++ u.fixIdent q ++ str " = " ++ decimal i ++ str ";" ++ endl)

/-- The method `CodeVisitor::visitEnum`. -/
def visitEnum (u : Util) (v : CodeVisitor) (p : EnumDef) : CodeVisitor :=
  let flat := u.flatten p.scopedName
  let out := v.out ++ str "class " ++ flat ++ endl
  let out := out ++ str "\x7b" ++ endl
  let out := writeEnumerators u p.enumerators 0 out
  { v with out := out ++ str "\x7d" ++ endl }

/-- The constant `basicSourceChars` of `visitConst`. -/
def basicSourceChars : Str :=
  str "abcdefghijklmnopqrstuvwxyz" ++
  str "ABCDEFGHIJKLMNOPQRSTUVWXYZ" ++
  str "0123456789" ++
  str "_\x7b\x7d[]#()<>%:;,?*+=/^&|~!=,\\' \t"

/-- The text of `_out << n` for an unsigned `n` under the flags `oct`, `width(3)`
and `fill('0')`: the octal digits, padded on the left with `0` to three
characters. -/
def octal3 (n : Nat) : Str :=
  let digits := (Nat.toDigits 8 n).map byte
  List.replicate (3 - digits.length) (byte '0') ++ digits

/-- The loop of the `KindString` case of `visitConst` over the bytes of the
value. -/
def writeStringBody : Str → Str → Str
  | [], out => out
  | c :: cs, out =>
    if c = byte '$' then writeStringBody cs (out ++ str "\\$")
    else if c = byte '"' then writeStringBody cs (out ++ str "\\\"")
    else if c ∉ basicSourceChars then writeStringBody cs (out ++ str "\\" ++ octal3 c.val)
    else writeStringBody cs (out ++ [c])

/-- The enumerator loop of `visitConst`: whether some enumerator has exactly the
name `value` (the loop returns at the first one). -/
def matchEnumerator (value : Str) : List Str → Bool
  | [] => false
  | q :: qs => if q = value then true else matchEnumerator value qs

/-- The method `CodeVisitor::visitConst`. The result `none` stands for a failed
`assert(false)`: a builtin kind that cannot type a constant, or an enum value that
names no enumerator. -/
def visitConst (u : Util) (v : CodeVisitor) (p : ConstDef) : Option CodeVisitor :=
  let flat := u.flatten p.scopedName
  let value := p.value
  let out := v.out ++ str "define(\"" ++ flat ++ str "\", "
  match p.type with
  | SliceType.builtin b =>
    let body : Option Str :=
      match b with
      | BuiltinKind.KindBool => some (out ++ value)
      | BuiltinKind.KindByte => some (out ++ value)
      | BuiltinKind.KindShort => some (out ++ value)
      | BuiltinKind.KindInt => some (out ++ value)
      | BuiltinKind.KindFloat => some (out ++ value)
      | BuiltinKind.KindDouble => some (out ++ value)
      | BuiltinKind.KindLong =>
        let l := u.stringToInt64 value
        if 64 > u.longBits ∧
            (l < - (2 : Int) ^ (u.longBits - 1) ∨ l > (2 : Int) ^ (u.longBits - 1) - 1) then
          some (out ++ str "\"" ++ value ++ str "\";")
        else
          some (out ++ value)
      | BuiltinKind.KindString =>
        some (writeStringBody value (out ++ str "\"") ++ str "\"")
      | BuiltinKind.KindObject => none
      | BuiltinKind.KindObjectProxy => none
      | BuiltinKind.KindLocalObject => none
    body.map (fun out => { v with out := out ++ str ");" ++ endl })
  | SliceType.enum en =>
    let value :=
      match rfind value (byte ':') with
      | some colon => value.drop (colon + 1)
      | none => value
    if matchEnumerator value en.enumerators then
      some { v with out := out ++ u.flatten en.scopedName ++ str "::" ++ u.fixIdent value ++
                             str ");" ++ endl }
    else
      none
  | _ => some { v with out := out }

/-- The method `CodeVisitor::visitClassDecl`. -/
def visitClassDecl (v : CodeVisitor) (p : ClassDecl) : CodeVisitor :=
  match p.definition with
  | some _ => v
  | none =>
    { v with warnings := v.warnings ++
        [(if p.isInterface then str "interface" else str "class") ++ str " " ++ p.scopedName ++
          str " declared but not defined"] }

/-- The method `CodeVisitor::visitClassDefEnd`. -/
def visitClassDefEnd (v : CodeVisitor) (_p : ClassDef) : CodeVisitor :=
  { v with out := v.out ++ str "\x7d" ++ endl }

/-- The method `CodeVisitor::visitExceptionStart`. -/
def visitExceptionStart (u : Util) (v : CodeVisitor) (p : ExceptionDef) : CodeVisitor :=
  let flat := u.flatten p.scopedName
  let out := v.out ++ str "class " ++ flat ++ str " extends "
  let out :=
    match p.base with
    | none =>
      if p.isLocal then out ++ str "Ice_LocalException"
      else out ++ str "Ice_UserException"
    | some base => out ++ u.flatten base.scopedName
  { v with out := out ++ endl ++ str "\x7b" ++ endl }

/-- The method `CodeVisitor::visitExceptionEnd`. -/
def visitExceptionEnd (v : CodeVisitor) (_p : ExceptionDef) : CodeVisitor :=
  { v with out := v.out ++ str "\x7d" ++ endl }

/-- The method `CodeVisitor::visitStructStart`. -/
def visitStructStart (u : Util) (v : CodeVisitor) (p : StructDef) : CodeVisitor :=
  let out := v.out ++ str "class " ++ u.flatten p.scopedName ++ endl
  { v with out := out ++ str "\x7b" ++ endl }

/-- The method `CodeVisitor::visitStructEnd`. -/
def visitStructEnd (v : CodeVisitor) (_p : StructDef) : CodeVisitor :=
  { v with out := v.out ++ str "\x7d" ++ endl }

/-- The method `CodeVisitor::getTypeHint`. -/
def getTypeHint (u : Util) (type : SliceType) : Str :=
  match type with
  | SliceType.struct scopedName => u.flatten scopedName
  | _ => []

/-- The parameter loop of `visitOperation`; `atBegin` is the test
`q != params.begin()` negated. -/
def writeParams (u : Util) : Bool → List ParamDecl → Str → Str
  | _, [], out => out
  | atBegin, param :: qs, out =>
    let out := if atBegin then out else out ++ str ", "
    let out :=
      if param.isOutParam then out ++ str "&"
      else
        let hint := getTypeHint u param.type
        if !hint.isEmpty then out ++ hint ++ str " " else out
    writeParams u false qs (out ++ str "$" ++ u.fixIdent param.name)

/-- The method `CodeVisitor::visitOperation`. The result `none` stands for a failed
`assert(cl)`: the container is not a class definition. -/
def visitOperation (u : Util) (v : CodeVisitor) (p : Operation) : Option CodeVisitor :=
  let name := u.fixIdent p.name
  let params := p.parameters
  match p.container with
  | none => none
  | some cl =>
    let out := if !cl.isInterface then v.out ++ str "abstract public " else v.out
    let out := out ++ str "function " ++ name ++ str "("
    let out := writeParams u true params out
    some { v with out := out ++ str ");" ++ endl }

/-- The method `CodeVisitor::visitDataMember`. -/
def visitDataMember (u : Util) (v : CodeVisitor) (p : DataMember) : CodeVisitor :=
  { v with out := v.out ++ str "var $" ++ u.fixIdent p.name ++ str ";" ++ endl }

/-- The method `CodeVisitor::visitDictionary`. -/
def visitDictionary (u : Util) (v : CodeVisitor) (p : DictionaryDef) : CodeVisitor :=
  if !u.isNativeKey p.keyType then
    { v with warnings := v.warnings ++
        [str "skipping dictionary " ++ p.scopedName ++ str " - unsupported key type"] }
  else v

/-- One callback of `Slice::Unit::visit` on a `ParserVisitor`, for the methods that
`CodeVisitor` overrides. -/
inductive Visit where
  | classDecl (p : ClassDecl)
  | classDefStart (p : ClassDef)
  | classDefEnd (p : ClassDef)
  | exceptionStart (p : ExceptionDef)
  | exceptionEnd (p : ExceptionDef)
  | structStart (p : StructDef)
  | structEnd (p : StructDef)
  | operation (p : Operation)
  | dataMember (p : DataMember)
  | dictionary (p : DictionaryDef)
  | enum (p : EnumDef)
  | const (p : ConstDef)

/-- The dispatch of one callback to the visitor method of its name. -/
def visitOne (u : Util) (v : CodeVisitor) : Visit → Option CodeVisitor
  | Visit.classDecl p => some (visitClassDecl v p)
  | Visit.classDefStart p => some (visitClassDefStart u v p)
  | Visit.classDefEnd p => some (visitClassDefEnd v p)
  | Visit.exceptionStart p => some (visitExceptionStart u v p)
  | Visit.exceptionEnd p => some (visitExceptionEnd v p)
  | Visit.structStart p => some (visitStructStart u v p)
  | Visit.structEnd p => some (visitStructEnd v p)
  | Visit.operation p => visitOperation u v p
  | Visit.dataMember p => some (visitDataMember u v p)
  | Visit.dictionary p => some (visitDictionary u v p)
  | Visit.enum p => some (visitEnum u v p)
  | Visit.const p => visitConst u v p

/-- The run of a visitor over the callbacks of a unit, in order; `none` when an
assertion fails on the way. -/
def visitAll (u : Util) : CodeVisitor → List Visit → Option CodeVisitor
  | v, [] => some v
  | v, x :: xs =>
    match visitOne u v x with
    | some v1 => visitAll u v1 xs
    | none => none

/-! ## The environment of the profile code -/

/-- How a call of this file ends: it returns `true`; it returns `false`, after
`zend_error(E_ERROR, ...)` reported `msg` (the message is empty when the failure was
reported by a callee outside this file); or an `assert` fails. -/
inductive Status where
  | ok
  | error (msg : Str)
  | assertFailed
  deriving DecidableEq

/-- The value `EXIT_FAILURE`. -/
def EXIT_FAILURE : Int := 1

/-- The collaborators of the profile code that are not part of the sources, as
parameters: the property store (`Ice::Properties`), `splitString` of `ice_util`, the
Slice preprocessor and parser, the host runtime (`zend_eval_string`, which may depend
on the blocks evaluated before) and the file system. An exception of `load` is
`Except.error` with the text `ice_print` gives; `preprocess` returning 0 is `none`;
`visits` is the sequence of callbacks that `Unit::visit` makes on a visitor. -/
structure Env where
  util : Util
  Properties : Type
  SliceUnit : Type
  Contained : Type
  Module : Type
  Struct : Type
  Handle : Type
  createProperties : Properties
  load : Properties → Str → Except Str Properties
  parseCommandLineOptions : Properties → Str → List Str → Properties
  getCommandLineOptions : Properties → List Str
  splitString : Str → Option (List Str)
  createUnit : Bool → Bool → Bool → Bool → SliceUnit
  preprocess : Str → Str → Option Handle
  parse : SliceUnit → Handle → Bool → Int × SliceUnit
  close : Str → Str → Bool
  lookupTypeNoBuiltin : SliceUnit → Str → Bool → List SliceType
  lookupContained : SliceUnit → Str → Bool → List Contained
  asModule : Contained → Option Module
  createModule : SliceUnit → Str → SliceUnit × Module
  createStruct : SliceUnit → Module → Str → Bool → SliceUnit × Struct
  createDataMember : SliceUnit → Struct → Str → SliceType → SliceUnit
  visits : SliceUnit → List Visit
  zend_eval_string : List (Str × Str) → Str → Str → Bool
  readFile : Str → Option Str

/-- A `Profile`. -/
structure Profile (env : Env) where
  name : Str
  unit : env.SliceUnit
  code : Str
  classes : StrMap ClassDef
  properties : env.Properties

/-- The global state: the table `_profiles`, the slots `ICE_G(profile)` and
`ICE_G(properties)`, the blocks passed to `zend_eval_string` so far (block name and
text, oldest first) and the warnings raised so far. -/
structure World (env : Env) where
  profiles : StrMap (Profile env)
  activeProfile : Option (Profile env)
  activeProperties : Option env.Properties
  evaluated : List (Str × Str)
  warnings : List Str

/-- The constant `_defaultProfileName`. -/
def _defaultProfileName : Str := str "__default__"

/-- The constant `_coreTypes`. -/
def _coreTypes : Str :=
  str "define(\"ICE_STRING_VERSION\", \"1.1.0\");\n" ++
  str "define(\"ICE_INT_VERSION\", 10100);\n" ++
  str "\n" ++
  str "abstract class Ice_LocalException\n" ++
  str "\x7b\n" ++
  str "\x7d\n" ++
  str "\n" ++
  str "class Ice_UnknownException extends Ice_LocalException\n" ++
  str "\x7b\n" ++
  str "    var $unknown;\n" ++
  str "\x7d\n" ++
  str "\n" ++
  str "class Ice_UnknownLocalException extends Ice_UnknownException\n" ++
  str "\x7b\n" ++
  str "\x7d\n" ++
  str "\n" ++
  str "class Ice_UnknownUserException extends Ice_UnknownException\n" ++
  str "\x7b\n" ++
  str "\x7d\n" ++
  str "\n" ++
  str "class Ice_RequestFailedException extends Ice_LocalException\n" ++
  str "\x7b\n" ++
  str "    var $id;\n" ++
  str "    var $facet;\n" ++
  str "    var $operation;\n" ++
  str "\x7d\n" ++
  str "\n" ++
  str "class Ice_ObjectNotExistException extends Ice_RequestFailedException\n" ++
  str "\x7b\n" ++
  str "\x7d\n" ++
  str "\n" ++
  str "class Ice_FacetNotExistException extends Ice_RequestFailedException\n" ++
  str "\x7b\n" ++
  str "\x7d\n" ++
  str "\n" ++
  str "class Ice_OperationNotExistException extends Ice_RequestFailedException\n" ++
  str "\x7b\n" ++
  str "\x7d\n" ++
  str "\n" ++
  str "abstract class Ice_UserException\n" ++
  str "\x7b\n" ++
  str "\x7d\n" ++
  str "\n" ++
  str "interface Ice_LocalObject\n" ++
  str "\x7b\n" ++
  str "\x7d\n" ++
  str "\n" ++
  str "class Ice_LocalObjectImpl implements Ice_LocalObject\n" ++
  str "\x7b\n" ++
  str "\x7d\n" ++
  str "\n" ++
  str "interface Ice_Object\n" ++
  str "\x7b\n" ++
  str "\x7d\n" ++
  str "\n" ++
  str "class Ice_ObjectImpl implements Ice_Object\n" ++
  str "\x7b\n" ++
  str "    var $ice_facets = array();\n" ++
  str "\x7d\n"

/-! ## `parseSlice` and `createProfile` -/

/-- The first loop of `parseSlice`, over the arguments: it collects the preprocessor
arguments, the case-sensitivity flag and the files, and fails on an unknown option. -/
def parseSliceArgs : List Str → Str → List Str → Bool → Except Str (Str × List Str × Bool)
  | [], cppArgs, files, caseSensitive => Except.ok (cppArgs, files, caseSensitive)
  | arg :: rest, cppArgs, files, caseSensitive =>
    if substr arg 0 2 = str "-I" ∨ substr arg 0 2 = str "-D" ∨ substr arg 0 2 = str "-U" then
      let cppArgs := cppArgs ++ str " "
      let cppArgs :=
        if find arg (byte ' ') 0 ≠ none then cppArgs ++ str "'" ++ arg ++ str "'"
        else cppArgs ++ arg
      parseSliceArgs rest cppArgs files caseSensitive
    else if arg = str "--case-sensitive" then
      parseSliceArgs rest cppArgs files true
    else if arg.head? = some (byte '-') then
      Except.error (str "unknown option `" ++ arg ++ str "' in ice.slice")
    else
      parseSliceArgs rest cppArgs (files ++ [arg]) caseSensitive

/-- The second loop of `parseSlice`, over the files: preprocess, parse, close; the
result is the final value of `status` with the unit. -/
def parseSliceFiles (env : Env) (cppArgs : Str) (debug : Bool) :
    List Str → env.SliceUnit → Bool × env.SliceUnit
  | [], unit => (true, unit)
  | p :: rest, unit =>
    match env.preprocess p cppArgs with
    | none => (false, unit)
    | some cppHandle =>
      let r := env.parse unit cppHandle debug
      if !env.close p cppArgs then (false, r.2)
      else if r.1 = EXIT_FAILURE then (false, r.2)
      else parseSliceFiles env cppArgs debug rest r.2

/-- The function `parseSlice`: the unit on success, the error message on failure. -/
def parseSlice (env : Env) (argStr : Str) : Except Str env.SliceUnit :=
  match env.splitString argStr with
  | none => Except.error []
  | some args =>
    match parseSliceArgs args [] [] false with
    | Except.error msg => Except.error msg
    | Except.ok (cppArgs, files, caseSensitive) =>
      if files.isEmpty then Except.error (str "no Slice files specified in ice.slice")
      else
        let unit := env.createUnit false true true caseSensitive
        let r := parseSliceFiles env cppArgs false files unit
        if r.1 then Except.ok r.2 else Except.error []

/-- The block of `createProfile` that creates `::Ice::Identity` when the unit does not
define it. -/
def ensureIdentity (env : Env) (unit : env.SliceUnit) : Except Str env.SliceUnit :=
  let scopedName := str "::Ice::Identity"
  let l := env.lookupTypeNoBuiltin unit scopedName false
  if l.isEmpty then
    let c := env.lookupContained unit (str "Ice") false
    let r : Except Str (env.SliceUnit × env.Module) :=
      match c with
      | [] => Except.ok (env.createModule unit (str "Ice"))
      | front :: _ =>
        match env.asModule front with
        | some module => Except.ok (unit, module)
        | none => Except.error (str "the symbol `::Ice' is defined in Slice but is not a module")
    match r with
    | Except.error msg => Except.error msg
    | Except.ok (unit, module) =>
      let r := env.createStruct unit module (str "Identity") false
      let stringType := SliceType.builtin BuiltinKind.KindString
      let unit := env.createDataMember r.1 r.2 (str "category") stringType
      let unit := env.createDataMember unit r.2 (str "name") stringType
      Except.ok unit
  else Except.ok unit

/-- The function `createProfile`. -/
def createProfile (env : Env) (w : World env) (name config options slice : Str) :
    Status × World env :=
  match w.profiles.find name with
  | some _ => (Status.error (str "profile `" ++ name ++ str "' already exists"), w)
  | none =>
    let properties := env.createProperties
    let loaded : Except Str env.Properties :=
      if !config.isEmpty then env.load properties config else Except.ok properties
    match loaded with
    | Except.error text =>
      (Status.error (str "unable to load Ice configuration file " ++ config ++ str ":\n" ++ text), w)
    | Except.ok properties =>
      let parsed : Option env.Properties :=
        if !options.isEmpty then
          match env.splitString options with
          | none => none
          | some args => some (env.parseCommandLineOptions properties [] args)
        else some properties
      match parsed with
      | none => (Status.error [], w)
      | some properties =>
        let sliced : Except Str env.SliceUnit :=
          if !slice.isEmpty then parseSlice env slice
          else Except.ok (env.createUnit false false true false)
        match sliced with
        | Except.error msg => (Status.error msg, w)
        | Except.ok unit =>
          match ensureIdentity env unit with
          | Except.error msg => (Status.error msg, w)
          | Except.ok unit =>
            match visitAll env.util ⟨[], [], []⟩ (env.visits unit) with
            | none => (Status.assertFailed, w)
            | some visitor =>
              let profile : Profile env :=
                { name := name, unit := unit, code := visitor.out, classes := visitor.classes,
                  properties := properties }
              (Status.ok, { w with profiles := w.profiles.assign name profile,
                                   warnings := w.warnings ++ visitor.warnings })

/-! ## The descriptor loader of `profileInit` -/

/-- The constant `delim` of the loader. -/
def delim : Str := str " \t\r\n"

/-- The call `in.getline(line, n)` on the rest `inp` of the file: `none` when the
stream fails (nothing is left, or `n - 1` bytes were stored and the next byte is not
the line end); otherwise the bytes stored in `line` and the rest of the file after
the line end. -/
def getline (n : Nat) (inp : Str) : Option (Str × Str) :=
  if inp.isEmpty then none
  else
    let line := inp.takeWhile (fun x => decide (x ≠ byte '\n'))
    if line.length < n then some (line, (inp.drop line.length).tail)
    else none

/-- The buffers that the successive calls of `in.getline(line, n)` in the loop
condition produce, until the stream fails. Every successful call consumes at least
one byte, so a `fuel` of the length of the input is enough. -/
def readLines (n : Nat) : Nat → Str → List Str
  | 0, _ => []
  | fuel + 1, inp =>
    match getline n inp with
    | none => []
    | some (line, rest) => line :: readLines n fuel rest

/-- The local variables of the loader, the state `world` its calls of `createProfile`
act on, and the record `calls` of the arguments of those calls, oldest first. -/
structure Loader (σ : Type) where
  world : σ
  currentName : Str
  currentConfig : Str
  currentOptions : Str
  currentSlice : Str
  calls : List (Str × Str × Str × Str)

/-- The call `createProfile(currentName, currentConfig, currentOptions,
currentSlice)` of the loader. -/
def callCreate {σ : Type} (create : σ → Str → Str → Str → Str → Status × σ)
    (l : Loader σ) : Status × Loader σ :=
  let r := create l.world l.currentName l.currentConfig l.currentOptions l.currentSlice
  (r.1, { l with world := r.2,
                 calls := l.calls ++
                   [(l.currentName, l.currentConfig, l.currentOptions, l.currentSlice)] })

/-- What one pass through the loop body does: go on with the next line, or leave
`profileInit`. -/
inductive LineResult (σ : Type) where
  | next (l : Loader σ)
  | stop (st : Status) (l : Loader σ)

/-- The first statements of the loop body: the string `s` made from the buffer
`line`, cut at the first `;` and stripped of trailing white space. -/
def stripLine (line : Str) : Str :=
  let s := cstring line
  let s :=
    match find s (byte ';') 0 with
    | some idx => erase s idx
    | none => s
  match find_last_not_of s delim with
  | some idx => if idx + 1 < s.length then erase s (idx + 1) else s
  | none => s

/-- The body of the `while` loop of the loader for the buffer `line`. -/
def processLine {σ : Type} (create : σ → Str → Str → Str → Str → Status × σ)
    (profiles : Str) (l : Loader σ) (line : Str) : LineResult σ :=
  let s := stripLine line
  match find_first_not_of s delim 0 with
  | none => LineResult.next l
  | some beg =>
    if s[beg]? = some (byte '[') then
      let beg := beg + 1
      match find_first_of s (str " \t]") beg with
      | none =>
        LineResult.stop (Status.error (str "invalid profile section in file " ++ profiles ++
          str ":\n" ++ cstring line ++ str "\n")) l
      | some fin =>
        if s.getLast? ≠ some (byte ']') then
          LineResult.stop (Status.error (str "invalid profile section in file " ++ profiles ++
            str ":\n" ++ cstring line ++ str "\n")) l
        else if !l.currentName.isEmpty then
          match callCreate create l with
          | (Status.ok, l1) =>
            LineResult.next { l1 with currentConfig := [], currentOptions := [],
                                      currentSlice := [],
                                      currentName := substr s beg (fin - beg) }
          | (st, l1) => LineResult.stop st l1
        else
          LineResult.next { l with currentName := substr s beg (fin - beg) }
    else
      match find_first_of s (delim ++ str "=") beg with
      | none => LineResult.stop Status.assertFailed l
      | some fin =>
        let key := substr s beg (fin - beg)
        match find s (byte '=') fin with
        | none =>
          LineResult.stop (Status.error (str "invalid profile entry in file " ++ profiles ++
            str ":\n" ++ cstring line ++ str "\n")) l
        | some eq =>
          let fin := eq + 1
          let value :=
            match find_first_not_of s delim fin with
            | some beg => substr s beg (s.length - beg)
            | none => []
          let assigned : Option (Loader σ) :=
            if key = str "config" then some { l with currentConfig := value }
            else if key = str "options" then some { l with currentOptions := value }
            else if key = str "slice" then some { l with currentSlice := value }
            else none
          match assigned with
          | none =>
            LineResult.stop (Status.error (str "unknown profile entry in file " ++ profiles ++
              str ":\n" ++ cstring line ++ str "\n")) l
          | some l1 =>
            if l1.currentName.isEmpty then
              LineResult.stop (Status.error (str "no section for profile entry in file " ++
                profiles ++ str ":\n" ++ cstring line ++ str "\n")) l1
            else LineResult.next l1

/-- The statement after the loop: the pending section, if any, is created. -/
def atEnd {σ : Type} (create : σ → Str → Str → Str → Str → Status × σ)
    (l : Loader σ) : Status × Loader σ :=
  if !l.currentName.isEmpty then callCreate create l else (Status.ok, l)

/-- The `while` loop of the loader over the buffers read, then the statement after
the loop. -/
def loadLines {σ : Type} (create : σ → Str → Str → Str → Str → Status × σ)
    (profiles : Str) : List Str → Loader σ → Status × Loader σ
  | [], l => atEnd create l
  | line :: rest, l =>
    match processLine create profiles l line with
    | LineResult.next l1 => loadLines create profiles rest l1
    | LineResult.stop st l1 => (st, l1)

/-- The descriptor loader of `profileInit`, from the declaration of `currentName` to
the end of the `if` block, on the text `text` of the file named `profiles`. -/
def loadProfiles {σ : Type} (create : σ → Str → Str → Str → Str → Status × σ)
    (profiles : Str) (text : Str) (w : σ) : Status × Loader σ :=
  loadLines create profiles (readLines 1024 text.length text) ⟨w, [], [], [], [], []⟩

/-- The function `profileInit`, for the values of the settings `ice.config`,
`ice.options`, `ice.profiles` and `ice.slice`. -/
def profileInit (env : Env) (config options profiles slice : Str) (w : World env) :
    Status × World env :=
  match createProfile env w _defaultProfileName config options slice with
  | (Status.ok, w1) =>
    if profiles.length > 0 then
      match env.readFile profiles with
      | none => (Status.error (str "unable to open Ice profiles in " ++ profiles), w1)
      | some text =>
        let r := loadProfiles (createProfile env) profiles text w1
        (r.1, r.2.world)
    else (Status.ok, w1)
  | (st, w1) => (st, w1)

/-! ## `do_load` -/

/-- The function `do_load`. -/
def do_load (env : Env) (w : World env) (name : Str) (args : List Str) :
    Status × World env :=
  match w.activeProfile with
  | some profile =>
    (Status.error (str "an Ice profile (`" ++ profile.name ++ str "') has already been loaded"),
      w)
  | none =>
    let profileName := if name.isEmpty then _defaultProfileName else name
    match w.profiles.find profileName with
    | none => (Status.error (str "profile `" ++ profileName ++ str "' not found"), w)
    | some profile =>
      let w1 := { w with evaluated := w.evaluated ++ [(str "__core", _coreTypes)] }
      if !env.zend_eval_string w.evaluated _coreTypes (str "__core") then
        (Status.error (str "unable to create core types:\n" ++ _coreTypes ++ str "\n"), w1)
      else
        let w2 := { w1 with evaluated := w1.evaluated ++ [(str "__slice", profile.code)] }
        if !env.zend_eval_string w1.evaluated profile.code (str "__slice") then
          (Status.error (str "unable to create Slice types:\n" ++ profile.code ++ str "\n"), w2)
        else
          let properties := env.createProperties
          let properties :=
            env.parseCommandLineOptions properties []
              (env.getCommandLineOptions profile.properties)
          let properties := env.parseCommandLineOptions properties [] args
          (Status.ok, { w2 with activeProperties := some properties,
                                activeProfile := some profile })

/-! ## Vocabulary of the specification -/

/-- The comma-joined text of a list of names. -/
def commaJoin : List Str → Str
  | [] => []
  | [x] => x
  | x :: y :: rest => x ++ str "," ++ commaJoin (y :: rest)

/-- The fixed default superclass of a class: the local object root when the class
is local, the remote object root when it is not. -/
def defaultSuperclass (p : ClassDef) : Str :=
  if p.isLocal then str "Ice_LocalObjectImpl" else str "Ice_ObjectImpl"

/-- The superclass the specification gives a class: the flattened first base when
there is one and it is not an interface, the fixed default otherwise. -/
def superclass (u : Util) (p : ClassDef) : Str :=
  match p.bases with
  | b :: _ => if b.isInterface = false then u.flatten b.scopedName else defaultSuperclass p
  | [] => defaultSuperclass p

/-- The bases left for the `implements` clause: all of them, minus a first base
that is not an interface. -/
def implementsList (p : ClassDef) : List ClassDef :=
  match p.bases with
  | b :: bs => if b.isInterface = false then bs else b :: bs
  | [] => []

/-- The `implements` clause of a class for the bases `rest`: omitted when `rest`
is empty, the comma-joined flattened names otherwise. -/
def implementsClause (u : Util) (rest : List ClassDef) : Str :=
  if rest.isEmpty then []
  else str " implements " ++ commaJoin (rest.map (fun b => u.flatten b.scopedName))

/-- The keyword that opens an abstract class. -/
def abstractKeyword (p : ClassDef) : Str :=
  if p.isAbstract then str "abstract " else []

/-- Whether the body of a double-quoted literal contains the byte `m` outside an
escape sequence. The body is read from left to right as the host reads it: a
backslash and the byte that follows it form one escape sequence, so a quote or a
dollar is escaped exactly when it is the second byte of such a pair. -/
def hasUnescaped (m : Byte) : Str → Bool
  | [] => false
  | [c] => decide (c ≠ byte '\\' ∧ c = m)
  | c :: d :: rest =>
    if c = byte '\\' then hasUnescaped m rest
    else if c = m then true
    else hasUnescaped m (d :: rest)

/-- The character of an octal digit: `0` to `7` for the value `d` modulo 8. -/
def octalDigit (d : Nat) : Byte := ⟨(48 + d % 8) % 256, Nat.mod_lt _ (by decide)⟩

/-- The rendering of one byte of a string value, in the words of the specification:
`$` and `"` are backslash-escaped, a byte outside the basic source character set is
a backslash and three octal digits, every other byte is itself. -/
def renderByte (c : Byte) : Str :=
  if c = byte '$' then str "\\$"
  else if c = byte '"' then str "\\\""
  else if c ∉ basicSourceChars then str "\\" ++ octal3 c.val
  else [c]

/-- A visitor that has written nothing yet. -/
def emptyVisitor : CodeVisitor := ⟨[], [], []⟩

/-- An interface `::M::I1` without bases. -/
def exampleInterface1 : ClassDef := ClassDef.mk (str "::M::I1") true false true []

/-- An interface `::M::I2` without bases. -/
def exampleInterface2 : ClassDef := ClassDef.mk (str "::M::I2") true false true []

/-- A concrete class `::M::C1` without bases. -/
def exampleClass1 : ClassDef := ClassDef.mk (str "::M::C1") false false false []

/-- A class `::M::D` whose base list is `[I1, C1, I2]`: one non-interface base,
in second position. -/
def exampleInterfaceFirst : ClassDef :=
  ClassDef.mk (str "::M::D") false false true [exampleInterface1, exampleClass1, exampleInterface2]

/-- A class `::M::D` whose base list is `[C1, I2]`. -/
def exampleClassFirst : ClassDef :=
  ClassDef.mk (str "::M::D") false true false [exampleClass1, exampleInterface2]

/-- An enum `::M::E` with the enumerators `A`, `B`, `C`. -/
def exampleEnum : EnumDef := ⟨str "::M::E", [str "A", str "B", str "C"]⟩

/-- One line of the class generated for an enum: the constant of enumerator `e`
with value `i`. -/
def constLine (u : Util) (i : Nat) (e : Str) : Str :=
  str "const " ++ u.fixIdent e ++ str " = " ++ decimal i ++ str ";" ++ endl

/-- The constant lines of the enumerators `es`, numbered in order from `i`. -/
def constLinesFrom (u : Util) : Nat → List Str → List Str
  | _, [] => []
  | i, e :: es => constLine u i e :: constLinesFrom u (i + 1) es

/-- A small environment for running the profile code on examples: property sets
are lists of options, a unit is the list of its callbacks, every file loads, parses
and evaluates, and no descriptor file can be opened. -/
def exampleEnv : Env where
  util := exampleUtil
  Properties := List Str
  SliceUnit := List Visit
  Contained := Unit
  Module := Unit
  Struct := Unit
  Handle := Unit
  createProperties := []
  load := fun p _ => Except.ok p
  parseCommandLineOptions := fun p _ args => p ++ args
  getCommandLineOptions := fun p => p
  splitString := fun s => some [s]
  createUnit := fun _ _ _ _ => []
  preprocess := fun _ _ => some ()
  parse := fun unit _ _ => (0, unit)
  close := fun _ _ => true
  lookupTypeNoBuiltin := fun _ _ _ => []
  lookupContained := fun _ _ _ => []
  asModule := fun _ => some ()
  createModule := fun unit _ => (unit, ())
  createStruct := fun unit _ _ _ => (unit, ())
  createDataMember := fun unit _ _ _ => unit
  visits := fun unit => unit
  zend_eval_string := fun _ _ _ => true
  readFile := fun _ => none

/-- A profile `x` of the example environment, with some generated code and one
option. -/
def exampleProfile : Profile exampleEnv where
  name := str "x"
  unit := []
  code := str "class X\n\x7b\n\x7d\n"
  classes := []
  properties := [str "--Ice.Trace.Network=1"]

/-- A world in which the profile `x` is registered and active. -/
def exampleActiveWorld : World exampleEnv where
  profiles := [(str "x", exampleProfile)]
  activeProfile := some exampleProfile
  activeProperties := some [str "--Ice.Trace.Network=1"]
  evaluated := [(str "__core", _coreTypes), (str "__slice", exampleProfile.code)]
  warnings := []

/-- A world in which the profile `x` is registered and no profile is active. -/
def exampleIdleWorld : World exampleEnv where
  profiles := [(str "x", exampleProfile)]
  activeProfile := none
  activeProperties := none
  evaluated := []
  warnings := []

/-! ## Vocabulary of the descriptor format -/

/-- One `key = value` line of a descriptor: the key, the white space before and
after the `=`, and the value. -/
structure Entry where
  key : Str
  gap1 : Str
  gap2 : Str
  value : Str

/-- One section of a descriptor: its name and its entries, in file order. -/
structure Section where
  name : Str
  entries : List Entry

/-- The header line `[name]`. -/
def headerLine (name : Str) : Str := str "[" ++ name ++ str "]"

/-- The line `key = value` of an entry. -/
def entryLine (e : Entry) : Str := e.key ++ e.gap1 ++ str "=" ++ e.gap2 ++ e.value

/-- The lines of a section: its header, then its entries. -/
def sectionLines (sec : Section) : List Str :=
  headerLine sec.name :: sec.entries.map entryLine

/-- The lines of a descriptor, section after section. -/
def descriptorLines : List Section → List Str
  | [] => []
  | sec :: rest => sectionLines sec ++ descriptorLines rest

/-- The text of a file with the given lines: a line end between two lines, and
after the last line when `final` is set. -/
def joinLines (final : Bool) : List Str → Str
  | [] => []
  | [l] => if final then l ++ str "\n" else l
  | l :: m :: rest => l ++ str "\n" ++ joinLines final (m :: rest)

/-- The text of a descriptor. -/
def descriptorText (final : Bool) (secs : List Section) : Str :=
  joinLines final (descriptorLines secs)

/-- The last value that the entries assign to `key`, starting from `init`. -/
def lastValueFrom (init key : Str) (entries : List Entry) : Str :=
  entries.foldl (fun acc e => if e.key = key then e.value else acc) init

/-- The last value that the entries assign to `key`; the empty string when there is
none. -/
def lastValue (key : Str) (entries : List Entry) : Str := lastValueFrom [] key entries

/-- The create call the specification expects for a section. -/
def expectedCall (sec : Section) : Str × Str × Str × Str :=
  (sec.name, lastValue (str "config") sec.entries, lastValue (str "options") sec.entries,
    lastValue (str "slice") sec.entries)

/-- A section name the header `[name]` can carry: not empty, free of blank, tab,
`]`, `;`, line end and NUL, and short enough for the header to fit the line
buffer. -/
def ValidName (name : Str) : Prop :=
  name ≠ [] ∧ (∀ x ∈ name, x ∉ str " \t];\n" ∧ x ≠ 0) ∧ (headerLine name).length < 1024

/-- An entry of the format: the key is one of the three keys, the gaps are white
space, the value is free of `;`, line end and NUL and neither starts nor ends with
white space, and the line fits the line buffer. -/
def ValidEntry (e : Entry) : Prop :=
  e.key ∈ [str "config", str "options", str "slice"]
  ∧ (∀ x ∈ e.gap1, x ∈ str " \t\r")
  ∧ (∀ x ∈ e.gap2, x ∈ str " \t\r")
  ∧ (∀ x ∈ e.value, x ∉ str ";\n" ∧ x ≠ 0)
  ∧ (∀ x, e.value.head? = some x → x ∉ delim)
  ∧ (∀ x, e.value.getLast? = some x → x ∉ delim)
  ∧ (entryLine e).length < 1024

/-- A section of the format. -/
def ValidSection (sec : Section) : Prop :=
  ValidName sec.name ∧ ∀ e ∈ sec.entries, ValidEntry e

/-- The reference behaviour of a sequence of create calls: each call in order, on
the state the one before left, until one does not succeed; the result is the status
of the last call made, the state it left and the calls made. -/
def createAll {σ : Type} (create : σ → Str → Str → Str → Str → Status × σ) :
    σ → List (Str × Str × Str × Str) → Status × σ × List (Str × Str × Str × Str)
  | w, [] => (Status.ok, w, [])
  | w, c :: cs =>
    match create w c.1 c.2.1 c.2.2.1 c.2.2.2 with
    | (Status.ok, w1) =>
      let r := createAll create w1 cs
      (r.1, r.2.1, c :: r.2.2)
    | (st, w1) => (st, w1, [c])

/-- The assignment an entry line makes to the variable of its key. -/
def assignKey {σ : Type} (key value : Str) (l : Loader σ) : Loader σ :=
  if key = str "config" then { l with currentConfig := value }
  else if key = str "options" then { l with currentOptions := value }
  else if key = str "slice" then { l with currentSlice := value }
  else l

/-- A create function without state that always succeeds. -/
def okCreate : Unit → Str → Str → Str → Str → Status × Unit :=
  fun w _ _ _ _ => (Status.ok, w)

/-- A create function without state that always fails. -/
def failCreate : Unit → Str → Str → Str → Str → Status × Unit :=
  fun w _ _ _ _ => (Status.error [], w)

/-- The two-section descriptor of the specification,
`[a]`, `config=c1`, `[b]`, `options=o2`. -/
def exampleSections : List Section :=
  [⟨str "a", [⟨str "config", [], [], str "c1"⟩]⟩, ⟨str "b", [⟨str "options", [], [], str "o2"⟩]⟩]

/-- The lines of a text: the runs of bytes between line ends; a line end at the very
end of the text does not open another line. -/
def textLines : Str → List Str
  | [] => []
  | c :: rest =>
    if c = byte '\n' then [] :: textLines rest
    else
      match textLines rest with
      | [] => [[c]]
      | l :: ls => (c :: l) :: ls

/-- The text of a line as the loader reads it, after comment stripping and trimming
on the left: the bytes before the first NUL, cut at the first `;`, without the
leading white space. -/
def lineText (line : Str) : Str :=
  ((cstring line).takeWhile (fun x => decide (x ≠ byte ';'))).dropWhile
    (fun x => decide (x ∈ delim))

/-- A section-header line: a line whose text opens with `[`. -/
def isSectionHeader (line : Str) : Bool := (lineText line).head? = some (byte '[')

/-- The section name of a header line: what follows the `[`, up to the first blank,
tab or `]`. -/
def sectionName (line : Str) : Str :=
  ((lineText line).drop 1).takeWhile (fun x => decide (x ∉ str " \t]"))

/-- The number of create calls still owed to the section being read: one when a
section with a non-empty name is open. -/
def pending {σ : Type} (l : Loader σ) : Nat := if l.currentName.isEmpty then 0 else 1

/-! ## Vocabulary and examples for interfaces, exceptions and operations -/

/-- The marker an interface without bases implements: the local object marker when
the interface is local, the remote object marker when it is not. -/
def defaultInterface (p : ClassDef) : Str :=
  if p.isLocal then str "Ice_LocalObject" else str "Ice_Object"

/-- The fixed superclass of an exception without a base: the local exception root
when the exception is local, the user exception root when it is not. -/
def defaultException (p : ExceptionDef) : Str :=
  if p.isLocal then str "Ice_LocalException" else str "Ice_UserException"

/-- An interface `::M::I3` whose bases are the interfaces `I1` and `I2`. -/
def exampleInterface3 : ClassDef :=
  ClassDef.mk (str "::M::I3") true false true [exampleInterface1, exampleInterface2]

/-- A local interface `::M::L` without bases. -/
def exampleLocalInterface : ClassDef := ClassDef.mk (str "::M::L") true true true []

/-- A user exception `::M::Base` without a base. -/
def exampleException : ExceptionDef := ExceptionDef.mk (str "::M::Base") false none

/-- A user exception `::M::Derived` whose base is `::M::Base`. -/
def exampleDerivedException : ExceptionDef :=
  ExceptionDef.mk (str "::M::Derived") false (some exampleException)

/-- The value the property sets of the example environment give a key: the value
of the last option `--key=value` of the list, if there is one. -/
def optionValue (options : List Str) (key : Str) : Option Str :=
  options.foldl (fun found arg =>
    if (str "--" ++ key ++ str "=").isPrefixOf arg then some (arg.drop (key.length + 3))
    else found) none

/-- The example environment with a host runtime that accepts exactly the blocks
whose name `accept` admits. -/
def hostEnv (accept : Str → Bool) : Env :=
  { exampleEnv with zend_eval_string := fun _ _ blockName => accept blockName }

/-- A world of `hostEnv accept` in which the profile `x` is registered and no
profile is active. -/
def hostWorld (accept : Str → Bool) : World (hostEnv accept) where
  profiles := [(str "x", ⟨str "x", [], str "class X\n\x7b\n\x7d\n", [],
    [str "--Ice.Trace.Network=1"]⟩)]
  activeProfile := none
  activeProperties := none
  evaluated := []
  warnings := []

/-- The texts `xs` joined with the separator `sep` between neighbours. -/
def sepJoin (sep : Str) : List Str → Str
  | [] => []
  | [x] => x
  | x :: y :: rest => x ++ sep ++ sepJoin sep (y :: rest)

/-- What the parameter loop of `visitOperation` writes for one parameter, after the
separator: `&` for an out-parameter, the type hint and a blank for an in-parameter
whose hint is not empty, then `$` and the fixed name. -/
def paramText (u : Util) (param : ParamDecl) : Str :=
  (if param.isOutParam then str "&"
    else if !(getTypeHint u param.type).isEmpty then getTypeHint u param.type ++ str " "
    else []) ++ str "$" ++ u.fixIdent param.name

/-- The rendering of a parameter in the words of the specification of the signature
line: `$` and the fixed name, after `&` for an out-parameter. -/
def plainParamText (u : Util) (param : ParamDecl) : Str :=
  (if param.isOutParam then str "&" else []) ++ str "$" ++ u.fixIdent param.name

/-- The keywords before `function` in the signature of an operation of `cl`. -/
def signaturePrefix (cl : ClassDef) : Str :=
  if cl.isInterface then [] else str "abstract public "

/-- An operation `op(S s, out S t, int n, out int m)` of the interface `::M::I1`,
where `S` is the struct `::M::S`. -/
def exampleOperation : Operation where
  name := str "op"
  parameters := [⟨str "s", false, SliceType.struct (str "::M::S")⟩,
    ⟨str "t", true, SliceType.struct (str "::M::S")⟩,
    ⟨str "n", false, SliceType.builtin BuiltinKind.KindInt⟩,
    ⟨str "m", true, SliceType.builtin BuiltinKind.KindInt⟩]
  container := some exampleInterface1

/-- An operation `get(S s)` of the class `::M::C1`. -/
def exampleClassOperation : Operation where
  name := str "get"
  parameters := [⟨str "s", false, SliceType.struct (str "::M::S")⟩]
  container := some exampleClass1

/-- The signature line of an operation of `cl` in the words of the specification of
the signature line, with every parameter rendered by `plainParamText`. -/
def plainSignature (u : Util) (p : Operation) (cl : ClassDef) : Str :=
  signaturePrefix cl ++ str "function " ++ u.fixIdent p.name ++ str "(" ++
    sepJoin (str ", ") (p.parameters.map (plainParamText u)) ++ str ");" ++ endl

/-- The key of a class definition in the class index: its flattened name in lower
case. -/
def classKey (u : Util) (d : ClassDef) : Str := u.lowerCase (u.flatten d.scopedName)

/-- ASCII letters in lower case. -/
def asciiLower (s : Str) : Str :=
  s.map (fun c => if 65 ≤ c.val ∧ c.val ≤ 90 then c + 32 else c)

/-- The example helpers, with a `lowerCase` that folds the ASCII letters. -/
def foldingUtil : Util := { exampleUtil with lowerCase := asciiLower }

/-- A class `::M::Foo`. -/
def exampleUpperClass : ClassDef := ClassDef.mk (str "::M::Foo") false false false []

/-- A class `::M::foo`, which differs from `::M::Foo` in case only. -/
def exampleLowerClass : ClassDef := ClassDef.mk (str "::M::foo") false false false []

/-- The callbacks of a unit that defines the classes `::M::Foo` and `::M::foo`, as
the case-sensitive mode of the parser admits. -/
def exampleCaseUnit : List Visit :=
  [Visit.classDefStart exampleUpperClass, Visit.classDefEnd exampleUpperClass,
    Visit.classDefStart exampleLowerClass, Visit.classDefEnd exampleLowerClass]

/-- The callbacks of a unit that defines the struct `::M::S`, the exception
`::M::Base`, the enum `::M::E`, the interface `::M::I1` and the class `::M::C1`. -/
def exampleMixedUnit : List Visit :=
  [Visit.structStart ⟨str "::M::S"⟩, Visit.dataMember ⟨str "x"⟩, Visit.structEnd ⟨str "::M::S"⟩,
    Visit.exceptionStart exampleException, Visit.exceptionEnd exampleException,
    Visit.enum exampleEnum,
    Visit.classDefStart exampleInterface1, Visit.operation exampleOperation,
    Visit.classDefEnd exampleInterface1,
    Visit.classDefStart exampleClass1, Visit.classDefEnd exampleClass1]

/-- The class index `m` after the callback `x`: the start of a class or interface
definition assigns the definition to its key, every other callback leaves `m` as it
is. -/
def indexAfter (u : Util) (m : StrMap ClassDef) : Visit → StrMap ClassDef
  | Visit.classDefStart d => m.assign (classKey u d) d
  | _ => m

/-! ## Vocabulary for the lines the loader rejects -/

/-- The builtin kinds whose constants are written with the parsed text as it
stands: the first six labels of the `switch` in `visitConst`. -/
def verbatimKinds : List BuiltinKind :=
  [BuiltinKind.KindBool, BuiltinKind.KindByte, BuiltinKind.KindShort, BuiltinKind.KindInt,
    BuiltinKind.KindFloat, BuiltinKind.KindDouble]

/-- What a run of the visitor generates: the source text and the class index, without
the warnings raised on the way. -/
def generated (v : CodeVisitor) : Str × StrMap ClassDef := (v.out, v.classes)

/-- A dictionary `::M::D` keyed by a struct, which is not a native key type. -/
def exampleDictionary : DictionaryDef := ⟨str "::M::D", SliceType.struct (str "::M::S")⟩

/-- The callbacks of a unit that defines the enum `::M::E`, the dictionary `::M::D`
and the class `::M::C1`. -/
def exampleDictionaryUnit : List Visit :=
  [Visit.enum exampleEnum, Visit.dictionary exampleDictionary,
    Visit.classDefStart exampleClass1, Visit.classDefEnd exampleClass1]

/-! ## Vocabulary for reading a string literal back -/

/-- An octal digit, `0` to `7`. -/
def isOctalDigit (c : Byte) : Bool := decide (48 ≤ c.val ∧ c.val ≤ 55)

/-- The value of a run of octal digits. -/
def octalValue (ds : Str) : Nat := ds.foldl (fun acc c => 8 * acc + (c.val - 48)) 0

/-- The byte of the value `n`, modulo 256. -/
def byteOf (n : Nat) : Byte := ⟨n % 256, Nat.mod_lt _ (by decide)⟩

/-- Reads the body of a double-quoted literal under the rules of the host, from left
to right: backslash, backslash is a backslash; backslash, quote a quote; backslash,
dollar a dollar; a backslash followed by one to three octal digits is the byte of
that value; any other byte is itself. Every step consumes a byte, so a `fuel` of the
length of the body is enough. -/
def hostReadFuel : Nat → Str → Str
  | 0, _ => []
  | _ + 1, [] => []
  | fuel + 1, c :: rest =>
    if c = byte '\\' then
      match rest with
      | [] => [c]
      | d :: rest2 =>
        if d = byte '\\' ∨ d = byte '"' ∨ d = byte '$' then d :: hostReadFuel fuel rest2
        else if isOctalDigit d then
          let digits := ((d :: rest2).takeWhile isOctalDigit).take 3
          byteOf (octalValue digits) :: hostReadFuel fuel ((d :: rest2).drop digits.length)
        else c :: hostReadFuel fuel rest
    else c :: hostReadFuel fuel rest

/-- The value the host reads from the body of a double-quoted literal. -/
def hostRead (body : Str) : Str := hostReadFuel body.length body

end IcePHP

/-! # The direct-call guard `IceInternal::Direct`

A shallow embedding of `src/cpp/src/Ice/Direct.cpp`. The object adapter, the
servants, the servant locators, their cookies and the exceptions they throw are not
part of the sources and are parameters (`DirectEnv`); the calls of
`ServantLocator::finished` that a function makes are part of its result. -/

namespace IceInternal

open IcePHP

/-- How a call of `ServantLocator::locate` ends: it returns a servant (`none` is the
null handle), or it throws; either way it may have assigned the cookie, which it
takes by reference. -/
inductive LocateResult (Servant Cookie Exc : Type) where
  | returned (servant : Option Servant) (cookie : Option Cookie)
  | threw (e : Exc) (cookie : Option Cookie)

/-- The collaborators of `Direct` that are not part of the sources, as parameters:
the types behind `ObjectAdapterPtr`, `ObjectPtr`, `ServantLocatorPtr` and
`LocalObjectPtr`, the exceptions a locator throws, and the three calls the
constructor makes: the two lookups of the adapter, which return a handle, and
`locate`, which may throw. A null handle is `none`. -/
structure DirectEnv where
  ObjectAdapter : Type
  Object : Type
  ServantLocator : Type
  LocalObject : Type
  Exception : Type
  identityToServant : ObjectAdapter → Str → Option Object
  findServantLocator : ObjectAdapter → Str → Option ServantLocator
  locate : ServantLocator → ObjectAdapter → Str → Str → Option LocalObject →
    LocateResult Object LocalObject Exception

/-- A `Reference`, of which `Direct` reads the identity. -/
structure Reference where
  identity : Str

/-- The data members of a `Direct`. -/
structure Direct (env : DirectEnv) where
  _adapter : env.ObjectAdapter
  _reference : Reference
  _operation : Str
  _servant : Option env.Object
  _locator : Option env.ServantLocator
  _cookie : Option env.LocalObject

/-- The arguments of one call `locator->finished(adapter, identity, servant,
operation, cookie)`. -/
structure FinishedCall (env : DirectEnv) where
  locator : env.ServantLocator
  adapter : env.ObjectAdapter
  identity : Str
  servant : env.Object
  operation : Str
  cookie : Option env.LocalObject

/-- What leaves the constructor as an exception: the `ObjectNotExistException` it
throws itself, or an exception of a callee that its `catch(...)` block throws
again. -/
inductive Thrown (Exc : Type) where
  | ObjectNotExistException
  | rethrown (e : Exc)

namespace Direct

/-- The statement `if (_locator && _servant) _locator->finished(...)` of the `catch`
block and of the destructor: the calls of `finished` it makes. -/
def finishedIfLocated {env : DirectEnv} (d : Direct env) : List (FinishedCall env) :=
  match d._locator, d._servant with
  | some locator, some servant =>
    [⟨locator, d._adapter, d._reference.identity, servant, d._operation, d._cookie⟩]
  | _, _ => []

/-- The constructor `Direct::Direct`: the object built or the exception thrown, and
the calls of `finished` made on the way. -/
def construct (env : DirectEnv) (adapter : env.ObjectAdapter) (ref : Reference)
    (operation : Str) : Except (Thrown env.Exception) (Direct env) × List (FinishedCall env) :=
  let d : Direct env :=
    { _adapter := adapter, _reference := ref, _operation := operation,
      _servant := env.identityToServant adapter ref.identity, _locator := none,
      _cookie := none }
  let tried : Direct env × Option env.Exception :=
    if d._servant.isNone then
      let d :=
        match find ref.identity (byte '#') 0 with
        | some pos =>
          { d with _locator := env.findServantLocator adapter (substr ref.identity 0 pos) }
        | none => { d with _locator := env.findServantLocator adapter [] }
      match d._locator with
      | some locator =>
        match env.locate locator adapter ref.identity operation d._cookie with
        | LocateResult.returned servant cookie =>
          ({ d with _servant := servant, _cookie := cookie }, none)
        | LocateResult.threw e cookie => ({ d with _cookie := cookie }, some e)
      | none => (d, none)
    else (d, none)
  match tried with
  | (d, some e) => (Except.error (Thrown.rethrown e), finishedIfLocated d)
  | (d, none) =>
    if d._servant.isNone then (Except.error Thrown.ObjectNotExistException, [])
    else (Except.ok d, [])

/-- The destructor `Direct::~Direct`: the calls of `finished` it makes. -/
def destruct {env : DirectEnv} (d : Direct env) : List (FinishedCall env) :=
  finishedIfLocated d

/-- The member function `Direct::servant`. -/
def servant {env : DirectEnv} (d : Direct env) : Option env.Object := d._servant

end Direct

/-- The category of an identity: the text before its first `#`, and the empty
category when the identity has no `#`. -/
def category (identity : Str) : Str :=
  if byte '#' ∈ identity then identity.takeWhile (fun x => decide (x ≠ byte '#')) else []

/-- A small environment for running `Direct` on examples: the adapter holds the
servant `A` for the identity `known`; it has the locator `L` for the category `cat`
and the locator `D` for the empty category; `L` locates the servant `B` with cookie
7 for `cat#obj`, throws `failure` for `cat#boom` and locates nothing else; `D`
locates nothing. -/
def exampleDirectEnv : DirectEnv where
  ObjectAdapter := Unit
  Object := Str
  ServantLocator := Str
  LocalObject := Nat
  Exception := Str
  identityToServant := fun _ identity => if identity = str "known" then some (str "A") else none
  findServantLocator := fun _ cat =>
    if cat = str "cat" then some (str "L") else if cat = [] then some (str "D") else none
  locate := fun locator _ identity _ _ =>
    if locator = str "L" ∧ identity = str "cat#obj" then
      LocateResult.returned (some (str "B")) (some 7)
    else if locator = str "L" ∧ identity = str "cat#boom" then
      LocateResult.threw (str "failure") none
    else LocateResult.returned none none

end IceInternal

namespace IcePHP

/-- The base-list loop started after the first entry writes a comma before every
name. -/
theorem writeBases_false (u : Util) (bs : List ClassDef) (out : Str) :
    writeBases u false bs out =
      out ++ (if bs.isEmpty then [] else
        str "," ++ commaJoin (bs.map (fun b => u.flatten b.scopedName))) := by
  induction bs generalizing out with
  | nil => simp [writeBases]
  | cons b rest ih =>
    cases rest with
    | nil => simp [writeBases, commaJoin]
    | cons c rest2 =>
      rw [writeBases, ih]
      simp [commaJoin, List.append_assoc]

/-- The base-list loop writes the comma-joined flattened names. -/
theorem writeBases_true (u : Util) (bs : List ClassDef) (out : Str) :
    writeBases u true bs out = out ++ commaJoin (bs.map (fun b => u.flatten b.scopedName)) := by
  cases bs with
  | nil => simp [writeBases, commaJoin]
  | cons b rest =>
    rw [writeBases, writeBases_false]
    cases rest with
    | nil => simp [commaJoin]
    | cons c rest2 => simp [commaJoin, List.append_assoc]

/-- The superclass choice of the code is the one of the specification. -/
theorem writeSuperclass_eq (u : Util) (p : ClassDef) (out : Str) :
    writeSuperclass u p out = (out ++ superclass u p, implementsList p) := by
  unfold writeSuperclass superclass implementsList defaultSuperclass
  cases p.bases with
  | nil => cases hl : p.isLocal <;> simp [hl]
  | cons b bs => cases hb : b.isInterface <;> cases hl : p.isLocal <;> simp [hb, hl]

/-- The text `visitClassDefStart` writes for a class. -/
theorem visitClassDefStart_class (u : Util) (v : CodeVisitor) (p : ClassDef)
    (hp : p.isInterface = false) :
    (visitClassDefStart u v p).out =
      v.out ++ abstractKeyword p ++ str "class " ++ u.flatten p.scopedName ++ str " extends " ++
        superclass u p ++ implementsClause u (implementsList p) ++ endl ++ str "\x7b" ++ endl := by
  simp only [visitClassDefStart, hp, writeSuperclass_eq, writeBases_true, implementsClause,
    abstractKeyword]
  cases ha : p.isAbstract <;> cases h : (implementsList p).isEmpty <;>
    simp [ha, h, List.append_assoc]

/-! ## Enums and constants -/

/-- One constant line per enumerator. -/
theorem length_constLinesFrom (u : Util) (es : List Str) (i : Nat) :
    (constLinesFrom u i es).length = es.length := by
  induction es generalizing i with
  | nil => rfl
  | cons e es ih => simp [constLinesFrom, ih]

/-- The `k`-th constant line carries the value `i + k`. -/
theorem getElem_constLinesFrom (u : Util) (es : List Str) (i k : Nat) (h : k < es.length)
    (hk : k < (constLinesFrom u i es).length) :
    (constLinesFrom u i es)[k] = constLine u (i + k) es[k] := by
  induction es generalizing i k with
  | nil => simp at h
  | cons e es ih =>
    cases k with
    | zero => simp [constLinesFrom]
    | succ k =>
      have e1 : i + (k + 1) = i + 1 + k := by omega
      simp only [constLinesFrom, List.getElem_cons_succ, e1]
      exact ih (i + 1) k (by simpa using h) _

/-- The enumerator loop appends the constant lines. -/
theorem writeEnumerators_eq (u : Util) (es : List Str) (i : Nat) (out : Str) :
    writeEnumerators u es i out = out ++ (constLinesFrom u i es).flatten := by
  induction es generalizing i out with
  | nil => simp [writeEnumerators, constLinesFrom]
  | cons e es ih =>
    rw [writeEnumerators, ih]
    simp [constLinesFrom, constLine, List.append_assoc]

/-- No last index is found when no byte satisfies `p`. -/
theorem lastIdx_none (p : Byte → Bool) (xs : Str) (h : ∀ x ∈ xs, p x = false) :
    lastIdx p xs = none := by
  induction xs with
  | nil => rfl
  | cons x xs ih =>
    have hx : p x = false := h x (by simp)
    have hxs : ∀ y ∈ xs, p y = false := fun y hy => h y (by simp [hy])
    simp [lastIdx, ih hxs, hx]

/-- The last index found is that of a byte that satisfies `p` when no byte after it
does. -/
theorem lastIdx_append (p : Byte → Bool) (xs ys : Str) (y : Byte) (hy : p y = true)
    (h : ∀ x ∈ ys, p x = false) :
    lastIdx p (xs ++ y :: ys) = some xs.length := by
  induction xs with
  | nil => simp [lastIdx, lastIdx_none p ys h, hy]
  | cons x xs ih => simp [lastIdx, ih]

/-- The enum case of `visitConst` strips a scope. -/
theorem strip_scope (value name : Str)
    (hv : value = name ∨ ∃ scope : Str, value = scope ++ byte ':' :: name)
    (hc : byte ':' ∉ name) :
    (match rfind value (byte ':') with
      | some colon => value.drop (colon + 1)
      | none => value) = name := by
  have hn : ∀ x ∈ name, (fun x => decide (x = byte ':')) x = false := by
    intro x hx
    have : x ≠ byte ':' := fun e => hc (e ▸ hx)
    simpa using this
  rcases hv with rfl | ⟨scope, rfl⟩
  · simp [rfind, lastIdx_none _ _ hn]
  · simp [rfind, lastIdx_append _ scope name (byte ':') (by simp) hn]

/-- The enumerator loop finds a match exactly when the value is an enumerator name. -/
theorem matchEnumerator_iff (value : Str) (es : List Str) :
    matchEnumerator value es = true ↔ value ∈ es := by
  induction es with
  | nil => simp [matchEnumerator]
  | cons e es ih =>
    by_cases h : e = value
    · simp [matchEnumerator, h]
    · simp [matchEnumerator, h, ih, Ne.symm h]

/-- The string loop of `visitConst` renders the value byte by byte. -/
theorem writeStringBody_eq (s out : Str) :
    writeStringBody s out = out ++ (s.map renderByte).flatten := by
  induction s generalizing out with
  | nil => simp [writeStringBody]
  | cons c cs ih =>
    simp only [writeStringBody, renderByte, List.map_cons, List.flatten_cons]
    split
    · rw [ih]; simp
    · split
      · rw [ih]; simp
      · split
        · rw [ih]; simp
        · rw [ih]; simp

set_option maxRecDepth 100000 in
/-- The octal text of a byte has exactly three digits: those of its value. -/
theorem octal3_eq (b : Byte) :
    octal3 b.val = [octalDigit (b.val / 64), octalDigit (b.val / 8), octalDigit b.val] := by
  revert b
  decide

/-! ## Claims on the code visitor -/

/-- C1: for a class definition that is not an interface, `visitClassDefStart` writes
`[abstract ]class <flat> extends <S>` followed by the `implements` clause and the
opening brace, where `S` is the flattened first base when the base list is not empty
and its first base is not an interface, and the fixed default of the `isLocal` flag
otherwise; an interface that heads the base list is never the superclass; and for a
base list `[i1, c1, i2]` headed by an interface the superclass is the fixed default
and the `implements` clause names `i1`, `c1` and `i2`, hence both interfaces. -/
theorem C1_class_superclass (u : Util) (v : CodeVisitor) (p : ClassDef)
    (hp : p.isInterface = false) :
    (visitClassDefStart u v p).out =
        v.out ++ abstractKeyword p ++ str "class " ++ u.flatten p.scopedName ++
          str " extends " ++ superclass u p ++ implementsClause u (implementsList p) ++
          endl ++ str "\x7b" ++ endl
    ∧ (∀ b bs, p.bases = b :: bs → b.isInterface = false →
        superclass u p = u.flatten b.scopedName)
    ∧ (∀ b bs, p.bases = b :: bs → b.isInterface = true →
        superclass u p = defaultSuperclass p)
    ∧ (p.bases = [] → superclass u p = defaultSuperclass p)
    ∧ (defaultSuperclass p =
        if p.isLocal then str "Ice_LocalObjectImpl" else str "Ice_ObjectImpl")
    ∧ (∀ i1 c1 i2, p.bases = [i1, c1, i2] → i1.isInterface = true →
        superclass u p = defaultSuperclass p ∧
        implementsClause u (implementsList p) =
          str " implements " ++ u.flatten i1.scopedName ++ str "," ++
            u.flatten c1.scopedName ++ str "," ++ u.flatten i2.scopedName) := by
  refine ⟨visitClassDefStart_class u v p hp, ?_, ?_, ?_, rfl, ?_⟩
  · intro b bs hb hi
    simp [superclass, hb, hi]
  · intro b bs hb hi
    simp [superclass, hb, hi]
  · intro hb
    simp [superclass, hb]
  · intro i1 c1 i2 hb hi
    simp [superclass, implementsList, implementsClause, commaJoin, hb, hi]

/-- C1, run on the class `::M::D` with bases `[I1, C1, I2]`. -/
theorem C1_class_superclass_witness :
    exampleInterfaceFirst.isInterface = false ∧
    (visitClassDefStart exampleUtil emptyVisitor exampleInterfaceFirst).out =
      str ("abstract class __M__D extends Ice_ObjectImpl implements " ++
        "__M__I1,__M__C1,__M__I2\n\x7b\n") :=
  ⟨rfl, (C1_class_superclass exampleUtil emptyVisitor exampleInterfaceFirst rfl).1.trans
    (by decide)⟩

/-- C2, as stated, fails: the class `::M::D` with bases `[I1, C1, I2]` is not an
interface and has exactly one base that is not an interface, yet the `implements`
clause written for it names `C1`, which is a class. -/
theorem C2_counterexample :
    exampleInterfaceFirst.isInterface = false ∧
    (exampleInterfaceFirst.bases.filter (fun b => !b.isInterface)).length ≤ 1 ∧
    (visitClassDefStart exampleUtil emptyVisitor exampleInterfaceFirst).out =
      str ("abstract class __M__D extends Ice_ObjectImpl implements " ++
        "__M__I1,__M__C1,__M__I2\n\x7b\n") ∧
    (writeSuperclass exampleUtil exampleInterfaceFirst []).2 =
      [exampleInterface1, exampleClass1, exampleInterface2] ∧
    exampleClass1.isInterface = false := by
  refine ⟨rfl, by decide, by decide, rfl, rfl⟩

/-- C2, amended: for a class definition that is not an interface and in which every
base after the first is an interface, the bases left in the local base list once the
superclass is chosen are all interfaces; the `implements` clause is the comma-joined
list of their flattened names, and it is omitted when none is left. -/
theorem C2_implements_interfaces (u : Util) (v : CodeVisitor) (p : ClassDef)
    (hp : p.isInterface = false) (hinv : ∀ b ∈ p.bases.tail, b.isInterface = true) :
    (∀ start, (writeSuperclass u p start).2 = implementsList p)
    ∧ (∀ b ∈ implementsList p, b.isInterface = true)
    ∧ (visitClassDefStart u v p).out =
        v.out ++ abstractKeyword p ++ str "class " ++ u.flatten p.scopedName ++
          str " extends " ++ superclass u p ++
          (if (implementsList p).isEmpty then []
            else str " implements " ++
              commaJoin ((implementsList p).map (fun b => u.flatten b.scopedName))) ++
          endl ++ str "\x7b" ++ endl := by
  refine ⟨fun start => by rw [writeSuperclass_eq], ?_, visitClassDefStart_class u v p hp⟩
  intro b hb
  unfold implementsList at hb
  cases hbs : p.bases with
  | nil => simp [hbs] at hb
  | cons b0 bs =>
    rw [hbs] at hb hinv
    cases h0 : b0.isInterface with
    | false =>
      simp only [h0, if_true] at hb
      exact hinv b (by simpa using hb)
    | true =>
      simp only [h0] at hb
      rcases List.mem_cons.mp (by simpa using hb) with rfl | hmem
      · exact h0
      · exact hinv b (by simpa using hmem)

/-- C2 amended, run on the class `::M::D` with bases `[C1, I2]`. -/
theorem C2_implements_interfaces_witness :
    exampleClassFirst.isInterface = false ∧
    (∀ b ∈ implementsList exampleClassFirst, b.isInterface = true) ∧
    (visitClassDefStart exampleUtil emptyVisitor exampleClassFirst).out =
      str "class __M__D extends __M__C1 implements __M__I2\n\x7b\n" :=
  have h := C2_implements_interfaces exampleUtil emptyVisitor exampleClassFirst rfl
    (by intro b hb; simp [exampleClassFirst, ClassDef.bases] at hb; subst hb; rfl)
  ⟨rfl, h.2.1, h.2.2.trans (by decide)⟩

/-- C3, evaluated where it fails: for the string constant `::S` whose value is the
two bytes backslash, quote, `visitConst` copies the backslash and writes the quote as
backslash, quote, so the literal is `"\\""`: its body is backslash, backslash,
quote, in which the host pairs the two backslashes and the quote stands unescaped. -/
theorem C3_string_literal_backslash_quote :
    (visitConst exampleUtil emptyVisitor
        ⟨str "::S", SliceType.builtin BuiltinKind.KindString, [byte '\\', byte '"']⟩).map
        (fun w => w.out) =
      some (str "define(\"__S\", \"" ++ [byte '\\', byte '\\', byte '"'] ++ str "\");\n")
    ∧ writeStringBody [byte '\\', byte '"'] [] = [byte '\\', byte '\\', byte '"']
    ∧ hasUnescaped (byte '"') (writeStringBody [byte '\\', byte '"'] []) = true := by
  refine ⟨by decide, by decide, by decide⟩

/-- C4, evaluated where it fails: with a 32-bit `long`, the constant `::M::X` of type
`long` and value `4294967296` is written as `define("__M__X", "4294967296";);`, with
a semicolon between the closing quote and the closing parenthesis, and not as
`define("__M__X", "4294967296");`. -/
theorem C4_long_quoted_form_has_semicolon :
    exampleUtil.longBits = 32
    ∧ exampleUtil.stringToInt64 (str "4294967296") = 4294967296
    ∧ (visitConst exampleUtil emptyVisitor
        ⟨str "::M::X", SliceType.builtin BuiltinKind.KindLong, str "4294967296"⟩).map
        (fun w => w.out) = some (str "define(\"__M__X\", \"4294967296\";);\n")
    ∧ str "define(\"__M__X\", \"4294967296\";);\n" ≠
        str "define(\"__M__X\", \"4294967296\");\n" := by
  refine ⟨rfl, by decide, by decide, by decide⟩

/-- C5: for a constant whose type is the enum `en` and whose value text is `name`, or
some scope followed by a colon and `name`, with no colon in `name`: when `name` is
the name of an enumerator of `en`, `visitConst` writes
`define("<flatten(const)>", <flatten(enum)>::<fixIdent(name)>);` and a line end;
and the assertion fails exactly when no enumerator of `en` is named `name`. -/
theorem C5_enum_constant (u : Util) (v : CodeVisitor) (p : ConstDef) (en : EnumDef)
    (name : Str) (ht : p.type = SliceType.enum en)
    (hv : p.value = name ∨ ∃ scope : Str, p.value = scope ++ byte ':' :: name)
    (hc : byte ':' ∉ name) :
    (name ∈ en.enumerators →
      visitConst u v p =
        some { v with out := v.out ++ str "define(\"" ++ u.flatten p.scopedName ++ str "\", " ++
                u.flatten en.scopedName ++ str "::" ++ u.fixIdent name ++ str ");" ++ endl })
    ∧ (visitConst u v p = none ↔ name ∉ en.enumerators) := by
  have hs := strip_scope p.value name hv hc
  have hm := matchEnumerator_iff name en.enumerators
  unfold visitConst
  simp only [ht, hs]
  by_cases h : name ∈ en.enumerators
  · simp [hm.mpr h, h]
  · have hf : matchEnumerator name en.enumerators = false := by
      cases hb : matchEnumerator name en.enumerators with
      | false => rfl
      | true => exact absurd (hm.mp hb) h
    simp [hf, h]

/-- C5, run on the constant `::M::X = ::M::B` of the enum `::M::E`. -/
theorem C5_enum_constant_witness :
    (str "B" ∈ exampleEnum.enumerators →
      visitConst exampleUtil emptyVisitor ⟨str "::M::X", SliceType.enum exampleEnum, str "::M::B"⟩ =
        some { emptyVisitor with
          out := emptyVisitor.out ++ str "define(\"" ++ exampleUtil.flatten (str "::M::X") ++
            str "\", " ++ exampleUtil.flatten exampleEnum.scopedName ++ str "::" ++
            exampleUtil.fixIdent (str "B") ++ str ");" ++ endl })
    ∧ (visitConst exampleUtil emptyVisitor
        ⟨str "::M::X", SliceType.enum exampleEnum, str "::M::B"⟩ = none ↔
      str "B" ∉ exampleEnum.enumerators) :=
  C5_enum_constant exampleUtil emptyVisitor
    ⟨str "::M::X", SliceType.enum exampleEnum, str "::M::B"⟩ exampleEnum (str "B") rfl
    (Or.inr ⟨str "::M:", by decide⟩) (by decide)

/-- C6: for an enum with the enumerators `e_0 ... e_(n-1)`, `visitEnum` writes
`class <flat>`, an opening brace, then exactly `n` lines, the `i`-th being
`const <fixIdent(e_i)> = i;` with `i` counted from 0 in declaration order, then a
closing brace; the lines are the same whatever the visitor had written before, so
generating again gives the same numbering; for `[a, b, c]` the values are 0, 1, 2. -/
theorem C6_enum_numbering (u : Util) (p : EnumDef) :
    ∃ lines : List Str,
      lines.length = p.enumerators.length
      ∧ (∀ (i : Nat) (h1 : i < lines.length) (h2 : i < p.enumerators.length),
          lines[i] = str "const " ++ u.fixIdent p.enumerators[i] ++ str " = " ++ decimal i ++
            str ";" ++ endl)
      ∧ (∀ v : CodeVisitor, (visitEnum u v p).out =
          v.out ++ str "class " ++ u.flatten p.scopedName ++ endl ++ str "\x7b" ++ endl ++
            lines.flatten ++ str "\x7d" ++ endl)
      ∧ (∀ a b c : Str, p.enumerators = [a, b, c] →
          lines = [str "const " ++ u.fixIdent a ++ str " = 0;\n",
                   str "const " ++ u.fixIdent b ++ str " = 1;\n",
                   str "const " ++ u.fixIdent c ++ str " = 2;\n"]) := by
  refine ⟨constLinesFrom u 0 p.enumerators, length_constLinesFrom u _ 0, ?_, ?_, ?_⟩
  · intro i h1 h2
    rw [getElem_constLinesFrom u p.enumerators 0 i h2 h1]
    simp [constLine]
  · intro v
    simp [visitEnum, writeEnumerators_eq, List.append_assoc]
  · intro a b c h
    rw [h]
    have d0 : decimal 0 = str "0" := by decide
    have d1 : decimal 1 = str "1" := by decide
    have d2 : decimal 2 = str "2" := by decide
    have e1 : ∀ x : Str, x ++ str " = 0;\n" = x ++ str " = " ++ str "0" ++ str ";" ++ endl := by
      intro x; simp [str, endl]
    have e2 : ∀ x : Str, x ++ str " = 1;\n" = x ++ str " = " ++ str "1" ++ str ";" ++ endl := by
      intro x; simp [str, endl]
    have e3 : ∀ x : Str, x ++ str " = 2;\n" = x ++ str " = " ++ str "2" ++ str ";" ++ endl := by
      intro x; simp [str, endl]
    simp only [constLinesFrom, constLine, d0, d1, d2, e1, e2, e3, List.append_assoc]

/-! ## Claims on activation and on the registry -/

/-- C7: once a profile is active, `do_load` fails whatever the name and the extra
arguments are: it returns `false` with the "already been loaded" error and leaves the
whole state as it was, so nothing is passed to the host runtime and the active
profile and the active property set are the ones from before. -/
theorem C7_single_activation (env : Env) (w : World env) (active : Profile env)
    (name : Str) (args : List Str) (h : w.activeProfile = some active) :
    (do_load env w name args).1 =
        Status.error (str "an Ice profile (`" ++ active.name ++
          str "') has already been loaded")
    ∧ (do_load env w name args).1 ≠ Status.ok
    ∧ (do_load env w name args).2 = w
    ∧ (do_load env w name args).2.evaluated = w.evaluated
    ∧ (do_load env w name args).2.activeProfile = some active
    ∧ (do_load env w name args).2.activeProperties = w.activeProperties := by
  have e : do_load env w name args =
      (Status.error (str "an Ice profile (`" ++ active.name ++
        str "') has already been loaded"), w) := by
    unfold do_load
    rw [h]
  rw [e]
  exact ⟨rfl, fun c => Status.noConfusion c, rfl, rfl, h, rfl⟩

/-- C7, run in the world where the profile `x` is active: a second activation of `x`
with an extra argument changes nothing. -/
theorem C7_single_activation_witness :
    exampleActiveWorld.activeProfile = some exampleProfile ∧
    (do_load exampleEnv exampleActiveWorld (str "x") [str "--Ice.Warn=1"]).2 =
      exampleActiveWorld :=
  ⟨rfl, (C7_single_activation exampleEnv exampleActiveWorld exampleProfile (str "x")
    [str "--Ice.Warn=1"] rfl).2.2.1⟩

/-- C8: `createProfile` called with a name that is a key of the registry fails,
whatever its other arguments are: it returns `false` with the "already exists" error
and leaves the whole state as it was, so the profile registered first is still the
one found under that name. -/
theorem C8_duplicate_name (env : Env) (w : World env) (first : Profile env)
    (name config options slice : Str) (h : w.profiles.find name = some first) :
    (createProfile env w name config options slice).1 =
        Status.error (str "profile `" ++ name ++ str "' already exists")
    ∧ (createProfile env w name config options slice).1 ≠ Status.ok
    ∧ (createProfile env w name config options slice).2 = w
    ∧ (createProfile env w name config options slice).2.profiles = w.profiles
    ∧ (createProfile env w name config options slice).2.profiles.find name = some first := by
  have e : createProfile env w name config options slice =
      (Status.error (str "profile `" ++ name ++ str "' already exists"), w) := by
    unfold createProfile
    rw [h]
  rw [e]
  exact ⟨rfl, fun c => Status.noConfusion c, rfl, rfl, h⟩

/-- C8, run in the world where the profile `x` is registered: creating `x` again
leaves the first profile in place. -/
theorem C8_duplicate_name_witness :
    exampleIdleWorld.profiles.find (str "x") = some exampleProfile ∧
    (createProfile exampleEnv exampleIdleWorld (str "x") (str "other.cfg") [] []).2.profiles.find
      (str "x") = some exampleProfile :=
  ⟨rfl, (C8_duplicate_name exampleEnv exampleIdleWorld exampleProfile (str "x")
    (str "other.cfg") [] [] rfl).2.2.2.2⟩

/-! ## The descriptor loader -/

set_option maxRecDepth 20000

/-- No index is found when no byte satisfies `p`. -/
theorem firstIdx_none (p : Byte → Bool) (xs : Str) (h : ∀ x ∈ xs, p x = false) :
    firstIdx p xs = none := by
  induction xs with
  | nil => rfl
  | cons x xs ih =>
    have hx : p x = false := h x (by simp)
    have hxs : ∀ y ∈ xs, p y = false := fun y hy => h y (by simp [hy])
    simp [firstIdx, ih hxs, hx]

/-- The first index found is the length of a leading part in which no byte satisfies
`p`, when the byte right after it does. -/
theorem firstIdx_append (p : Byte → Bool) (xs ys : Str) (y : Byte)
    (h : ∀ x ∈ xs, p x = false) (hh : ys.head? = some y) (hy : p y = true) :
    firstIdx p (xs ++ ys) = some xs.length := by
  induction xs with
  | nil =>
    cases ys with
    | nil => simp at hh
    | cons z zs =>
      simp only [List.head?_cons, Option.some.injEq] at hh
      subst hh
      simp [firstIdx, hy]
  | cons x xs ih =>
    have hx : p x = false := h x (by simp)
    have hxs : ∀ y ∈ xs, p y = false := fun y hy => h y (by simp [hy])
    simp [firstIdx, ih hxs, hx]

/-- The last index found is the last index of the string when its last byte
satisfies `p`. -/
theorem lastIdx_of_getLast (p : Byte → Bool) (s : Str) (y : Byte)
    (h : s.getLast? = some y) (hy : p y = true) : lastIdx p s = some (s.length - 1) := by
  rcases List.eq_nil_or_concat s with rfl | ⟨init, z, rfl⟩
  · simp at h
  · rw [List.concat_eq_append] at h ⊢
    have hz : z = y := by simpa using h
    subst hz
    rw [lastIdx_append p init [] z hy (by simp)]
    simp

/-- A buffer without NUL is converted whole. -/
theorem cstring_eq (s : Str) (h : ∀ x ∈ s, x ≠ 0) : cstring s = s := by
  unfold cstring
  rw [List.takeWhile_eq_self_iff]
  intro x hx
  simpa using h x hx

/-! ## Reading lines -/

/-- The bytes before the first line end. -/
theorem takeWhile_line (line rest : Str) (h1 : byte '\n' ∉ line) :
    (line ++ byte '\n' :: rest).takeWhile (fun x => decide (x ≠ byte '\n')) = line := by
  rw [List.takeWhile_append_of_pos]
  · simp
  · intro a ha
    have : a ≠ byte '\n' := fun e => h1 (e ▸ ha)
    simpa using this

/-- Reading a line that fits the buffer and is followed by a line end. -/
theorem getline_line (n : Nat) (line rest : Str) (h1 : byte '\n' ∉ line)
    (h2 : line.length < n) :
    getline n (line ++ byte '\n' :: rest) = some (line, rest) := by
  have hne : (line ++ byte '\n' :: rest).isEmpty = false := by simp
  simp only [getline, hne, takeWhile_line line rest h1, h2, List.drop_left]
  simp

/-- Reading a last line that fits the buffer and has no line end. -/
theorem getline_last (n : Nat) (line : Str) (h0 : line ≠ []) (h1 : byte '\n' ∉ line)
    (h2 : line.length < n) :
    getline n line = some (line, []) := by
  have ht : line.takeWhile (fun x => decide (x ≠ byte '\n')) = line := by
    rw [List.takeWhile_eq_self_iff]
    intro a ha
    have : a ≠ byte '\n' := fun e => h1 (e ▸ ha)
    simpa using this
  have hne : line.isEmpty = false := by simpa using h0
  simp only [getline, hne, ht, h2, List.drop_length]
  simp

/-- Reading fails on a line that does not fit the buffer. -/
theorem getline_long (n : Nat) (line rest : Str) (h1 : byte '\n' ∉ line)
    (h2 : n ≤ line.length) :
    getline n (line ++ byte '\n' :: rest) = none := by
  have hne : (line ++ byte '\n' :: rest).isEmpty = false := by simp
  simp only [getline, hne, takeWhile_line line rest h1, Nat.not_lt.mpr h2]
  simp

/-- Nothing is read from an empty rest. -/
theorem readLines_nil (n fuel : Nat) : readLines n fuel [] = [] := by
  cases fuel <;> simp [readLines, getline]

/-- Nothing more is read once the stream has failed. -/
theorem readLines_of_none (n fuel : Nat) (inp : Str) (h : getline n inp = none) :
    readLines n fuel inp = [] := by
  cases fuel <;> simp [readLines, h]

/-- A header line `[name]` has no comment and no trailing white space to strip. -/
theorem stripLine_header (name : Str) (hn : ∀ x ∈ name, x ∉ str " \t];\n" ∧ x ≠ 0) :
    stripLine (headerLine name) = headerLine name := by
  have hs : headerLine name = byte '[' :: (name ++ [byte ']']) := rfl
  have hn0 : ∀ x ∈ name, x ≠ 0 := fun x hx => (hn x hx).2
  have hnsemi : ∀ x ∈ name, x ≠ byte ';' := by
    intro x hx e
    exact (hn x hx).1 (by rw [e]; decide)
  have h1 : cstring (headerLine name) = headerLine name := by
    apply cstring_eq
    intro x hx
    rw [hs] at hx
    simp only [List.mem_cons, List.mem_append, List.mem_singleton, List.not_mem_nil, or_false] at hx
    rcases hx with e | hx | e
    · rw [e]; decide
    · exact hn0 x hx
    · rw [e]; decide
  have h2 : find (headerLine name) (byte ';') 0 = none := by
    unfold find
    rw [List.drop_zero, firstIdx_none]
    · rfl
    · intro x hx
      rw [hs] at hx
      simp only [List.mem_cons, List.mem_append, List.mem_singleton, List.not_mem_nil, or_false] at hx
      rcases hx with e | hx | e
      · rw [e]; decide
      · simpa using hnsemi x hx
      · rw [e]; decide
  have hlen : (headerLine name).length = name.length + 2 := by simp [hs]
  have h3 : find_last_not_of (headerLine name) delim = some (name.length + 1) := by
    unfold find_last_not_of
    rw [lastIdx_of_getLast _ _ (byte ']') (by rw [hs]; exact List.getLast?_concat (byte '[' :: name))
      (by decide), hlen]
    rfl
  unfold stripLine
  simp only [h1, h2, h3, hlen, Nat.lt_irrefl, if_false]

/-- The loop body on a header line `[name]`: the pending section, if any, is created,
its values are cleared, and `name` becomes the current name. -/
theorem processLine_header {σ : Type} (create : σ → Str → Str → Str → Str → Status × σ)
    (profiles : Str) (l : Loader σ) (name : Str)
    (hn : ∀ x ∈ name, x ∉ str " \t];\n" ∧ x ≠ 0) :
    processLine create profiles l (headerLine name) =
      if !l.currentName.isEmpty then
        match callCreate create l with
        | (Status.ok, l1) =>
          LineResult.next { l1 with currentConfig := [], currentOptions := [],
                                    currentSlice := [], currentName := name }
        | (st, l1) => LineResult.stop st l1
      else LineResult.next { l with currentName := name } := by
  have hs : headerLine name = byte '[' :: (name ++ [byte ']']) := rfl
  -- facts about the characters of the name
  have hnstop : ∀ x ∈ name, x ∉ str " \t]" := by
    intro x hx hmem
    apply (hn x hx).1
    have : x = byte ' ' ∨ x = byte '\t' ∨ x = byte ']' := by simpa [str] using hmem
    rcases this with e | e | e <;> rw [e] <;> decide
  have h1 := stripLine_header name hn
  have h4 : find_first_not_of (headerLine name) delim 0 = some 0 := by
    unfold find_first_not_of
    rw [List.drop_zero, hs]
    simp only [firstIdx]
    rw [if_pos (by decide)]
    rfl
  have h5 : (headerLine name)[0]? = some (byte '[') := by simp [hs]
  have h6 : find_first_of (headerLine name) (str " \t]") (0 + 1) = some (name.length + 1) := by
    unfold find_first_of
    rw [hs]
    simp only [Nat.zero_add, List.drop_succ_cons, List.drop_zero]
    rw [firstIdx_append _ name [byte ']'] (byte ']') _ rfl (by decide)]
    · rfl
    · intro x hx
      simpa using hnstop x hx
  have h7 : (headerLine name).getLast? = some (byte ']') := by
    rw [hs]
    exact List.getLast?_concat (byte '[' :: name)
  have h8 : substr (headerLine name) (0 + 1) (name.length + 1 - (0 + 1)) = name := by
    unfold substr
    rw [hs]
    simp
  unfold processLine
  simp only [h1, h4, h5, h6, h7, h8, if_false, if_true, ne_eq, not_true_eq_false]

/-- The three keys are free of white space, `=`, `;` and NUL and do not open with
`[`. -/
theorem key_facts (key : Str) (hk : key ∈ [str "config", str "options", str "slice"]) :
    (∀ x ∈ key, x ∉ delim ++ str "=" ∧ x ∉ delim ∧ x ≠ byte ';' ∧ x ≠ 0 ∧ x ≠ byte '=')
    ∧ (∃ k0 ks, key = k0 :: ks ∧ k0 ∉ delim ∧ k0 ≠ byte '[') := by
  simp only [List.mem_cons, List.mem_singleton, List.not_mem_nil, or_false] at hk
  rcases hk with rfl | rfl | rfl
  · exact ⟨by decide, byte 'c', str "onfig", rfl, by decide, by decide⟩
  · exact ⟨by decide, byte 'o', str "ptions", rfl, by decide, by decide⟩
  · exact ⟨by decide, byte 's', str "lice", rfl, by decide, by decide⟩

/-- A byte of a gap is white space, and none of `;`, NUL, `=`. -/
theorem gap_facts (x : Byte) (h : x ∈ str " \t\r") :
    x ∈ delim ∧ x ∈ delim ++ str "=" ∧ x ≠ byte ';' ∧ x ≠ 0 ∧ x ≠ byte '=' := by
  have : x = byte ' ' ∨ x = byte '\t' ∨ x = byte '\r' := by simpa [str] using h
  rcases this with e | e | e <;> rw [e] <;> decide

/-- An entry line has no comment; stripping removes the white space after the `=`
when the value is empty, and nothing otherwise. -/
theorem stripLine_entry (e : Entry) (hv : ValidEntry e) :
    stripLine (entryLine e) =
      e.key ++ e.gap1 ++ str "=" ++ (if e.value = [] then [] else e.gap2 ++ e.value) := by
  obtain ⟨hkey, hg1, hg2, hval, hhead, hlast, hlen⟩ := hv
  obtain ⟨hk, -⟩ := key_facts e.key hkey
  have hs : entryLine e = e.key ++ e.gap1 ++ str "=" ++ e.gap2 ++ e.value := rfl
  have hmem : ∀ x ∈ entryLine e, x ≠ 0 ∧ x ≠ byte ';' := by
    intro x hx
    rw [hs] at hx
    simp only [List.mem_append] at hx
    rcases hx with (((hx | hx) | hx) | hx) | hx
    · exact ⟨(hk x hx).2.2.2.1, (hk x hx).2.2.1⟩
    · exact ⟨(gap_facts x (hg1 x hx)).2.2.2.1, (gap_facts x (hg1 x hx)).2.2.1⟩
    · have : x = byte '=' := by simpa [str] using hx
      rw [this]; exact ⟨by decide, by decide⟩
    · exact ⟨(gap_facts x (hg2 x hx)).2.2.2.1, (gap_facts x (hg2 x hx)).2.2.1⟩
    · refine ⟨(hval x hx).2, fun e1 => (hval x hx).1 ?_⟩
      rw [e1]; decide
  have h1 : cstring (entryLine e) = entryLine e := cstring_eq _ (fun x hx => (hmem x hx).1)
  have h2 : find (entryLine e) (byte ';') 0 = none := by
    unfold find
    rw [List.drop_zero, firstIdx_none]
    · rfl
    · intro x hx
      simpa using (hmem x hx).2
  unfold stripLine
  simp only [h1, h2]
  by_cases hvn : e.value = []
  · have hs2 : entryLine e = (e.key ++ e.gap1) ++ byte '=' :: e.gap2 := by
      rw [hs, hvn]; simp [str, byte]
    have h3 : find_last_not_of (entryLine e) delim = some (e.key ++ e.gap1).length := by
      unfold find_last_not_of
      rw [hs2, lastIdx_append _ _ _ _ (by decide)]
      intro x hx
      simpa using (gap_facts x (hg2 x hx)).1
    simp only [h3, hvn, if_true, List.append_nil]
    have hs3 : entryLine e = (e.key ++ e.gap1 ++ str "=") ++ e.gap2 := by
      rw [hs, hvn]; simp
    have hl3 : (e.key ++ e.gap1 ++ str "=").length = (e.key ++ e.gap1).length + 1 := by
      rw [List.length_append]; rfl
    split
    · unfold erase
      rw [← hl3]
      conv_lhs => rw [hs3]
      exact List.take_left _ _
    · rename_i hnot
      have : e.gap2 = [] := by
        have hl : (entryLine e).length = (e.key ++ e.gap1).length + 1 + e.gap2.length := by
          rw [hs3, List.length_append, hl3]
        have : e.gap2.length = 0 := by omega
        exact List.length_eq_zero.mp this
      rw [hs3, this, List.append_nil]
  · obtain ⟨y, hy⟩ : ∃ y, e.value.getLast? = some y := by
      rcases List.eq_nil_or_concat e.value with h | ⟨L, b, h⟩
      · exact absurd h hvn
      · exact ⟨b, by rw [h, List.concat_eq_append]; exact List.getLast?_concat L⟩
    have hy2 : (entryLine e).getLast? = some y := by
      rw [hs, List.getLast?_append, hy]; rfl
    have h3 : find_last_not_of (entryLine e) delim = some ((entryLine e).length - 1) := by
      unfold find_last_not_of
      exact lastIdx_of_getLast _ _ y hy2 (by simpa using hlast y hy)
    have hpos : 0 < (entryLine e).length := by
      rw [hs]; simp [str]
    have hno : ¬ ((entryLine e).length - 1 + 1 < (entryLine e).length) := by omega
    simp only [h3, hno, if_false, hvn]
    rw [hs]; simp [List.append_assoc]

/-- The results of the searches of the loop body on an entry line. -/
theorem entry_searches (e : Entry) (hv : ValidEntry e) :
    ∃ s : Str, stripLine (entryLine e) = s
      ∧ find_first_not_of s delim 0 = some 0
      ∧ s[0]? ≠ some (byte '[')
      ∧ find_first_of s (delim ++ str "=") 0 = some e.key.length
      ∧ substr s 0 (e.key.length - 0) = e.key
      ∧ find s (byte '=') e.key.length = some (e.gap1.length + e.key.length)
      ∧ (match find_first_not_of s delim (e.gap1.length + e.key.length + 1) with
          | some beg => substr s beg (s.length - beg)
          | none => []) = e.value := by
  refine ⟨_, stripLine_entry e hv, ?_, ?_, ?_, ?_, ?_, ?_⟩
  all_goals obtain ⟨hkey, hg1, hg2, hval, hhead, hlast, hlen⟩ := hv
  all_goals obtain ⟨hk, k0, ks, hk0, hk1, hk2⟩ := key_facts e.key hkey
  · -- the first byte is not white space
    unfold find_first_not_of
    rw [List.drop_zero, hk0]
    simp only [List.cons_append, firstIdx]
    rw [if_pos (by simpa using hk1)]
    rfl
  · rw [hk0]
    simpa using hk2
  · -- the key ends at the first white space or `=`
    unfold find_first_of
    rw [List.drop_zero, List.append_assoc, List.append_assoc]
    have hhd : ∃ y, (e.gap1 ++ (str "=" ++
        (if e.value = [] then [] else e.gap2 ++ e.value))).head? = some y ∧
        y ∈ delim ++ str "=" := by
      cases hg : e.gap1 with
      | nil => exact ⟨byte '=', rfl, by decide⟩
      | cons g gs =>
        exact ⟨g, rfl, (gap_facts g (hg1 g (by simp [hg]))).2.1⟩
    obtain ⟨y, hy1, hy2⟩ := hhd
    rw [firstIdx_append _ _ _ y _ hy1 (by simpa using hy2)]
    · rfl
    · intro x hx
      simpa using (hk x hx).1
  · unfold substr
    rw [List.drop_zero, Nat.sub_zero, List.append_assoc, List.append_assoc]
    exact List.take_left _ _
  · -- the `=` is the first one after the key
    unfold find
    rw [List.append_assoc, List.append_assoc, List.drop_left]
    rw [firstIdx_append _ e.gap1 (str "=" ++ (if e.value = [] then [] else e.gap2 ++ e.value))
      (byte '=') _ rfl (by decide)]
    · rfl
    · intro x hx
      simpa using (gap_facts x (hg1 x hx)).2.2.2.2
  · -- the value starts after the white space that follows the `=`
    have hd : ∀ t : Str, List.drop (e.gap1.length + e.key.length + 1)
        (e.key ++ e.gap1 ++ str "=" ++ t) = t := by
      intro t
      have : e.gap1.length + e.key.length + 1 = (e.key ++ e.gap1 ++ str "=").length := by
        simp [str]; omega
      rw [this]
      exact List.drop_left _ _
    unfold find_first_not_of
    rw [hd]
    by_cases hvn : e.value = []
    · simp [hvn, firstIdx]
    · simp only [hvn, if_false]
      obtain ⟨v, hv1⟩ : ∃ v, e.value.head? = some v := by
        cases h : e.value with
        | nil => exact absurd h hvn
        | cons v vs => exact ⟨v, rfl⟩
      rw [firstIdx_append _ e.gap2 e.value v _ hv1 (by simpa using hhead v hv1)]
      · simp only [Option.map_some']
        unfold substr
        have hl : e.gap2.length + (e.gap1.length + e.key.length + 1) =
            (e.key ++ e.gap1 ++ str "=" ++ e.gap2).length := by
          simp [str]; omega
        rw [hl, ← List.append_assoc, List.drop_left, List.length_append,
          Nat.add_sub_cancel_left, List.take_length]
      · intro x hx
        simpa using (gap_facts x (hg2 x hx)).1

/-- The loop body on an entry line inside a section: the value is assigned to the
variable of the key. -/
theorem processLine_entry {σ : Type} (create : σ → Str → Str → Str → Str → Status × σ)
    (profiles : Str) (l : Loader σ) (e : Entry) (hv : ValidEntry e)
    (hname : l.currentName ≠ []) :
    processLine create profiles l (entryLine e) = LineResult.next (assignKey e.key e.value l) := by
  obtain ⟨s, h1, h2, h3, h4, h5, h6, h7⟩ := entry_searches e hv
  have hkey := hv.1
  have hn : l.currentName.isEmpty = false := by simpa using hname
  unfold processLine
  simp only [h1, h2, h3, h4, h5, h6, h7, if_false]
  simp only [List.mem_cons, List.mem_singleton, List.not_mem_nil, or_false] at hkey
  have d1 : str "options" ≠ str "config" := by decide
  have d2 : str "slice" ≠ str "config" := by decide
  have d3 : str "slice" ≠ str "options" := by decide
  rcases hkey with hk | hk | hk
  · simp [hk, assignKey, hn]
  · simp [hk, assignKey, hn, d1]
  · simp [hk, assignKey, hn, d2, d3]

/-- An assignment leaves the current name alone. -/
theorem assignKey_currentName {σ : Type} (key value : Str) (l : Loader σ) :
    (assignKey key value l).currentName = l.currentName := by
  unfold assignKey
  split
  · rfl
  · split
    · rfl
    · split <;> rfl

/-- The state of the loader after the entries of a section. -/
theorem loadLines_entries {σ : Type} (create : σ → Str → Str → Str → Str → Status × σ)
    (profiles : Str) (entries : List Entry) (rest : List Str) (l : Loader σ)
    (hv : ∀ e ∈ entries, ValidEntry e) (hname : l.currentName ≠ []) :
    loadLines create profiles (entries.map entryLine ++ rest) l =
      loadLines create profiles rest
        { l with currentConfig := lastValueFrom l.currentConfig (str "config") entries,
                 currentOptions := lastValueFrom l.currentOptions (str "options") entries,
                 currentSlice := lastValueFrom l.currentSlice (str "slice") entries } := by
  induction entries generalizing l with
  | nil => simp [lastValueFrom]
  | cons e es ih =>
    have he : ValidEntry e := hv e (by simp)
    have hes : ∀ x ∈ es, ValidEntry x := fun x hx => hv x (by simp [hx])
    rw [List.map_cons, List.cons_append, loadLines,
      processLine_entry create profiles l e he hname]
    simp only
    rw [ih _ hes (by rw [assignKey_currentName]; exact hname)]
    congr 1
    have hkey := he.1
    simp only [List.mem_cons, List.mem_singleton, List.not_mem_nil, or_false] at hkey
    have d1 : str "options" ≠ str "config" := by decide
    have d2 : str "slice" ≠ str "config" := by decide
    have d3 : str "slice" ≠ str "options" := by decide
    rcases hkey with hk | hk | hk
    · simp [hk, assignKey, lastValueFrom, d1.symm, d2.symm]
    · simp [hk, assignKey, lastValueFrom, d1, d3.symm]
    · simp [hk, assignKey, lastValueFrom, d2, d3]

/-- The loader reads back the lines a text was joined from, when they are not empty,
free of line ends and fit the buffer. -/
theorem readLines_joinLines (n : Nat) (final : Bool) (lines : List Str)
    (h : ∀ l ∈ lines, l ≠ [] ∧ byte '\n' ∉ l ∧ l.length < n) (fuel : Nat)
    (hf : (joinLines final lines).length ≤ fuel) :
    readLines n fuel (joinLines final lines) = lines := by
  induction lines generalizing fuel with
  | nil => simp [joinLines, readLines_nil]
  | cons l rest ih =>
    obtain ⟨h0, h1, h2⟩ := h l (by simp)
    have hrest : ∀ x ∈ rest, x ≠ [] ∧ byte '\n' ∉ x ∧ x.length < n :=
      fun x hx => h x (by simp [hx])
    cases rest with
    | nil =>
      cases final with
      | false =>
        simp only [joinLines, Bool.false_eq_true, if_false] at hf ⊢
        cases fuel with
        | zero =>
          have : l.length = 0 := by omega
          exact absurd (List.length_eq_zero.mp this) h0
        | succ fuel =>
          rw [readLines, getline_last n l h0 h1 h2]
          simp [readLines_nil]
      | true =>
        simp only [joinLines, if_true] at hf ⊢
        cases fuel with
        | zero => simp [str] at hf
        | succ fuel =>
          have e : l ++ str "\n" = l ++ byte '\n' :: [] := rfl
          rw [readLines, e, getline_line n l [] h1 h2]
          simp [readLines_nil]
    | cons m rest2 =>
      simp only [joinLines] at hf ⊢
      have e : l ++ str "\n" ++ joinLines final (m :: rest2) =
          l ++ byte '\n' :: joinLines final (m :: rest2) := by
        simp [str, byte]
      rw [e] at hf ⊢
      cases fuel with
      | zero => simp at hf
      | succ fuel =>
        rw [readLines, getline_line n l _ h1 h2]
        simp only
        rw [ih hrest fuel (by simp at hf; omega)]

/-- A header line with a valid name is a line the loader reads whole. -/
theorem headerLine_line (name : Str) (hn : ValidName name) :
    headerLine name ≠ [] ∧ byte '\n' ∉ headerLine name ∧ (headerLine name).length < 1024 := by
  obtain ⟨-, hc, hl⟩ := hn
  refine ⟨by simp [headerLine, str], ?_, hl⟩
  intro hmem
  have hs : headerLine name = byte '[' :: (name ++ [byte ']']) := rfl
  rw [hs] at hmem
  simp only [List.mem_cons, List.mem_append, List.mem_singleton, List.not_mem_nil, or_false] at hmem
  rcases hmem with e | hx | e
  · exact absurd e (by decide)
  · exact (hc _ hx).1 (by decide)
  · exact absurd e (by decide)

/-- A valid entry line is a line the loader reads whole. -/
theorem entryLine_line (e : Entry) (hv : ValidEntry e) :
    entryLine e ≠ [] ∧ byte '\n' ∉ entryLine e ∧ (entryLine e).length < 1024 := by
  obtain ⟨hkey, hg1, hg2, hval, hhead, hlast, hlen⟩ := hv
  obtain ⟨hk, -⟩ := key_facts e.key hkey
  refine ⟨by simp [entryLine, str], ?_, hlen⟩
  intro hmem
  have hs : entryLine e = e.key ++ e.gap1 ++ str "=" ++ e.gap2 ++ e.value := rfl
  rw [hs] at hmem
  simp only [List.mem_append] at hmem
  rcases hmem with (((hx | hx) | hx) | hx) | hx
  · exact (hk _ hx).2.1 (by decide)
  · have := hg1 _ hx
    revert this; decide
  · revert hx; decide
  · have := hg2 _ hx
    revert this; decide
  · exact (hval _ hx).1 (by decide)

/-- The lines of a valid descriptor are lines the loader reads whole. -/
theorem descriptorLines_line (secs : List Section) (h : ∀ sec ∈ secs, ValidSection sec) :
    ∀ l ∈ descriptorLines secs, l ≠ [] ∧ byte '\n' ∉ l ∧ l.length < 1024 := by
  induction secs with
  | nil => simp [descriptorLines]
  | cons sec rest ih =>
    intro l hl
    have hsec := h sec (by simp)
    simp only [descriptorLines, sectionLines, List.cons_append, List.mem_cons, List.mem_append,
      List.mem_map] at hl
    rcases hl with rfl | ⟨e, he, rfl⟩ | hl
    · exact headerLine_line _ hsec.1
    · exact entryLine_line e (hsec.2 e he)
    · exact ih (fun s hs => h s (by simp [hs])) l hl

/-- The loader on the lines of the sections that follow a pending section. -/
theorem loadLines_sections {σ : Type} (create : σ → Str → Str → Str → Str → Status × σ)
    (profiles : Str) (secs : List Section) (h : ∀ sec ∈ secs, ValidSection sec)
    (l : Loader σ) (hname : l.currentName ≠ []) :
    (loadLines create profiles (descriptorLines secs) l).1 =
        (createAll create l.world
          ((l.currentName, l.currentConfig, l.currentOptions, l.currentSlice) ::
            secs.map expectedCall)).1
    ∧ (loadLines create profiles (descriptorLines secs) l).2.world =
        (createAll create l.world
          ((l.currentName, l.currentConfig, l.currentOptions, l.currentSlice) ::
            secs.map expectedCall)).2.1
    ∧ (loadLines create profiles (descriptorLines secs) l).2.calls =
        l.calls ++ (createAll create l.world
          ((l.currentName, l.currentConfig, l.currentOptions, l.currentSlice) ::
            secs.map expectedCall)).2.2 := by
  have hn : l.currentName.isEmpty = false := by simpa using hname
  induction secs generalizing l with
  | nil =>
    simp only [descriptorLines, loadLines, atEnd, hn, Bool.not_false, if_true, callCreate,
      List.map_nil, createAll]
    cases hc : create l.world l.currentName l.currentConfig l.currentOptions l.currentSlice with
    | mk st w1 => cases st <;> simp [createAll]
  | cons sec rest ih =>
    have hsec := h sec (by simp)
    have hrest : ∀ s ∈ rest, ValidSection s := fun s hs => h s (by simp [hs])
    simp only [descriptorLines, sectionLines, List.cons_append, List.map_cons]
    rw [loadLines, processLine_header create profiles l sec.name hsec.1.2.1]
    simp only [hn, Bool.not_false, if_true, callCreate, createAll]
    cases hc : create l.world l.currentName l.currentConfig l.currentOptions l.currentSlice with
    | mk st w1 =>
      cases st with
      | ok =>
        simp only
        rw [loadLines_entries create profiles sec.entries _ _ hsec.2 hsec.1.1]
        have := ih hrest
          { world := w1, currentName := sec.name,
            currentConfig := lastValueFrom [] (str "config") sec.entries,
            currentOptions := lastValueFrom [] (str "options") sec.entries,
            currentSlice := lastValueFrom [] (str "slice") sec.entries,
            calls := l.calls ++ [(l.currentName, l.currentConfig, l.currentOptions,
              l.currentSlice)] }
          hsec.1.1 (by simpa using hsec.1.1)
        simp only [expectedCall, lastValue] at this ⊢
        refine ⟨this.1, this.2.1, ?_⟩
        rw [this.2.2]
        simp [createAll]
      | error msg => simp
      | assertFailed => simp

/-- A sequence of create calls that ends with success has made all its calls. -/
theorem createAll_ok {σ : Type} (create : σ → Str → Str → Str → Str → Status × σ)
    (w : σ) (cs : List (Str × Str × Str × Str))
    (h : (createAll create w cs).1 = Status.ok) : (createAll create w cs).2.2 = cs := by
  induction cs generalizing w with
  | nil => rfl
  | cons c cs ih =>
    simp only [createAll] at h ⊢
    cases hc : create w c.1 c.2.1 c.2.2.1 c.2.2.2 with
    | mk st w1 =>
      rw [hc] at h
      cases st with
      | ok =>
        simp only at h ⊢
        rw [ih w1 h]
      | error msg => simp at h
      | assertFailed => simp at h

/-- A sequence of create calls succeeds when every create call does. -/
theorem createAll_succeeds {σ : Type} (create : σ → Str → Str → Str → Str → Status × σ)
    (hc : ∀ w n c o s, (create w n c o s).1 = Status.ok)
    (w : σ) (cs : List (Str × Str × Str × Str)) : (createAll create w cs).1 = Status.ok := by
  induction cs generalizing w with
  | nil => rfl
  | cons c cs ih =>
    simp only [createAll]
    cases h : create w c.1 c.2.1 c.2.2.1 c.2.2.2 with
    | mk st w1 =>
      have := hc w c.1 c.2.1 c.2.2.1 c.2.2.2
      rw [h] at this
      simp only at this
      subst this
      exact ih w1

/-- C9, amended: for a descriptor text made of sections, each a header `[name]` with
a valid name followed by `key = value` lines with a key among `config`, `options`
and `slice` and a valid value, every line being shorter than 1024 bytes, the loader
behaves as the create calls `(name, last config, last options, last slice)` of the
sections made in file order until one fails (a key that a section does not assign
is the empty string, no value carries over): same status, same final state, same
calls. So when the loader returns `true`, and in particular when every create call
succeeds, it has made exactly one create call per section, in file order. -/
theorem C9_descriptor_sections {σ : Type}
    (create : σ → Str → Str → Str → Str → Status × σ) (profiles : Str) (w : σ)
    (secs : List Section) (final : Bool) (h : ∀ sec ∈ secs, ValidSection sec) :
    (loadProfiles create profiles (descriptorText final secs) w).1 =
        (createAll create w (secs.map expectedCall)).1
    ∧ (loadProfiles create profiles (descriptorText final secs) w).2.world =
        (createAll create w (secs.map expectedCall)).2.1
    ∧ (loadProfiles create profiles (descriptorText final secs) w).2.calls =
        (createAll create w (secs.map expectedCall)).2.2
    ∧ ((loadProfiles create profiles (descriptorText final secs) w).1 = Status.ok →
        (loadProfiles create profiles (descriptorText final secs) w).2.calls =
          secs.map expectedCall)
    ∧ ((∀ w1 n c o s, (create w1 n c o s).1 = Status.ok) →
        (loadProfiles create profiles (descriptorText final secs) w).1 = Status.ok ∧
        (loadProfiles create profiles (descriptorText final secs) w).2.calls =
          secs.map expectedCall) := by
  have hlines : readLines 1024 (descriptorText final secs).length (descriptorText final secs) =
      descriptorLines secs :=
    readLines_joinLines 1024 final _ (descriptorLines_line secs h) _ (Nat.le_refl _)
  have main : (loadProfiles create profiles (descriptorText final secs) w).1 =
        (createAll create w (secs.map expectedCall)).1
      ∧ (loadProfiles create profiles (descriptorText final secs) w).2.world =
        (createAll create w (secs.map expectedCall)).2.1
      ∧ (loadProfiles create profiles (descriptorText final secs) w).2.calls =
        (createAll create w (secs.map expectedCall)).2.2 := by
    unfold loadProfiles
    rw [hlines]
    cases secs with
    | nil => simp [descriptorLines, loadLines, atEnd, createAll]
    | cons sec rest =>
      have hsec := h sec (by simp)
      have hrest : ∀ s ∈ rest, ValidSection s := fun s hs => h s (by simp [hs])
      simp only [descriptorLines, sectionLines, List.cons_append]
      rw [loadLines, processLine_header create profiles _ sec.name hsec.1.2.1]
      simp only [List.isEmpty_nil, Bool.not_true, Bool.false_eq_true, if_false]
      rw [loadLines_entries create profiles sec.entries _ _ hsec.2 hsec.1.1]
      have := loadLines_sections create profiles rest hrest
        { world := w, currentName := sec.name,
          currentConfig := lastValueFrom [] (str "config") sec.entries,
          currentOptions := lastValueFrom [] (str "options") sec.entries,
          currentSlice := lastValueFrom [] (str "slice") sec.entries,
          calls := [] } hsec.1.1
      simpa [expectedCall, lastValue] using this
  refine ⟨main.1, main.2.1, main.2.2, ?_, ?_⟩
  · intro hok
    rw [main.2.2]
    exact createAll_ok create w _ (by rw [← main.1]; exact hok)
  · intro hc
    have hok := createAll_succeeds create hc w (secs.map expectedCall)
    exact ⟨by rw [main.1]; exact hok, by rw [main.2.2]; exact createAll_ok create w _ hok⟩

/-- The sections of the example descriptor are valid. -/
theorem exampleSections_valid : ∀ sec ∈ exampleSections, ValidSection sec := by
  intro sec hsec
  simp only [exampleSections, List.mem_cons, List.mem_singleton, List.not_mem_nil, or_false] at hsec
  rcases hsec with rfl | rfl
  · refine ⟨⟨by decide, by decide, by decide⟩, ?_⟩
    intro e he
    simp only [List.mem_singleton] at he
    subst he
    refine ⟨by decide, by decide, by decide, by decide, ?_, ?_, by decide⟩
    · intro x hx
      have : byte 'c' = x := by simpa [str] using hx
      subst this
      decide
    · intro x hx
      have : x = byte '1' := by
        have h2 : (str "c1").getLast? = some (byte '1') := by decide
        rw [show (⟨str "config", [], [], str "c1"⟩ : Entry).value = str "c1" from rfl, h2] at hx
        exact (Option.some.inj hx).symm
      subst this
      decide
  · refine ⟨⟨by decide, by decide, by decide⟩, ?_⟩
    intro e he
    simp only [List.mem_singleton] at he
    subst he
    refine ⟨by decide, by decide, by decide, by decide, ?_, ?_, by decide⟩
    · intro x hx
      have : byte 'o' = x := by simpa [str] using hx
      subst this
      decide
    · intro x hx
      have : x = byte '2' := by
        have h2 : (str "o2").getLast? = some (byte '2') := by decide
        rw [show (⟨str "options", [], [], str "o2"⟩ : Entry).value = str "o2" from rfl, h2] at hx
        exact (Option.some.inj hx).symm
      subst this
      decide

/-- C9 amended, run on the descriptor of the specification: the text
`[a]`, `config=c1`, `[b]`, `options=o2` yields the calls `("a", "c1", "", "")` and
`("b", "", "o2", "")`, in that order. -/
theorem C9_descriptor_sections_witness :
    (∀ sec ∈ exampleSections, ValidSection sec)
    ∧ descriptorText false exampleSections = str "[a]\nconfig=c1\n[b]\noptions=o2"
    ∧ (loadProfiles okCreate (str "profiles.ini")
        (descriptorText false exampleSections) ()).1 = Status.ok
    ∧ (loadProfiles okCreate (str "profiles.ini")
        (descriptorText false exampleSections) ()).2.calls =
          [(str "a", str "c1", [], []), (str "b", [], str "o2", [])] :=
  have h := (C9_descriptor_sections okCreate (str "profiles.ini") () exampleSections false
    exampleSections_valid).2.2.2.2 (fun _ _ _ _ _ => rfl)
  ⟨exampleSections_valid, by decide, h.1, h.2.trans (by decide)⟩

/-- The loader stops reading at a line of 1024 bytes or more: after the header
`[a]`, a line `slice = v` that is too long for the line buffer ends the loop, so
neither that line nor the section `[b]` after it is processed. -/
theorem loadProfiles_long_line (v : Str) (hv : byte '\n' ∉ v) (hl : 1016 ≤ v.length) :
    (loadProfiles okCreate (str "profiles.ini")
        (str "[a]\nslice = " ++ v ++ str "\n[b]\n") ()).1 = Status.ok
    ∧ (loadProfiles okCreate (str "profiles.ini")
        (str "[a]\nslice = " ++ v ++ str "\n[b]\n") ()).2.calls = [(str "a", [], [], [])] := by
  have e : str "[a]\nslice = " ++ v ++ str "\n[b]\n" =
      str "[a]" ++ byte '\n' :: ((str "slice = " ++ v) ++ byte '\n' :: str "[b]\n") := by
    simp [str, byte]
  have hlong : getline 1024 ((str "slice = " ++ v) ++ byte '\n' :: str "[b]\n") = none := by
    apply getline_long
    · intro hmem
      rcases List.mem_append.mp hmem with h | h
      · revert h; decide
      · exact hv h
    · rw [List.length_append]
      have : (str "slice = ").length = 8 := by decide
      omega
  have hlines : readLines 1024 (str "[a]\nslice = " ++ v ++ str "\n[b]\n").length
      (str "[a]\nslice = " ++ v ++ str "\n[b]\n") = [str "[a]"] := by
    rw [e]
    have hlen : ∃ k, (str "[a]" ++ byte '\n' ::
        ((str "slice = " ++ v) ++ byte '\n' :: str "[b]\n")).length = k + 1 :=
      ⟨_, by rw [List.length_append, List.length_cons]; rfl⟩
    obtain ⟨k, hk⟩ := hlen
    rw [hk, readLines, getline_line 1024 (str "[a]") _ (by decide) (by decide)]
    simp only
    rw [readLines_of_none 1024 k _ hlong]
  unfold loadProfiles
  rw [hlines]
  exact ⟨by decide, by decide⟩

/-- C9, as stated, fails. First, the descriptor `[a]`, `slice = x...x` (1024 times
`x`), `[b]` is made of two headers with distinct non-empty names and one
`key = value` line with the key `slice`, and every create call succeeds; the loader
returns `true` after the single create call `("a", "", "", "")`, where the claim
expects the two calls `("a", "", "", "x...x")` and `("b", "", "", "")`. Second, on
the descriptor `[a]`, `config=c1`, `[b]`, `options=o2` with a create that fails, the
loader returns `false` after the call for `a` and makes no call for `b`. -/
theorem C9_counterexample :
    ((loadProfiles okCreate (str "profiles.ini")
        (str "[a]\nslice = " ++ List.replicate 1024 (byte 'x') ++ str "\n[b]\n") ()).1 = Status.ok
    ∧ (loadProfiles okCreate (str "profiles.ini")
        (str "[a]\nslice = " ++ List.replicate 1024 (byte 'x') ++ str "\n[b]\n") ()).2.calls =
          [(str "a", [], [], [])]
    ∧ (loadProfiles okCreate (str "profiles.ini")
        (str "[a]\nslice = " ++ List.replicate 1024 (byte 'x') ++ str "\n[b]\n") ()).2.calls ≠
          [(str "a", [], [], List.replicate 1024 (byte 'x')), (str "b", [], [], [])])
    ∧ ((loadProfiles failCreate (str "profiles.ini")
        (str "[a]\nconfig=c1\n[b]\noptions=o2") ()).1 = Status.error []
    ∧ (loadProfiles failCreate (str "profiles.ini")
        (str "[a]\nconfig=c1\n[b]\noptions=o2") ()).2.calls = [(str "a", str "c1", [], [])]) := by
  have h := loadProfiles_long_line (List.replicate 1024 (byte 'x'))
    (by
      intro hmem
      have := List.eq_of_mem_replicate hmem
      revert this
      decide)
    (by rw [List.length_replicate]; omega)
  refine ⟨⟨h.1, h.2, ?_⟩, by decide, by decide⟩
  rw [h.2]
  intro hc
  have := congrArg List.length hc
  simp at this

/-! ## Counting the create calls -/

/-- The first line of a non-empty text and the lines of the rest. -/
theorem textLines_cons_eq (inp : Str) (h : inp ≠ []) :
    textLines inp =
      inp.takeWhile (fun x => decide (x ≠ byte '\n')) ::
        textLines (inp.drop (inp.takeWhile (fun x => decide (x ≠ byte '\n'))).length).tail := by
  induction inp with
  | nil => exact absurd rfl h
  | cons c rest ih =>
    by_cases hc : c = byte '\n'
    · subst hc
      simp [textLines]
    · have hp : decide (c ≠ byte '\n') = true := by simpa using hc
      simp only [List.takeWhile_cons, hp, textLines, hc, if_false, List.length_cons,
        List.drop_succ_cons]
      by_cases hr : rest = []
      · subst hr
        simp [textLines]
      · rw [ih hr]
        simp

/-- The loader reads exactly the lines of a text when all of them fit the buffer. -/
theorem readLines_eq_textLines (n : Nat) (fuel : Nat) (inp : Str) (hf : inp.length ≤ fuel)
    (h : ∀ l ∈ textLines inp, l.length < n) : readLines n fuel inp = textLines inp := by
  induction fuel generalizing inp with
  | zero =>
    have : inp = [] := List.length_eq_zero.mp (Nat.le_zero.mp hf)
    subst this
    rfl
  | succ fuel ih =>
    by_cases hne : inp = []
    · subst hne
      simp [readLines_nil, textLines]
    · have ht := textLines_cons_eq inp hne
      have hl : (inp.takeWhile (fun x => decide (x ≠ byte '\n'))).length < n :=
        h _ (by rw [ht]; exact List.mem_cons_self _ _)
      have hemp : inp.isEmpty = false := by simpa using hne
      rw [readLines]
      simp only [getline, hemp, hl, if_true, Bool.false_eq_true, if_false]
      rw [ht, ih]
      · have h1 : (inp.drop (inp.takeWhile (fun x => decide (x ≠ byte '\n'))).length).tail.length
            < inp.length := by
          rw [List.length_tail, List.length_drop]
          have : 0 < inp.length := List.length_pos.mpr hne
          omega
        omega
      · intro l hl2
        exact h l (by rw [ht]; exact List.mem_cons_of_mem _ hl2)

/-- When no index is found, no byte satisfies `p`. -/
theorem firstIdx_eq_none (p : Byte → Bool) (xs : Str) (h : firstIdx p xs = none) :
    ∀ x ∈ xs, p x = false := by
  induction xs with
  | nil => simp
  | cons x xs ih =>
    simp only [firstIdx] at h
    by_cases hx : p x = true
    · simp [hx] at h
    · have hx2 : p x = false := by simpa using hx
      simp only [hx2, Bool.false_eq_true, if_false, Option.map_eq_none'] at h
      intro y hy
      rcases List.mem_cons.mp hy with rfl | hy
      · exact hx2
      · exact ih h y hy

/-- The first index found splits the string where `takeWhile` and `dropWhile` of the
negated test do. -/
theorem firstIdx_some (p q : Byte → Bool) (hq : ∀ x, q x = !p x) (xs : Str) (k : Nat)
    (h : firstIdx p xs = some k) :
    k < xs.length ∧ xs.take k = xs.takeWhile q ∧ xs.drop k = xs.dropWhile q := by
  induction xs generalizing k with
  | nil => simp [firstIdx] at h
  | cons x xs ih =>
    simp only [firstIdx] at h
    by_cases hx : p x = true
    · simp only [hx, if_true, Option.some.injEq] at h
      subst h
      simp [List.takeWhile_cons, List.dropWhile_cons, hq, hx]
    · have hx2 : p x = false := by simpa using hx
      simp only [hx2, Bool.false_eq_true, if_false, Option.map_eq_some'] at h
      obtain ⟨j, hj, rfl⟩ := h
      obtain ⟨h1, h2, h3⟩ := ih j hj
      refine ⟨by simpa using h1, ?_, ?_⟩
      · simp [List.takeWhile_cons, hq, hx2, h2]
      · simp [List.dropWhile_cons, hq, hx2, h3]

/-- The first index found is not affected by cutting the string after it. -/
theorem firstIdx_take (p : Byte → Bool) (xs : Str) (b n : Nat) (h : firstIdx p xs = some b)
    (hb : b < n) : firstIdx p (xs.take n) = some b := by
  induction xs generalizing b n with
  | nil => simp [firstIdx] at h
  | cons x xs ih =>
    cases n with
    | zero => omega
    | succ n =>
      simp only [firstIdx] at h
      simp only [List.take_succ_cons, firstIdx]
      by_cases hx : p x = true
      · simp only [hx, if_true] at h ⊢
        exact h
      · have hx2 : p x = false := by simpa using hx
        simp only [hx2, Bool.false_eq_true, if_false, Option.map_eq_some'] at h ⊢
        obtain ⟨j, hj, rfl⟩ := h
        exact ⟨j, ih j n hj (by omega), rfl⟩

/-- When no last index is found, no byte satisfies `p`. -/
theorem lastIdx_eq_none (p : Byte → Bool) (xs : Str) (h : lastIdx p xs = none) :
    ∀ x ∈ xs, p x = false := by
  induction xs with
  | nil => simp
  | cons x xs ih =>
    simp only [lastIdx] at h
    cases hl : lastIdx p xs with
    | some k => simp [hl] at h
    | none =>
      simp only [hl] at h
      have hx2 : p x = false := by
        by_cases hx : p x = true
        · simp [hx] at h
        · simpa using hx
      intro y hy
      rcases List.mem_cons.mp hy with rfl | hy
      · exact hx2
      · exact ih hl y hy

/-- The last index found is within the string and not before the first one. -/
theorem lastIdx_some (p : Byte → Bool) (xs : Str) (i : Nat) (h : lastIdx p xs = some i) :
    i < xs.length ∧ ∀ b, firstIdx p xs = some b → b ≤ i := by
  induction xs generalizing i with
  | nil => simp [lastIdx] at h
  | cons x xs ih =>
    simp only [lastIdx] at h
    cases hl : lastIdx p xs with
    | some k =>
      simp only [hl, Option.some.injEq] at h
      subst h
      obtain ⟨h1, h2⟩ := ih k hl
      refine ⟨by simpa using h1, ?_⟩
      intro b hb
      simp only [firstIdx] at hb
      by_cases hx : p x = true
      · simp only [hx, if_true, Option.some.injEq] at hb
        omega
      · have hx2 : p x = false := by simpa using hx
        simp only [hx2, Bool.false_eq_true, if_false, Option.map_eq_some'] at hb
        obtain ⟨j, hj, rfl⟩ := hb
        have := h2 j hj
        omega
    | none =>
      simp only [hl] at h
      by_cases hx : p x = true
      · simp only [hx, if_true, Option.some.injEq] at h
        subst h
        refine ⟨by simp, ?_⟩
        intro b hb
        simp only [firstIdx, hx, if_true, Option.some.injEq] at hb
        omega
      · simp [hx] at h

/-- The run before the first byte that satisfies `p` does not depend on what follows
the string. -/
theorem takeWhile_append_of_firstIdx (p q : Byte → Bool) (hq : ∀ x, q x = !p x)
    (ys zs : Str) (k : Nat) (h : firstIdx p ys = some k) :
    (ys ++ zs).takeWhile q = ys.take k := by
  induction ys generalizing k with
  | nil => simp [firstIdx] at h
  | cons y ys ih =>
    simp only [firstIdx] at h
    by_cases hy : p y = true
    · simp only [hy, if_true, Option.some.injEq] at h
      subst h
      simp [List.takeWhile_cons, hq, hy]
    · have hy2 : p y = false := by simpa using hy
      simp only [hy2, Bool.false_eq_true, if_false, Option.map_eq_some'] at h
      obtain ⟨j, hj, rfl⟩ := h
      simp [List.takeWhile_cons, hq, hy2, ih j hj]

/-- The text of a line cut at its first `;`. -/
theorem erase_comment (s : Str) :
    (find s (byte ';') 0 = none ∧ s.takeWhile (fun x => decide (x ≠ byte ';')) = s) ∨
    (∃ idx, find s (byte ';') 0 = some idx ∧
      s.takeWhile (fun x => decide (x ≠ byte ';')) = erase s idx) := by
  unfold find erase
  rw [List.drop_zero]
  cases h : firstIdx (fun x => decide (x = byte ';')) s with
  | none =>
    left
    have := firstIdx_eq_none _ s h
    refine ⟨rfl, ?_⟩
    rw [List.takeWhile_eq_self_iff]
    intro x hx
    have := this x hx
    simpa using this
  | some k =>
    right
    exact ⟨k, rfl,
      (firstIdx_some _ (fun x => decide (x ≠ byte ';')) (by intro x; simp) s k h).2.1.symm⟩

/-- The stripped line, in terms of the comment-free text and its last byte that is
not white space. -/
theorem stripLine_eq (line : Str) :
    stripLine line =
      match lastIdx (fun x => decide (x ∉ delim))
          ((cstring line).takeWhile (fun x => decide (x ≠ byte ';'))) with
      | some idx => ((cstring line).takeWhile (fun x => decide (x ≠ byte ';'))).take (idx + 1)
      | none => (cstring line).takeWhile (fun x => decide (x ≠ byte ';')) := by
  have key : ∀ c : Str,
      (match find_last_not_of c delim with
        | some idx => if idx + 1 < c.length then erase c (idx + 1) else c
        | none => c) =
      match lastIdx (fun x => decide (x ∉ delim)) c with
      | some idx => c.take (idx + 1)
      | none => c := by
    intro c
    unfold find_last_not_of erase
    cases h : lastIdx (fun x => decide (x ∉ delim)) c with
    | none => rfl
    | some idx =>
      simp only
      split
      · rfl
      · rename_i hlt
        symm
        apply List.take_of_length_le
        omega
  unfold stripLine
  rcases erase_comment (cstring line) with ⟨h1, h2⟩ | ⟨idx, h1, h2⟩
  · simp only [h1, h2]
    exact key _
  · simp only [h1, h2]
    exact key _

/-- The searches of the loop body agree with the vocabulary of the format: the line
is blank exactly when its text is empty; otherwise the byte tested against `[` is the
first byte of the text, and the name cut out of a header is the section name. -/
theorem strip_link (line : Str) :
    (find_first_not_of (stripLine line) delim 0 = none ∧ lineText line = []) ∨
    (∃ beg, find_first_not_of (stripLine line) delim 0 = some beg
      ∧ (lineText line).head? = (stripLine line)[beg]?
      ∧ ∀ f, find_first_of (stripLine line) (str " \t]") (beg + 1) = some f →
          substr (stripLine line) (beg + 1) (f - (beg + 1)) = sectionName line) := by
  rw [stripLine_eq]
  unfold sectionName lineText find_first_not_of
  generalize (cstring line).takeWhile (fun x => decide (x ≠ byte ';')) = c
  have hq : ∀ x : Byte, decide (x ∈ delim) = !decide (x ∉ delim) := by intro x; simp
  cases hf : firstIdx (fun x => decide (x ∉ delim)) c with
  | none =>
    left
    have hall := firstIdx_eq_none _ c hf
    rw [lastIdx_none _ c hall]
    simp only [List.drop_zero, hf, Option.map_none', true_and]
    rw [List.dropWhile_eq_nil_iff]
    intro x hx
    have := hall x hx
    simpa using this
  | some b =>
    right
    obtain ⟨hb1, -, hb3⟩ := firstIdx_some _ (fun x => decide (x ∈ delim)) hq c b hf
    cases hl : lastIdx (fun x => decide (x ∉ delim)) c with
    | none =>
      have := lastIdx_eq_none _ c hl
      have hc := firstIdx_none _ c this
      rw [hc] at hf
      exact absurd hf (by simp)
    | some idx =>
      obtain ⟨hi1, hi2⟩ := lastIdx_some _ c idx hl
      have hbi : b ≤ idx := hi2 b hf
      simp only [List.drop_zero]
      refine ⟨b, ?_, ?_, ?_⟩
      · rw [firstIdx_take _ c b (idx + 1) hf (by omega)]
        rfl
      · rw [← hb3, List.head?_drop, List.getElem?_take]
        simp only [show b < idx + 1 by omega, if_true]
      · intro f hfo
        unfold find_first_of at hfo
        cases hk : firstIdx (fun x => decide (x ∈ str " \t]")) ((c.take (idx + 1)).drop (b + 1)) with
        | none => simp [hk] at hfo
        | some k =>
          simp only [hk, Option.map_some', Option.some.injEq] at hfo
          subst hfo
          unfold substr
          rw [Nat.add_sub_cancel, ← hb3, List.drop_drop]
          have hsplit : c.drop (b + 1) = (c.take (idx + 1)).drop (b + 1) ++ c.drop (idx + 1) := by
            conv_lhs => rw [← List.take_append_drop (idx + 1) c]
            apply List.drop_append_of_le_length
            rw [List.length_take]
            omega
          rw [hsplit]
          symm
          exact takeWhile_append_of_firstIdx _ _ (by intro x; simp) _ _ k hk

/-- A create call of the loader adds one entry to the record of calls. -/
theorem callCreate_calls {σ : Type} (create : σ → Str → Str → Str → Str → Status × σ)
    (l : Loader σ) : (callCreate create l).2.calls.length = l.calls.length + 1 := by
  simp [callCreate]

/-- What a pass through the loop body that goes on to the next line has done. -/
theorem processLine_next {σ : Type} (create : σ → Str → Str → Str → Str → Status × σ)
    (profiles : Str) (l l1 : Loader σ) (line : Str)
    (h : processLine create profiles l line = LineResult.next l1) :
    (isSectionHeader line = true →
      l1.currentName = sectionName line ∧ l1.calls.length = l.calls.length + pending l)
    ∧ (isSectionHeader line = false →
      l1.currentName = l.currentName ∧ l1.calls.length = l.calls.length) := by
  unfold processLine at h
  unfold isSectionHeader pending
  rcases strip_link line with ⟨h1, h2⟩ | ⟨beg, h1, h2, h3⟩
  · simp only [h1] at h
    have : l1 = l := by injection h with h; exact h.symm
    subst this
    simp [h2]
  · simp only [h1] at h
    rw [h2]
    by_cases hb : (stripLine line)[beg]? = some (byte '[')
    · simp only [hb, if_true] at h
      refine ⟨fun _ => ?_, fun hc => by simp [hb] at hc⟩
      cases hf : find_first_of (stripLine line) (str " \t]") (beg + 1) with
      | none => simp [hf] at h
      | some fin =>
        have hname := h3 fin hf
        simp only [hf] at h
        split at h
        · exact absurd h (by simp)
        · by_cases hn : l.currentName.isEmpty = true
          · simp only [hn, Bool.not_true, Bool.false_eq_true, if_false] at h
            injection h with h
            subst h
            simp [hname, hn]
          · have hn2 : l.currentName.isEmpty = false := by simpa using hn
            simp only [hn2, Bool.not_false, if_true] at h
            have hcalls := callCreate_calls create l
            cases hc : callCreate create l with
            | mk st l2 =>
              rw [hc] at h hcalls
              cases st with
              | ok =>
                simp only at h
                injection h with h
                subst h
                simp only [hname, hn2, Bool.false_eq_true, if_false, true_and]
                exact hcalls
              | error msg => simp at h
              | assertFailed => simp at h
    · simp only [hb, if_false] at h
      refine ⟨fun hc => absurd hc (by simpa using hb), fun _ => ?_⟩
      cases hf : find_first_of (stripLine line) (delim ++ str "=") beg with
      | none => simp [hf] at h
      | some fin =>
        simp only [hf] at h
        cases he : find (stripLine line) (byte '=') fin with
        | none => simp [he] at h
        | some eq =>
          simp only [he] at h
          split at h
          · exact absurd h (by simp)
          · rename_i l2 hassign
            split at h
            · exact absurd h (by simp)
            · injection h with h
              subst h
              split at hassign
              · injection hassign with hassign
                subst hassign
                exact ⟨rfl, rfl⟩
              · split at hassign
                · injection hassign with hassign
                  subst hassign
                  exact ⟨rfl, rfl⟩
                · split at hassign
                  · injection hassign with hassign
                    subst hassign
                    exact ⟨rfl, rfl⟩
                  · exact absurd hassign (by simp)

/-- A pass through the loop body that leaves `profileInit` does not report success. -/
theorem processLine_stop {σ : Type} (create : σ → Str → Str → Str → Str → Status × σ)
    (profiles : Str) (l l1 : Loader σ) (line : Str) (st : Status)
    (h : processLine create profiles l line = LineResult.stop st l1) : st ≠ Status.ok := by
  unfold processLine at h
  intro hst
  subst hst
  cases h1 : find_first_not_of (stripLine line) delim 0 with
  | none => simp [h1] at h
  | some beg =>
    simp only [h1] at h
    by_cases hb : (stripLine line)[beg]? = some (byte '[')
    · simp only [hb, if_true] at h
      cases hf : find_first_of (stripLine line) (str " \t]") (beg + 1) with
      | none => simp [hf] at h
      | some fin =>
        simp only [hf] at h
        by_cases hl : (stripLine line).getLast? ≠ some (byte ']')
        · simp [hl] at h
        · simp only [hl, if_false] at h
          by_cases hn : l.currentName.isEmpty = true
          · simp [hn] at h
          · have hn2 : l.currentName.isEmpty = false := by simpa using hn
            simp only [hn2, Bool.not_false, if_true] at h
            cases hc : callCreate create l with
            | mk st2 l2 =>
              rw [hc] at h
              cases st2 <;> simp at h
    · simp only [hb, if_false] at h
      cases hf : find_first_of (stripLine line) (delim ++ str "=") beg with
      | none => simp [hf] at h
      | some fin =>
        simp only [hf] at h
        cases he : find (stripLine line) (byte '=') fin with
        | none => simp [he] at h
        | some eq =>
          simp only [he] at h
          split at h
          · simp at h
          · split at h
            · simp at h
            · simp at h

/-- The count the loader keeps: when it returns `true`, it has made one create call
for the section that was open at the start and one for every header line with a
non-empty name among the lines read. -/
theorem loadLines_count {σ : Type} (create : σ → Str → Str → Str → Str → Status × σ)
    (profiles : Str) (lines : List Str) (l : Loader σ)
    (hok : (loadLines create profiles lines l).1 = Status.ok) :
    (loadLines create profiles lines l).2.calls.length =
      l.calls.length + pending l +
        lines.countP (fun x => isSectionHeader x && !(sectionName x).isEmpty) := by
  induction lines generalizing l with
  | nil =>
    simp only [loadLines, atEnd, pending, List.countP_nil, Nat.add_zero] at hok ⊢
    by_cases hn : l.currentName.isEmpty = true
    · simp [hn]
    · have hn2 : l.currentName.isEmpty = false := by simpa using hn
      simp only [hn2, Bool.not_false, if_true, Bool.false_eq_true, if_false]
      exact callCreate_calls create l
  | cons line rest ih =>
    rw [loadLines] at hok ⊢
    cases hp : processLine create profiles l line with
    | stop st l1 =>
      rw [hp] at hok
      exact absurd hok (processLine_stop create profiles l l1 line st hp)
    | next l1 =>
      rw [hp] at hok
      simp only at hok ⊢
      rw [ih l1 hok, List.countP_cons]
      obtain ⟨hh, hn⟩ := processLine_next create profiles l l1 line hp
      cases hs : isSectionHeader line with
      | true =>
        obtain ⟨h1, h2⟩ := hh hs
        simp only [pending, h1, h2, Bool.true_and]
        cases (sectionName line).isEmpty with
        | true => simp
        | false => simp; omega
      | false =>
        obtain ⟨h1, h2⟩ := hn hs
        simp only [pending, h1, h2, Bool.false_and, Bool.false_eq_true, if_false]
        omega

/-- C10, amended: for a descriptor text whose lines are all shorter than 1024 bytes
and that the loader processes without error, the number of create calls the loader
makes equals the number of section-header lines of the text whose section name is not
empty. -/
theorem C10_one_create_per_named_section {σ : Type}
    (create : σ → Str → Str → Str → Str → Status × σ) (profiles text : Str) (w : σ)
    (hlen : ∀ l ∈ textLines text, l.length < 1024)
    (hok : (loadProfiles create profiles text w).1 = Status.ok) :
    (loadProfiles create profiles text w).2.calls.length =
      (textLines text).countP (fun x => isSectionHeader x && !(sectionName x).isEmpty) := by
  unfold loadProfiles at hok ⊢
  rw [readLines_eq_textLines 1024 text.length text (Nat.le_refl _) hlen] at hok ⊢
  rw [loadLines_count create profiles _ _ hok]
  simp [pending]

/-- C10 amended, run on the descriptor `[a]`, `config=c1`, `[b]`, `options=o2`: two
header lines with a name, two create calls. -/
theorem C10_one_create_per_named_section_witness :
    (∀ l ∈ textLines (str "[a]\nconfig=c1\n[b]\noptions=o2"), l.length < 1024)
    ∧ (loadProfiles okCreate (str "profiles.ini") (str "[a]\nconfig=c1\n[b]\noptions=o2") ()).1 =
        Status.ok
    ∧ (textLines (str "[a]\nconfig=c1\n[b]\noptions=o2")).countP
        (fun x => isSectionHeader x && !(sectionName x).isEmpty) = 2
    ∧ (loadProfiles okCreate (str "profiles.ini")
        (str "[a]\nconfig=c1\n[b]\noptions=o2") ()).2.calls.length = 2 :=
  ⟨by decide, by decide, by decide,
    (C10_one_create_per_named_section okCreate (str "profiles.ini")
      (str "[a]\nconfig=c1\n[b]\noptions=o2") () (by decide) (by decide)).trans (by decide)⟩

/-- The first line of a text that contains a line end. -/
theorem textLines_line (line rest : Str) (h : byte '\n' ∉ line) :
    textLines (line ++ byte '\n' :: rest) = line :: textLines rest := by
  rw [textLines_cons_eq _ (by simp), takeWhile_line line rest h, List.drop_left]
  rfl

/-- A line that opens with the letter `s` is not a section header. -/
theorem isSectionHeader_slice (v : Str) : isSectionHeader (str "slice = " ++ v) = false := by
  have e : str "slice = " ++ v = byte 's' :: (str "lice = " ++ v) := rfl
  have t : ∀ (p : Byte → Bool) (l : Str), p (byte 's') = true →
      (byte 's' :: l).takeWhile p = byte 's' :: l.takeWhile p := by
    intro p l h
    simp [List.takeWhile_cons, h]
  have d : ∀ (p : Byte → Bool) (l : Str), p (byte 's') = false →
      (byte 's' :: l).dropWhile p = byte 's' :: l := by
    intro p l h
    simp [List.dropWhile_cons, h]
  unfold isSectionHeader lineText cstring
  rw [e, t _ _ (by decide), t _ _ (by decide), d _ _ (by decide), List.head?_cons]
  decide

/-- The lines of the descriptor with a long `slice` line. -/
theorem textLines_long_line (v : Str) (hv : byte '\n' ∉ v) :
    textLines (str "[a]\nslice = " ++ v ++ str "\n[b]\n") =
      [str "[a]", str "slice = " ++ v, str "[b]"] := by
  have e : str "[a]\nslice = " ++ v ++ str "\n[b]\n" =
      str "[a]" ++ byte '\n' :: ((str "slice = " ++ v) ++ byte '\n' :: str "[b]\n") := by
    simp [str, byte]
  rw [e, textLines_line _ _ (by decide), textLines_line]
  · have : textLines (str "[b]\n") = [str "[b]"] := by decide
    rw [this]
  · intro hmem
    rcases List.mem_append.mp hmem with h | h
    · revert h; decide
    · exact hv h

/-- C10, as stated, fails. First, the descriptor `[]` consists of one section-header
line; the loader processes it without error and makes no create call. Second, the
descriptor `[a]`, `slice = x...x` (1024 times `x`), `[b]` has two section-header
lines, both with a name; the loader processes it without error and makes one create
call, because it stops reading at the long line. -/
theorem C10_counterexample :
    (textLines (str "[]") = [str "[]"]
    ∧ isSectionHeader (str "[]") = true
    ∧ (textLines (str "[]")).countP isSectionHeader = 1
    ∧ (loadProfiles okCreate (str "profiles.ini") (str "[]") ()).1 = Status.ok
    ∧ (loadProfiles okCreate (str "profiles.ini") (str "[]") ()).2.calls = [])
    ∧ ((textLines (str "[a]\nslice = " ++ List.replicate 1024 (byte 'x') ++
          str "\n[b]\n")).countP
        (fun x => isSectionHeader x && !(sectionName x).isEmpty) = 2
    ∧ (loadProfiles okCreate (str "profiles.ini")
        (str "[a]\nslice = " ++ List.replicate 1024 (byte 'x') ++ str "\n[b]\n") ()).1 = Status.ok
    ∧ (loadProfiles okCreate (str "profiles.ini")
        (str "[a]\nslice = " ++ List.replicate 1024 (byte 'x') ++
          str "\n[b]\n") ()).2.calls.length = 1) := by
  have hx : byte '\n' ∉ List.replicate 1024 (byte 'x') := by
    intro hmem
    have := List.eq_of_mem_replicate hmem
    revert this
    decide
  have h := loadProfiles_long_line (List.replicate 1024 (byte 'x')) hx
    (by rw [List.length_replicate]; omega)
  refine ⟨⟨by decide, by decide, by decide, by decide, by decide⟩, ?_, h.1, by rw [h.2]; rfl⟩
  rw [textLines_long_line _ hx]
  have h1 : (isSectionHeader (str "[a]") && !(sectionName (str "[a]")).isEmpty) = true := by
    decide
  have h2 : (isSectionHeader (str "[b]") && !(sectionName (str "[b]")).isEmpty) = true := by
    decide
  simp only [List.countP_cons, List.countP_nil, h1, h2, isSectionHeader_slice, Bool.false_and]
  decide


/-! ## Interfaces and exceptions -/

/-- C16: for every interface definition, `visitClassDefStart` writes
`interface <flat> implements ` followed by the flattened names of all its bases in
declaration order joined by `,`, or, when the base list is empty, by the single
marker `Ice_LocalObject` if the interface is local and `Ice_Object` if it is not,
followed by a line end, the opening brace and a line end. -/
theorem C16_interface_header (u : Util) (v : CodeVisitor) (p : ClassDef)
    (hp : p.isInterface = true) :
    (visitClassDefStart u v p).out =
        v.out ++ str "interface " ++ u.flatten p.scopedName ++ str " implements " ++
          (if p.bases.isEmpty then defaultInterface p
            else commaJoin (p.bases.map (fun b => u.flatten b.scopedName))) ++
          endl ++ str "\x7b" ++ endl
    ∧ (defaultInterface p = if p.isLocal then str "Ice_LocalObject" else str "Ice_Object")
    ∧ (∀ b1 b2 b3, p.bases = [b1, b2, b3] →
        (visitClassDefStart u v p).out =
          v.out ++ str "interface " ++ u.flatten p.scopedName ++ str " implements " ++
            u.flatten b1.scopedName ++ str "," ++ u.flatten b2.scopedName ++ str "," ++
            u.flatten b3.scopedName ++ endl ++ str "\x7b" ++ endl) := by
  have main : (visitClassDefStart u v p).out =
        v.out ++ str "interface " ++ u.flatten p.scopedName ++ str " implements " ++
          (if p.bases.isEmpty then defaultInterface p
            else commaJoin (p.bases.map (fun b => u.flatten b.scopedName))) ++
          endl ++ str "\x7b" ++ endl := by
    simp only [visitClassDefStart, hp, writeBases_true, defaultInterface]
    cases hb : p.bases.isEmpty <;> cases hl : p.isLocal <;> simp [List.append_assoc]
  refine ⟨main, rfl, ?_⟩
  intro b1 b2 b3 hb
  rw [main, hb]
  simp [commaJoin, List.append_assoc]

/-- C16, run on the interface `::M::I3` with bases `[I1, I2]`. -/
theorem C16_interface_header_witness :
    exampleInterface3.isInterface = true ∧
    (visitClassDefStart exampleUtil emptyVisitor exampleInterface3).out =
      str "interface __M__I3 implements __M__I1,__M__I2\n\x7b\n" ∧
    (visitClassDefStart exampleUtil emptyVisitor exampleInterface1).out =
      str "interface __M__I1 implements Ice_Object\n\x7b\n" ∧
    (visitClassDefStart exampleUtil emptyVisitor exampleLocalInterface).out =
      str "interface __M__L implements Ice_LocalObject\n\x7b\n" :=
  ⟨rfl,
    (C16_interface_header exampleUtil emptyVisitor exampleInterface3 rfl).1.trans (by decide),
    (C16_interface_header exampleUtil emptyVisitor exampleInterface1 rfl).1.trans (by decide),
    (C16_interface_header exampleUtil emptyVisitor exampleLocalInterface rfl).1.trans
      (by decide)⟩

/-- C17: for every exception definition, `visitExceptionStart` writes
`class <flat> extends <S>`, a line end, the opening brace and a line end, with
exactly one superclass `S`: the flattened name of the base exception when there is
one, otherwise `Ice_LocalException` when the exception is local and
`Ice_UserException` when it is not. -/
theorem C17_exception_header (u : Util) (v : CodeVisitor) (p : ExceptionDef) :
    (visitExceptionStart u v p).out =
        v.out ++ str "class " ++ u.flatten p.scopedName ++ str " extends " ++
          (match p.base with
            | some base => u.flatten base.scopedName
            | none => defaultException p) ++
          endl ++ str "\x7b" ++ endl
    ∧ (defaultException p =
        if p.isLocal then str "Ice_LocalException" else str "Ice_UserException")
    ∧ (visitExceptionStart u v p).classes = v.classes
    ∧ (visitExceptionStart u v p).warnings = v.warnings := by
  refine ⟨?_, rfl, rfl, rfl⟩
  simp only [visitExceptionStart, defaultException]
  cases hb : p.base <;> cases hl : p.isLocal <;> simp [List.append_assoc]

/-- C17, run on the user exception `::M::Base`, which has no base, and on
`::M::Derived`, whose base is `::M::Base`. -/
theorem C17_exception_header_witness :
    (visitExceptionStart exampleUtil emptyVisitor exampleException).out =
      str "class __M__Base extends Ice_UserException\n\x7b\n" ∧
    (visitExceptionStart exampleUtil emptyVisitor exampleDerivedException).out =
      str "class __M__Derived extends __M__Base\n\x7b\n" :=
  ⟨(C17_exception_header exampleUtil emptyVisitor exampleException).1.trans (by decide),
    (C17_exception_header exampleUtil emptyVisitor exampleDerivedException).1.trans (by decide)⟩


/-! ## Activation -/

/-- The three ways `do_load` ends when no profile is active and the profile is found. -/
theorem do_load_found (env : Env) (w : World env) (name : Str) (args : List Str)
    (profile : Profile env) (hidle : w.activeProfile = none)
    (hfound : w.profiles.find (if name.isEmpty then _defaultProfileName else name) =
      some profile) :
    do_load env w name args =
      if !env.zend_eval_string w.evaluated _coreTypes (str "__core") then
        (Status.error (str "unable to create core types:\n" ++ _coreTypes ++ str "\n"),
          { w with evaluated := w.evaluated ++ [(str "__core", _coreTypes)] })
      else if !env.zend_eval_string (w.evaluated ++ [(str "__core", _coreTypes)])
          profile.code (str "__slice") then
        (Status.error (str "unable to create Slice types:\n" ++ profile.code ++ str "\n"),
          { w with evaluated := w.evaluated ++ [(str "__core", _coreTypes)] ++
              [(str "__slice", profile.code)] })
      else
        (Status.ok,
          { w with
            evaluated := w.evaluated ++ [(str "__core", _coreTypes)] ++
              [(str "__slice", profile.code)],
            activeProperties := some (env.parseCommandLineOptions
              (env.parseCommandLineOptions env.createProperties []
                (env.getCommandLineOptions profile.properties)) [] args),
            activeProfile := some profile }) := by
  simp only [do_load, hidle, hfound]

/-- When no profile is active, `do_load` fails with the "not found" error and leaves
the state as it was if the profile is not registered. -/
theorem do_load_not_found (env : Env) (w : World env) (name : Str) (args : List Str)
    (hidle : w.activeProfile = none)
    (hfound : w.profiles.find (if name.isEmpty then _defaultProfileName else name) = none) :
    do_load env w name args =
      (Status.error (str "profile `" ++ (if name.isEmpty then _defaultProfileName else name) ++
        str "' not found"), w) := by
  simp only [do_load, hidle, hfound]


/-- C14: when no profile is active, `do_load` fails (it returns `false` with an
error) if the named profile (the default profile for an empty name) is not in the
registry, if the host runtime rejects the core types block, or if it rejects the
generated code of the profile; and whenever it fails there is no partial activation:
the active profile slot stays unset, the active property set stays what it was
(unset when it was unset) and the registry is unchanged. -/
theorem C14_failed_activation (env : Env) (w : World env) (name : Str) (args : List Str)
    (hidle : w.activeProfile = none) :
    (w.profiles.find (if name.isEmpty then _defaultProfileName else name) = none →
        do_load env w name args =
          (Status.error (str "profile `" ++
            (if name.isEmpty then _defaultProfileName else name) ++ str "' not found"), w))
    ∧ (∀ profile,
        w.profiles.find (if name.isEmpty then _defaultProfileName else name) = some profile →
        env.zend_eval_string w.evaluated _coreTypes (str "__core") = false →
        (do_load env w name args).1 =
            Status.error (str "unable to create core types:\n" ++ _coreTypes ++ str "\n")
          ∧ (do_load env w name args).2.evaluated =
            w.evaluated ++ [(str "__core", _coreTypes)])
    ∧ (∀ profile,
        w.profiles.find (if name.isEmpty then _defaultProfileName else name) = some profile →
        env.zend_eval_string w.evaluated _coreTypes (str "__core") = true →
        env.zend_eval_string (w.evaluated ++ [(str "__core", _coreTypes)]) profile.code
          (str "__slice") = false →
        (do_load env w name args).1 =
            Status.error (str "unable to create Slice types:\n" ++ profile.code ++ str "\n")
          ∧ (do_load env w name args).2.evaluated =
            w.evaluated ++ [(str "__core", _coreTypes), (str "__slice", profile.code)])
    ∧ ((do_load env w name args).1 ≠ Status.ok →
        (do_load env w name args).2.activeProfile = none
          ∧ (do_load env w name args).2.activeProperties = w.activeProperties
          ∧ (w.activeProperties = none → (do_load env w name args).2.activeProperties = none)
          ∧ (do_load env w name args).2.profiles = w.profiles) := by
  refine ⟨do_load_not_found env w name args hidle, ?_, ?_, ?_⟩
  · intro profile hfound hcore
    rw [do_load_found env w name args profile hidle hfound, hcore]
    exact ⟨rfl, rfl⟩
  · intro profile hfound hcore hslice
    rw [do_load_found env w name args profile hidle hfound, hcore, hslice]
    refine ⟨rfl, ?_⟩
    simp
  · intro hfail
    cases hfound : w.profiles.find (if name.isEmpty then _defaultProfileName else name) with
    | none =>
      rw [do_load_not_found env w name args hidle hfound]
      exact ⟨hidle, rfl, fun h => h, rfl⟩
    | some profile =>
      rw [do_load_found env w name args profile hidle hfound] at hfail ⊢
      cases hcore : env.zend_eval_string w.evaluated _coreTypes (str "__core")
      · simp [hidle]
      · cases hslice : env.zend_eval_string (w.evaluated ++ [(str "__core", _coreTypes)])
            profile.code (str "__slice")
        · simp [hidle]
        · rw [hcore, hslice] at hfail
          simp at hfail

/-- C14, run three times in a world where only the profile `x` is registered and
nothing is active: on the unregistered name `y`; on `x` with a host runtime that
rejects every block; and on `x` with a host runtime that accepts the core types
block only. -/
theorem C14_failed_activation_witness :
    exampleIdleWorld.activeProfile = none ∧
    do_load exampleEnv exampleIdleWorld (str "y") [] =
      (Status.error (str "profile `y' not found"), exampleIdleWorld) ∧
    ((do_load (hostEnv (fun _ => false)) (hostWorld (fun _ => false)) (str "x") []).1 =
        Status.error (str "unable to create core types:\n" ++ _coreTypes ++ str "\n") ∧
      (do_load (hostEnv (fun _ => false)) (hostWorld (fun _ => false)) (str "x") []).2.evaluated =
        [(str "__core", _coreTypes)]) ∧
    ((do_load (hostEnv (fun b => decide (b = str "__core")))
        (hostWorld (fun b => decide (b = str "__core"))) (str "x") []).1 =
        Status.error (str "unable to create Slice types:\nclass X\n\x7b\n\x7d\n\n") ∧
      (do_load (hostEnv (fun b => decide (b = str "__core")))
        (hostWorld (fun b => decide (b = str "__core"))) (str "x") []).2.evaluated =
        [(str "__core", _coreTypes), (str "__slice", str "class X\n\x7b\n\x7d\n")]) ∧
    (do_load (hostEnv (fun b => decide (b = str "__core")))
        (hostWorld (fun b => decide (b = str "__core"))) (str "x") []).2.activeProfile = none :=
  ⟨rfl,
    (C14_failed_activation exampleEnv exampleIdleWorld (str "y") [] rfl).1 rfl,
    (C14_failed_activation (hostEnv (fun _ => false)) (hostWorld (fun _ => false)) (str "x") []
      rfl).2.1 _ rfl rfl,
    (C14_failed_activation (hostEnv (fun b => decide (b = str "__core")))
      (hostWorld (fun b => decide (b = str "__core"))) (str "x") [] rfl).2.2.1 _ rfl rfl rfl,
    ((C14_failed_activation (hostEnv (fun b => decide (b = str "__core")))
      (hostWorld (fun b => decide (b = str "__core"))) (str "x") [] rfl).2.2.2
      (by decide)).1⟩


/-- C15: when no profile is active, the named profile (the default profile for an
empty name) is registered and the host runtime accepts both blocks, `do_load`
returns `true` after submitting exactly two source blocks, the fixed core types block
first and the generated code of the profile second; it records that profile as the
active one, with a property set built from an empty set by applying the profile's own
command-line options and then the extra arguments. The extra arguments are applied
last: whatever they set in every property set is set in the active property set, so
for a key set by both the value of the extra argument wins. -/
theorem C15_activation (env : Env) (w : World env) (name : Str) (args : List Str)
    (profile : Profile env) (hidle : w.activeProfile = none)
    (hfound : w.profiles.find (if name.isEmpty then _defaultProfileName else name) =
      some profile)
    (hcore : env.zend_eval_string w.evaluated _coreTypes (str "__core") = true)
    (hslice : env.zend_eval_string (w.evaluated ++ [(str "__core", _coreTypes)]) profile.code
      (str "__slice") = true) :
    (do_load env w name args).1 = Status.ok
    ∧ (do_load env w name args).2.evaluated =
        w.evaluated ++ [(str "__core", _coreTypes), (str "__slice", profile.code)]
    ∧ (do_load env w name args).2.activeProfile = some profile
    ∧ (do_load env w name args).2.activeProperties =
        some (env.parseCommandLineOptions
          (env.parseCommandLineOptions env.createProperties []
            (env.getCommandLineOptions profile.properties)) [] args)
    ∧ (do_load env w name args).2.profiles = w.profiles
    ∧ (∀ (get : env.Properties → Str → Option Str) (key value : Str),
        (∀ properties, get (env.parseCommandLineOptions properties [] args) key = some value) →
        ∃ properties, (do_load env w name args).2.activeProperties = some properties ∧
          get properties key = some value) := by
  rw [do_load_found env w name args profile hidle hfound, hcore, hslice]
  refine ⟨rfl, ?_, rfl, rfl, rfl, ?_⟩
  · simp
  · intro get key value hget
    exact ⟨_, rfl, hget _⟩

/-- C15, run in the world where the profile `x`, whose own option sets
`Ice.Trace.Network` to 1, is registered and nothing is active: loading `x` with the
extra argument `--Ice.Trace.Network=2` submits the two blocks and activates `x` with
a property set in which `Ice.Trace.Network` is 2. -/
theorem C15_activation_witness :
    exampleIdleWorld.activeProfile = none ∧
    exampleIdleWorld.profiles.find (str "x") = some exampleProfile ∧
    (do_load exampleEnv exampleIdleWorld (str "x") [str "--Ice.Trace.Network=2"]).1 =
      Status.ok ∧
    (do_load exampleEnv exampleIdleWorld (str "x") [str "--Ice.Trace.Network=2"]).2.evaluated =
      [(str "__core", _coreTypes), (str "__slice", str "class X\n\x7b\n\x7d\n")] ∧
    (do_load exampleEnv exampleIdleWorld (str "x")
        [str "--Ice.Trace.Network=2"]).2.activeProperties =
      some [str "--Ice.Trace.Network=1", str "--Ice.Trace.Network=2"] ∧
    (∃ properties,
      (do_load exampleEnv exampleIdleWorld (str "x")
        [str "--Ice.Trace.Network=2"]).2.activeProperties = some properties ∧
      optionValue properties (str "Ice.Trace.Network") = some (str "2")) :=
  ⟨rfl, rfl,
    (C15_activation exampleEnv exampleIdleWorld (str "x") [str "--Ice.Trace.Network=2"]
      exampleProfile rfl rfl rfl rfl).1,
    (C15_activation exampleEnv exampleIdleWorld (str "x") [str "--Ice.Trace.Network=2"]
      exampleProfile rfl rfl rfl rfl).2.1,
    (C15_activation exampleEnv exampleIdleWorld (str "x") [str "--Ice.Trace.Network=2"]
      exampleProfile rfl rfl rfl rfl).2.2.2.1,
    (C15_activation exampleEnv exampleIdleWorld (str "x") [str "--Ice.Trace.Network=2"]
      exampleProfile rfl rfl rfl rfl).2.2.2.2.2 optionValue (str "Ice.Trace.Network") (str "2")
      (fun (properties : List Str) => by
        show optionValue (properties ++ [str "--Ice.Trace.Network=2"])
          (str "Ice.Trace.Network") = some (str "2")
        unfold optionValue
        rw [List.foldl_append, List.foldl_cons, List.foldl_nil, if_pos (by decide)]
        decide)⟩


/-! ## The registry -/

/-- The two ways `createProfile` ends: it fails and leaves the state as it was, or it
returns `true`, the name was free, and the state differs by one profile registered
under the name and by the warnings of the generator. -/
theorem createProfile_result (env : Env) (w : World env) (name config options slice : Str) :
    ((createProfile env w name config options slice).1 ≠ Status.ok ∧
      (createProfile env w name config options slice).2 = w)
    ∨ ((createProfile env w name config options slice).1 = Status.ok ∧
      w.profiles.find name = none ∧
      ∃ (profile : Profile env) (warnings : List Str), profile.name = name ∧
        (createProfile env w name config options slice).2 =
          { w with profiles := w.profiles.assign name profile,
                   warnings := w.warnings ++ warnings }) := by
  unfold createProfile
  cases h1 : w.profiles.find name with
  | some first => left; exact ⟨fun c => Status.noConfusion c, rfl⟩
  | none =>
    simp only []
    split
    · left; exact ⟨fun c => Status.noConfusion c, rfl⟩
    · split
      · left; exact ⟨fun c => Status.noConfusion c, rfl⟩
      · split
        · left; exact ⟨fun c => Status.noConfusion c, rfl⟩
        · split
          · left; exact ⟨fun c => Status.noConfusion c, rfl⟩
          · split
            · left; exact ⟨fun c => Status.noConfusion c, rfl⟩
            · right; exact ⟨rfl, trivial, _, _, rfl, rfl⟩


theorem createProfile_ok (env : Env) (w : World env) (name config options slice : Str)
    (h : (createProfile env w name config options slice).1 = Status.ok) :
    w.profiles.find name = none
    ∧ (config.isEmpty = false → ∃ properties, env.load env.createProperties config =
        Except.ok properties)
    ∧ (options.isEmpty = false → ∃ args, env.splitString options = some args)
    ∧ (∃ unit, (if !slice.isEmpty then parseSlice env slice
          else Except.ok (env.createUnit false false true false)) = Except.ok unit ∧
        ∃ unit2, ensureIdentity env unit = Except.ok unit2 ∧
          visitAll env.util ⟨[], [], []⟩ (env.visits unit2) ≠ none) := by
  unfold createProfile at h
  cases hf : w.profiles.find name with
  | some first => rw [hf] at h; exact absurd h (fun c => Status.noConfusion c)
  | none =>
    rw [hf] at h
    dsimp only at h
    cases hl : (if !config.isEmpty then env.load env.createProperties config
        else Except.ok env.createProperties) with
    | error text => rw [hl] at h; exact absurd h (fun c => Status.noConfusion c)
    | ok p1 =>
      rw [hl] at h
      dsimp only at h
      cases hp : (if !options.isEmpty then
          match env.splitString options with
          | none => none
          | some args => some (env.parseCommandLineOptions p1 [] args)
        else some p1) with
      | none => rw [hp] at h; exact absurd h (fun c => Status.noConfusion c)
      | some p2 =>
        rw [hp] at h
        dsimp only at h
        cases hs : (if !slice.isEmpty then parseSlice env slice
            else Except.ok (env.createUnit false false true false)) with
        | error msg => rw [hs] at h; exact absurd h (fun c => Status.noConfusion c)
        | ok unit =>
          rw [hs] at h
          dsimp only at h
          cases hi : ensureIdentity env unit with
          | error msg => rw [hi] at h; exact absurd h (fun c => Status.noConfusion c)
          | ok unit2 =>
            rw [hi] at h
            dsimp only at h
            cases hv : visitAll env.util ⟨[], [], []⟩ (env.visits unit2) with
            | none => rw [hv] at h; exact absurd h (fun c => Status.noConfusion c)
            | some visitor =>
              refine ⟨rfl, ?_, ?_, unit, rfl, unit2, hi, ?_⟩
              · intro hc
                rw [hc] at hl
                exact ⟨p1, hl⟩
              · intro ho
                rw [ho] at hp
                cases hsp : env.splitString options with
                | none => rw [hsp] at hp; simp at hp
                | some args => exact ⟨args, rfl⟩
              · rw [hv]; simp

/-- The file loop of `parseSlice` ends with a `true` status only if every file of the
list was preprocessed, parsed without `EXIT_FAILURE` and closed. -/
theorem parseSliceFiles_ok (env : Env) (cppArgs : Str) (debug : Bool) (files : List Str)
    (unit : env.SliceUnit) (h : (parseSliceFiles env cppArgs debug files unit).1 = true) :
    ∀ f ∈ files, ∃ handle reached, env.preprocess f cppArgs = some handle ∧
      (env.parse reached handle debug).1 ≠ EXIT_FAILURE ∧ env.close f cppArgs = true := by
  induction files generalizing unit with
  | nil => intro f hf; cases hf
  | cons p rest ih =>
    rw [parseSliceFiles] at h
    cases hp : env.preprocess p cppArgs with
    | none => rw [hp] at h; simp at h
    | some handle =>
      rw [hp] at h
      dsimp only at h
      cases hc : env.close p cppArgs with
      | false => rw [hc] at h; simp at h
      | true =>
        rw [hc] at h
        by_cases he : (env.parse unit handle debug).1 = EXIT_FAILURE
        · simp [he] at h
        · simp only [Bool.not_true, Bool.false_eq_true, if_false, he] at h
          intro f hf
          rcases List.mem_cons.mp hf with rfl | hf
          · exact ⟨handle, unit, hp, he, hc⟩
          · exact ih _ h f hf

/-- The function `parseSlice` gives a unit only if the argument string was split,
its options were known, it named a file, and every file was preprocessed, parsed
without `EXIT_FAILURE` and closed. -/
theorem parseSlice_ok (env : Env) (argStr : Str) (unit : env.SliceUnit)
    (h : parseSlice env argStr = Except.ok unit) :
    ∃ args cppArgs files caseSensitive,
      env.splitString argStr = some args ∧
      parseSliceArgs args [] [] false = Except.ok (cppArgs, files, caseSensitive) ∧
      files ≠ [] ∧
      ∀ f ∈ files, ∃ handle reached, env.preprocess f cppArgs = some handle ∧
        (env.parse reached handle false).1 ≠ EXIT_FAILURE ∧ env.close f cppArgs = true := by
  unfold parseSlice at h
  cases hs : env.splitString argStr with
  | none => rw [hs] at h; cases h
  | some args =>
    rw [hs] at h
    dsimp only at h
    cases ha : parseSliceArgs args [] [] false with
    | error msg => rw [ha] at h; cases h
    | ok r =>
      obtain ⟨cppArgs, files, caseSensitive⟩ := r
      rw [ha] at h
      dsimp only at h
      cases hfl : files.isEmpty with
      | true => rw [hfl] at h; cases h
      | false =>
        rw [hfl] at h
        refine ⟨args, cppArgs, files, caseSensitive, rfl, ha, ?_, ?_⟩
        · intro hn
          rw [hn] at hfl
          cases hfl
        · cases hr : (parseSliceFiles env cppArgs false files
              (env.createUnit false true true caseSensitive)).1 with
          | false => rw [hr] at h; cases h
          | true => exact parseSliceFiles_ok env cppArgs false files _ hr

/-- C13: when `createProfile` fails, the state is the one from before: the registry
is unchanged, so a free name stays free and every profile registered before is still
found under its name. And `createProfile` does fail on each of the named causes: a
name that is already registered, a configuration file that fails to load, an option
string that cannot be split, a Slice file of the list that cannot be preprocessed or
parsed, and a unit that cannot be given `::Ice::Identity` because `::Ice` is defined
and is not a module. -/
theorem C13_failed_create (env : Env) (w : World env) (name config options slice : Str) :
    ((createProfile env w name config options slice).1 ≠ Status.ok →
        (createProfile env w name config options slice).2 = w
        ∧ (createProfile env w name config options slice).2.profiles = w.profiles
        ∧ (w.profiles.find name = none →
            (createProfile env w name config options slice).2.profiles.find name = none)
        ∧ (∀ other profile, w.profiles.find other = some profile →
            (createProfile env w name config options slice).2.profiles.find other =
              some profile))
    ∧ (w.profiles.find name ≠ none →
        (createProfile env w name config options slice).1 ≠ Status.ok)
    ∧ (config.isEmpty = false → ∀ text,
        env.load env.createProperties config = Except.error text →
        (createProfile env w name config options slice).1 ≠ Status.ok)
    ∧ (options.isEmpty = false → env.splitString options = none →
        (createProfile env w name config options slice).1 ≠ Status.ok)
    ∧ (slice.isEmpty = false → ∀ args cppArgs files caseSensitive,
        env.splitString slice = some args →
        parseSliceArgs args [] [] false = Except.ok (cppArgs, files, caseSensitive) →
        (∃ f ∈ files, env.preprocess f cppArgs = none ∨
          ∀ handle, env.preprocess f cppArgs = some handle →
            ∀ reached, (env.parse reached handle false).1 = EXIT_FAILURE) →
        (createProfile env w name config options slice).1 ≠ Status.ok)
    ∧ (∀ unit msg,
        (if !slice.isEmpty then parseSlice env slice
          else Except.ok (env.createUnit false false true false)) = Except.ok unit →
        ensureIdentity env unit = Except.error msg →
        (createProfile env w name config options slice).1 ≠ Status.ok)
    ∧ (∀ unit front rest,
        env.lookupTypeNoBuiltin unit (str "::Ice::Identity") false = [] →
        env.lookupContained unit (str "Ice") false = front :: rest →
        env.asModule front = none →
        ensureIdentity env unit =
          Except.error (str "the symbol `::Ice' is defined in Slice but is not a module")) := by
  refine ⟨?_, ?_, ?_, ?_, ?_, ?_, ?_⟩
  · intro hfail
    rcases createProfile_result env w name config options slice with ⟨_, e⟩ | ⟨hok, _⟩
    · rw [e]
      exact ⟨rfl, rfl, fun h => h, fun _ _ h => h⟩
    · exact absurd hok hfail
  · intro hdup hok
    exact hdup (createProfile_ok env w name config options slice hok).1
  · intro hc text hload hok
    obtain ⟨p, hp⟩ := (createProfile_ok env w name config options slice hok).2.1 hc
    rw [hload] at hp
    cases hp
  · intro ho hsplit hok
    obtain ⟨args, ha⟩ := (createProfile_ok env w name config options slice hok).2.2.1 ho
    rw [hsplit] at ha
    cases ha
  · intro hs args cppArgs files caseSensitive hsplit hargs hbad hok
    obtain ⟨unit, hu, _⟩ := (createProfile_ok env w name config options slice hok).2.2.2
    rw [hs] at hu
    obtain ⟨args2, cppArgs2, files2, cs2, h1, h2, _, h4⟩ := parseSlice_ok env slice unit hu
    rw [hsplit] at h1
    cases h1
    rw [hargs] at h2
    cases h2
    obtain ⟨f, hf, hbad⟩ := hbad
    obtain ⟨handle, reached, hpre, hparse, _⟩ := h4 f hf
    rcases hbad with hbad | hbad
    · rw [hbad] at hpre
      cases hpre
    · exact hparse (hbad handle hpre reached)
  · intro unit msg hslice hid hok
    obtain ⟨unit1, hu, unit2, h2, _⟩ :=
      (createProfile_ok env w name config options slice hok).2.2.2
    rw [hslice] at hu
    cases hu
    rw [hid] at h2
    cases h2
  · intro unit front rest htype hcont hmod
    simp [ensureIdentity, htype, hcont, hmod]

/-- C13, run in the world where only the profile `x` is registered: creating `y`
from the Slice arguments `-x` fails on the unknown option and leaves the world as it
was, so `y` is not registered and `x` still is. -/
theorem C13_failed_create_witness :
    (createProfile exampleEnv exampleIdleWorld (str "y") [] [] (str "-x")).1 =
      Status.error (str "unknown option `-x' in ice.slice") ∧
    (createProfile exampleEnv exampleIdleWorld (str "y") [] [] (str "-x")).2 =
      exampleIdleWorld ∧
    (createProfile exampleEnv exampleIdleWorld (str "y") [] [] (str "-x")).2.profiles.find
      (str "y") = none ∧
    (createProfile exampleEnv exampleIdleWorld (str "y") [] [] (str "-x")).2.profiles.find
      (str "x") = some exampleProfile :=
  ⟨by decide,
    ((C13_failed_create exampleEnv exampleIdleWorld (str "y") [] [] (str "-x")).1
      (by decide)).1,
    ((C13_failed_create exampleEnv exampleIdleWorld (str "y") [] [] (str "-x")).1
      (by decide)).2.2.1 rfl,
    ((C13_failed_create exampleEnv exampleIdleWorld (str "y") [] [] (str "-x")).1
      (by decide)).2.2.2 (str "x") exampleProfile rfl⟩

/-! ## Operations -/

/-- The parameter loop started after the first parameter writes the separator before
every parameter. -/
theorem writeParams_false (u : Util) (ps : List ParamDecl) (out : Str) :
    writeParams u false ps out =
      out ++ (if ps.isEmpty then [] else str ", " ++ sepJoin (str ", ") (ps.map (paramText u))) := by
  induction ps generalizing out with
  | nil => simp [writeParams]
  | cons p rest ih =>
    rw [writeParams, ih]
    cases rest with
    | nil =>
      cases ho : p.isOutParam <;> cases hh : (getTypeHint u p.type).isEmpty <;>
        simp [sepJoin, paramText, ho, hh, List.append_assoc]
    | cons q rest2 =>
      cases ho : p.isOutParam <;> cases hh : (getTypeHint u p.type).isEmpty <;>
        simp [sepJoin, paramText, ho, hh, List.append_assoc]

/-- The parameter loop writes the texts of the parameters, in order, separated by a
comma and a blank. -/
theorem writeParams_true (u : Util) (ps : List ParamDecl) (out : Str) :
    writeParams u true ps out = out ++ sepJoin (str ", ") (ps.map (paramText u)) := by
  cases ps with
  | nil => simp [writeParams, sepJoin]
  | cons p rest =>
    rw [writeParams, writeParams_false]
    cases rest with
    | nil =>
      cases ho : p.isOutParam <;> cases hh : (getTypeHint u p.type).isEmpty <;>
        simp [sepJoin, paramText, ho, hh, List.append_assoc]
    | cons q rest2 =>
      cases ho : p.isOutParam <;> cases hh : (getTypeHint u p.type).isEmpty <;>
        simp [sepJoin, paramText, ho, hh, List.append_assoc]

/-- The text `visitOperation` writes for an operation of a class definition. -/
theorem visitOperation_out (u : Util) (v : CodeVisitor) (p : Operation) (cl : ClassDef)
    (hcl : p.container = some cl) :
    visitOperation u v p =
      some { v with out := (v.out ++ signaturePrefix cl ++ str "function " ++
        u.fixIdent p.name ++ str "(" ++ sepJoin (str ", ") (p.parameters.map (paramText u)) ++
        str ");" ++ endl) } := by
  simp only [visitOperation, hcl, writeParams_true, signaturePrefix]
  cases hi : cl.isInterface <;> simp [List.append_assoc]

/-- C18, as stated, fails: the operation `get(S s)` of the class `::M::C1` has an
in-parameter `s` whose type is the struct `::M::S`; the signature line written for it
renders the parameter as `__M__S $s`, with a type name before the `$`, not as `$s`. -/
theorem C18_counterexample :
    exampleClassOperation.container = some exampleClass1 ∧
    (visitOperation exampleUtil emptyVisitor exampleClassOperation).map (fun r => r.out) =
      some (str "abstract public function get(__M__S $s);\n") ∧
    plainSignature exampleUtil exampleClassOperation exampleClass1 =
      str "abstract public function get($s);\n" ∧
    (visitOperation exampleUtil emptyVisitor exampleClassOperation).map (fun r => r.out) ≠
      some (plainSignature exampleUtil exampleClassOperation exampleClass1) := by
  refine ⟨rfl, by decide, by decide, by decide⟩

/-- C18, amended: for every operation of a class definition `cl`, `visitOperation`
writes exactly one body-less signature line `function <fixIdent(name)>(<params>);`
and a line end, prefixed by `abstract public ` exactly when `cl` is not an interface,
with the parameters in declaration order separated by `, `; an out-parameter is
rendered by reference as `&$<fixIdent(param name)>`, and an in-parameter as
`$<fixIdent(param name)>`, preceded by its type hint and a blank when the hint is not
empty. So the line is the one with the plain renderings when no in-parameter has a
type hint. Nothing else of the visitor changes. -/
theorem C18_operation_signature (u : Util) (v : CodeVisitor) (p : Operation) (cl : ClassDef)
    (hcl : p.container = some cl) :
    (visitOperation u v p).map (fun r => r.out) =
        some (v.out ++ signaturePrefix cl ++ str "function " ++ u.fixIdent p.name ++ str "(" ++
          sepJoin (str ", ") (p.parameters.map (paramText u)) ++ str ");" ++ endl)
    ∧ (signaturePrefix cl = if cl.isInterface then [] else str "abstract public ")
    ∧ (∀ param : ParamDecl, param.isOutParam = true →
        paramText u param = str "&$" ++ u.fixIdent param.name)
    ∧ (∀ param : ParamDecl, param.isOutParam = false →
        paramText u param =
          (if (getTypeHint u param.type).isEmpty then []
            else getTypeHint u param.type ++ str " ") ++ str "$" ++ u.fixIdent param.name)
    ∧ ((∀ param ∈ p.parameters, param.isOutParam = true ∨ getTypeHint u param.type = []) →
        (visitOperation u v p).map (fun r => r.out) = some (v.out ++ plainSignature u p cl))
    ∧ (visitOperation u v p).map (fun r => r.classes) = some v.classes
    ∧ (visitOperation u v p).map (fun r => r.warnings) = some v.warnings := by
  rw [visitOperation_out u v p cl hcl]
  refine ⟨rfl, rfl, ?_, ?_, ?_, rfl, rfl⟩
  · intro param ho
    simp [paramText, ho, str]
  · intro param ho
    cases hh : (getTypeHint u param.type).isEmpty <;> simp [paramText, ho, hh]
  · intro hplain
    have e : p.parameters.map (paramText u) = p.parameters.map (plainParamText u) := by
      apply List.map_congr_left
      intro param hmem
      rcases hplain param hmem with ho | hh
      · simp [paramText, plainParamText, ho]
      · cases ho : param.isOutParam <;> simp [paramText, plainParamText, ho, hh]
    simp only [Option.map_some', e, plainSignature, List.append_assoc]

/-- C18, run on the operation `op(S s, out S t, int n, out int m)` of the interface
`::M::I1`. -/
theorem C18_operation_signature_witness :
    exampleOperation.container = some exampleInterface1 ∧
    (visitOperation exampleUtil emptyVisitor exampleOperation).map (fun r => r.out) =
      some (str "function op(__M__S $s, &$t, $n, &$m);\n") :=
  ⟨rfl, (C18_operation_signature exampleUtil emptyVisitor exampleOperation exampleInterface1
    rfl).1.trans (by decide)⟩

/-- C19: in the signature line written for an operation, a parameter is preceded by
a type name exactly when it is an in-parameter whose type is a struct, and the name
is then the flattened name of the struct (a flattened name being a name, hence not
empty), followed by a blank; an in-parameter of any other type is written as
`$<name>` alone and an out-parameter as `&$<name>`, whatever its type.
`getTypeHint` returns the flattened name for a struct and the empty hint for every
other kind of type: builtin, enum, sequence, dictionary, proxy and class. -/
theorem C19_type_hints (u : Util) :
    (∀ s, getTypeHint u (SliceType.struct s) = u.flatten s)
    ∧ (∀ k, getTypeHint u (SliceType.builtin k) = [])
    ∧ (∀ en, getTypeHint u (SliceType.enum en) = [])
    ∧ getTypeHint u SliceType.sequence = []
    ∧ getTypeHint u SliceType.dictionary = []
    ∧ getTypeHint u SliceType.proxy = []
    ∧ getTypeHint u SliceType.classDecl = []
    ∧ (∀ (v : CodeVisitor) (p : Operation) (cl : ClassDef), p.container = some cl →
        (visitOperation u v p).map (fun r => r.out) =
          some (v.out ++ signaturePrefix cl ++ str "function " ++ u.fixIdent p.name ++
            str "(" ++ sepJoin (str ", ") (p.parameters.map (paramText u)) ++ str ");" ++ endl))
    ∧ (∀ (param : ParamDecl) s, param.isOutParam = false →
        param.type = SliceType.struct s → u.flatten s ≠ [] →
        paramText u param = u.flatten s ++ str " " ++ str "$" ++ u.fixIdent param.name)
    ∧ (∀ param : ParamDecl, param.isOutParam = false →
        (∀ s, param.type ≠ SliceType.struct s) →
        paramText u param = str "$" ++ u.fixIdent param.name)
    ∧ (∀ param : ParamDecl, param.isOutParam = true →
        paramText u param = str "&" ++ str "$" ++ u.fixIdent param.name) := by
  refine ⟨fun _ => rfl, fun _ => rfl, fun _ => rfl, rfl, rfl, rfl, rfl, ?_, ?_, ?_, ?_⟩
  · intro v p cl hcl
    rw [visitOperation_out u v p cl hcl]
    rfl
  · intro param s ho ht hne
    have he : (u.flatten s).isEmpty = false := by
      cases hf : u.flatten s with
      | nil => exact absurd hf hne
      | cons x xs => rfl
    simp [paramText, ho, ht, getTypeHint, he]
  · intro param ho hns
    have hh : getTypeHint u param.type = [] := by
      cases ht : param.type with
      | struct s => exact absurd ht (hns s)
      | builtin k => rfl
      | enum en => rfl
      | sequence => rfl
      | dictionary => rfl
      | proxy => rfl
      | classDecl => rfl
    simp [paramText, ho, hh]
  · intro param ho
    simp [paramText, ho]

/-- C19, run on the operation `op(S s, out S t, int n, out int m)` of the interface
`::M::I1`: only the in-parameter `s` of struct type carries a type name. -/
theorem C19_type_hints_witness :
    (visitOperation exampleUtil emptyVisitor exampleOperation).map (fun r => r.out) =
      some (str "function op(__M__S $s, &$t, $n, &$m);\n") ∧
    paramText exampleUtil ⟨str "s", false, SliceType.struct (str "::M::S")⟩ =
      str "__M__S $s" ∧
    paramText exampleUtil ⟨str "n", false, SliceType.builtin BuiltinKind.KindInt⟩ =
      str "$n" ∧
    paramText exampleUtil ⟨str "t", true, SliceType.struct (str "::M::S")⟩ = str "&$t" :=
  ⟨((C19_type_hints exampleUtil).2.2.2.2.2.2.2.1 emptyVisitor exampleOperation
      exampleInterface1 rfl).trans (by decide),
    ((C19_type_hints exampleUtil).2.2.2.2.2.2.2.2.1 ⟨str "s", false,
      SliceType.struct (str "::M::S")⟩ (str "::M::S") rfl rfl (by decide)).trans (by decide),
    ((C19_type_hints exampleUtil).2.2.2.2.2.2.2.2.2.1 ⟨str "n", false,
      SliceType.builtin BuiltinKind.KindInt⟩ rfl (fun s c => SliceType.noConfusion c)).trans
      (by decide),
    ((C19_type_hints exampleUtil).2.2.2.2.2.2.2.2.2.2 ⟨str "t", true,
      SliceType.struct (str "::M::S")⟩ rfl).trans (by decide)⟩

/-! ## The class index -/

/-- A key just assigned is found with the value assigned. -/
theorem StrMap.find_assign_self {V : Type} (m : StrMap V) (k : Str) (x : V) :
    (m.assign k x).find k = some x := by
  induction m with
  | nil => simp [StrMap.assign, StrMap.find]
  | cons e rest ih =>
    obtain ⟨k1, y⟩ := e
    by_cases h : k1 = k
    · simp [StrMap.assign, StrMap.find, h]
    · simp [StrMap.assign, StrMap.find, h, ih]

/-- An assignment leaves the lookup of every other key as it was. -/
theorem StrMap.find_assign_ne {V : Type} (m : StrMap V) (k k2 : Str) (x : V) (hne : k ≠ k2) :
    (m.assign k x).find k2 = m.find k2 := by
  induction m with
  | nil => simp [StrMap.assign, StrMap.find, hne]
  | cons e rest ih =>
    obtain ⟨k1, y⟩ := e
    by_cases h : k1 = k
    · subst h
      simp [StrMap.assign, StrMap.find, hne]
    · by_cases h2 : k1 = k2
      · subst h2
        simp [StrMap.assign, StrMap.find, h]
      · simp [StrMap.assign, StrMap.find, h, h2, ih]

/-- A constant leaves the class index as it was. -/
theorem visitConst_classes (u : Util) (v v1 : CodeVisitor) (p : ConstDef)
    (h : visitConst u v p = some v1) : v1.classes = v.classes := by
  unfold visitConst at h
  dsimp only at h
  split at h
  · simp only [Option.map_eq_some'] at h
    obtain ⟨out, _, e⟩ := h
    rw [← e]
  · split at h
    · cases h
      rfl
    · cases h
  · cases h
    rfl

/-- An operation leaves the class index as it was. -/
theorem visitOperation_classes (u : Util) (v v1 : CodeVisitor) (p : Operation)
    (h : visitOperation u v p = some v1) : v1.classes = v.classes := by
  unfold visitOperation at h
  dsimp only at h
  split at h
  · cases h
  · cases h
    rfl

/-- The class index after one callback is `indexAfter` of the index before. -/
theorem visitOne_classes (u : Util) (v v1 : CodeVisitor) (x : Visit)
    (h : visitOne u v x = some v1) : v1.classes = indexAfter u v.classes x := by
  cases x with
  | classDefStart d => cases h; rfl
  | operation p => exact visitOperation_classes u v v1 p h
  | const p => exact visitConst_classes u v v1 p h
  | classDecl p =>
    cases h
    show (visitClassDecl v p).classes = v.classes
    unfold visitClassDecl
    cases p.definition <;> rfl
  | dictionary p =>
    cases h
    show (visitDictionary u v p).classes = v.classes
    unfold visitDictionary
    split <;> rfl
  | classDefEnd p => cases h; rfl
  | exceptionStart p => cases h; rfl
  | exceptionEnd p => cases h; rfl
  | structStart p => cases h; rfl
  | structEnd p => cases h; rfl
  | dataMember p => cases h; rfl
  | enum p => cases h; rfl

/-- The class index after a run of the visitor is the fold of `indexAfter` over the
callbacks. -/
theorem visitAll_classes (u : Util) (v v1 : CodeVisitor) (visits : List Visit)
    (h : visitAll u v visits = some v1) :
    v1.classes = visits.foldl (indexAfter u) v.classes := by
  induction visits generalizing v with
  | nil =>
    rw [visitAll] at h
    cases h
    rfl
  | cons x xs ih =>
    rw [visitAll] at h
    cases hx : visitOne u v x with
    | none => rw [hx] at h; cases h
    | some v2 =>
      rw [hx] at h
      rw [ih v2 h, visitOne_classes u v v2 x hx, List.foldl_cons]

/-- Callbacks that start no definition with the key `k` leave the lookup of `k` as
it was. -/
theorem foldl_indexAfter_other (u : Util) (visits : List Visit) (m : StrMap ClassDef) (k : Str)
    (hk : ∀ d, Visit.classDefStart d ∈ visits → classKey u d ≠ k) :
    (visits.foldl (indexAfter u) m).find k = m.find k := by
  induction visits generalizing m with
  | nil => rfl
  | cons x xs ih =>
    rw [List.foldl_cons, ih _ (fun d hd => hk d (List.mem_cons_of_mem _ hd))]
    cases x with
    | classDefStart d =>
      exact StrMap.find_assign_ne m _ k d (hk d (List.mem_cons_self _ _))
    | _ => rfl

/-- The keys of the class index after a run: those from before and the keys of the
definitions started. -/
theorem foldl_indexAfter_keys (u : Util) (visits : List Visit) (m : StrMap ClassDef) (k : Str) :
    (visits.foldl (indexAfter u) m).find k ≠ none ↔
      (m.find k ≠ none ∨ ∃ d, Visit.classDefStart d ∈ visits ∧ classKey u d = k) := by
  induction visits generalizing m with
  | nil => simp
  | cons x xs ih =>
    rw [List.foldl_cons, ih]
    constructor
    · rintro (h | ⟨d, hd, hk⟩)
      · cases x with
        | classDefStart d =>
          by_cases hk : classKey u d = k
          · exact Or.inr ⟨d, List.mem_cons_self _ _, hk⟩
          · left
            rw [indexAfter, StrMap.find_assign_ne m _ k d hk] at h
            exact h
        | _ => exact Or.inl h
      · exact Or.inr ⟨d, List.mem_cons_of_mem _ hd, hk⟩
    · rintro (h | ⟨d, hd, hk⟩)
      · cases x with
        | classDefStart d =>
          left
          by_cases hk : classKey u d = k
          · rw [indexAfter, ← hk, StrMap.find_assign_self]
            simp
          · rw [indexAfter, StrMap.find_assign_ne m _ k d hk]
            exact h
        | _ => exact Or.inl h
      · rcases List.mem_cons.mp hd with e | hd
        · left
          rw [← e, indexAfter, ← hk, StrMap.find_assign_self]
          simp
        · exact Or.inr ⟨d, hd, hk⟩

/-- Callbacks that start no class or interface definition leave the class index as
it was. -/
theorem foldl_indexAfter_none (u : Util) (visits : List Visit) (m : StrMap ClassDef)
    (hno : ∀ x ∈ visits, ∀ d, x ≠ Visit.classDefStart d) :
    visits.foldl (indexAfter u) m = m := by
  induction visits generalizing m with
  | nil => rfl
  | cons x xs ih =>
    rw [List.foldl_cons, ih _ (fun y hy => hno y (List.mem_cons_of_mem _ hy))]
    cases x with
    | classDefStart d => exact absurd rfl (hno _ (List.mem_cons_self _ _) d)
    | _ => rfl

/-- The key of every definition started is bound, after the run, to a definition
started in the run that has this key. -/
theorem foldl_indexAfter_bound (u : Util) (visits : List Visit) (m : StrMap ClassDef) (k : Str)
    (hk : ∃ d, Visit.classDefStart d ∈ visits ∧ classKey u d = k) :
    ∃ d2, Visit.classDefStart d2 ∈ visits ∧ classKey u d2 = k ∧
      (visits.foldl (indexAfter u) m).find k = some d2 := by
  induction visits generalizing m with
  | nil =>
    obtain ⟨d, hd, _⟩ := hk
    cases hd
  | cons x xs ih =>
    rw [List.foldl_cons]
    by_cases hlater : ∃ d, Visit.classDefStart d ∈ xs ∧ classKey u d = k
    · obtain ⟨d2, h1, h2, h3⟩ := ih (indexAfter u m x) hlater
      exact ⟨d2, List.mem_cons_of_mem _ h1, h2, h3⟩
    · have hother : ∀ d, Visit.classDefStart d ∈ xs → classKey u d ≠ k :=
        fun d hd hkd => hlater ⟨d, hd, hkd⟩
      rw [foldl_indexAfter_other u xs _ k hother]
      obtain ⟨d, hd, hkd⟩ := hk
      rcases List.mem_cons.mp hd with e | hd
      · refine ⟨d, List.mem_cons_self _ _ |> (e ▸ ·), hkd, ?_⟩
        rw [← e, indexAfter, ← hkd, StrMap.find_assign_self]
      · exact absurd hkd (hother d hd)

/-- C20, as stated, fails: a unit that defines the classes `::M::Foo` and `::M::foo`
has two definitions with different flattened names and the same key `__m__foo`; after
the walk the index binds this key to `::M::foo`, so it does not hold the entry of
`::M::Foo`. -/
theorem C20_counterexample :
    Visit.classDefStart exampleUpperClass ∈ exampleCaseUnit ∧
    exampleUpperClass.scopedName = str "::M::Foo" ∧
    foldingUtil.flatten exampleUpperClass.scopedName ≠
      foldingUtil.flatten exampleLowerClass.scopedName ∧
    classKey foldingUtil exampleUpperClass = str "__m__foo" ∧
    ((visitAll foldingUtil emptyVisitor exampleCaseUnit).bind
      (fun r => r.classes.find (classKey foldingUtil exampleUpperClass))).map
        ClassDef.scopedName = some (str "::M::foo") ∧
    (visitAll foldingUtil emptyVisitor exampleCaseUnit).map
      (fun r => r.classes.map (fun e => (e.1, e.2.scopedName))) =
        some [(str "__m__foo", str "::M::foo")] := by
  refine ⟨List.mem_cons_self _ _, rfl, by decide, by decide, by decide, by decide⟩

/-- C20, amended: after the visitor has walked a unit, the keys of the class index
are the keys it had before (none in `createProfile`, which starts from an empty
index) and the keys `lowerCase(flatten(d.scoped))` of the class and interface
definitions `d` of the unit, and no other key. The key of a definition is bound to
the last definition of the unit that has this key: to `d` itself when no later
definition shares its key, hence to `d` for every `d` when no two definitions of the
unit share a key. Struct, exception, enum, constant, dictionary, operation, member
and forward-declaration nodes add nothing to the index. -/
theorem C20_class_index (u : Util) (v v1 : CodeVisitor) (visits : List Visit)
    (h : visitAll u v visits = some v1) :
    (∀ k, v1.classes.find k ≠ none ↔
        (v.classes.find k ≠ none ∨ ∃ d, Visit.classDefStart d ∈ visits ∧ classKey u d = k))
    ∧ (∀ d, Visit.classDefStart d ∈ visits →
        ∃ d2, Visit.classDefStart d2 ∈ visits ∧ classKey u d2 = classKey u d ∧
          v1.classes.find (classKey u d) = some d2)
    ∧ (∀ before d after, visits = before ++ Visit.classDefStart d :: after →
        (∀ d2, Visit.classDefStart d2 ∈ after → classKey u d2 ≠ classKey u d) →
        v1.classes.find (classKey u d) = some d)
    ∧ ((∀ d d2, Visit.classDefStart d ∈ visits → Visit.classDefStart d2 ∈ visits →
          classKey u d = classKey u d2 → d = d2) →
        ∀ d, Visit.classDefStart d ∈ visits → v1.classes.find (classKey u d) = some d)
    ∧ (∀ k, (∀ d, Visit.classDefStart d ∈ visits → classKey u d ≠ k) →
        v1.classes.find k = v.classes.find k)
    ∧ ((∀ x ∈ visits, ∀ d, x ≠ Visit.classDefStart d) → v1.classes = v.classes)
    ∧ (∀ d, classKey u d = u.lowerCase (u.flatten d.scopedName)) := by
  rw [visitAll_classes u v v1 visits h]
  refine ⟨fun k => foldl_indexAfter_keys u visits v.classes k, ?_, ?_, ?_,
    fun k hk => foldl_indexAfter_other u visits v.classes k hk,
    foldl_indexAfter_none u visits v.classes, fun _ => rfl⟩
  · intro d hd
    exact foldl_indexAfter_bound u visits v.classes (classKey u d) ⟨d, hd, rfl⟩
  · intro before d after e hlast
    rw [e, List.foldl_append, List.foldl_cons, foldl_indexAfter_other u after _ _ hlast,
      indexAfter, StrMap.find_assign_self]
  · intro huniq d hd
    obtain ⟨d2, h1, h2, h3⟩ :=
      foldl_indexAfter_bound u visits v.classes (classKey u d) ⟨d, hd, rfl⟩
    rw [h3, huniq d2 d h1 hd h2]

/-- C20, run on a unit that defines a struct, an exception, an enum, the interface
`::M::I1` with an operation and the class `::M::C1`: the index holds the two entries
of `I1` and `C1` and nothing else. -/
theorem C20_class_index_witness :
    ∃ v1, visitAll exampleUtil emptyVisitor exampleMixedUnit = some v1 ∧
      v1.classes.find (str "__M__I1") = some exampleInterface1 ∧
      v1.classes.find (str "__M__C1") = some exampleClass1 ∧
      v1.classes.find (str "__M__S") = none ∧
      v1.classes.find (str "__M__Base") = none ∧
      v1.classes.find (str "__M__E") = none := by
  cases h : visitAll exampleUtil emptyVisitor exampleMixedUnit with
  | none =>
    have hs : (visitAll exampleUtil emptyVisitor exampleMixedUnit).isSome = true := by decide
    rw [h] at hs
    cases hs
  | some v1 =>
    have hc := C20_class_index exampleUtil emptyVisitor v1 exampleMixedUnit h
    have hkey : ∀ (k : Str), k ≠ str "__M__I1" → k ≠ str "__M__C1" →
        ∀ d, Visit.classDefStart d ∈ exampleMixedUnit → classKey exampleUtil d ≠ k := by
      intro k h1 h2 d hd hk
      simp only [exampleMixedUnit, List.mem_cons, List.mem_singleton, Visit.classDefStart.injEq,
        reduceCtorEq, false_or, or_false, List.not_mem_nil] at hd
      rcases hd with e | e
      · subst e
        exact h1 (hk.symm.trans (by decide))
      · subst e
        exact h2 (hk.symm.trans (by decide))
    refine ⟨v1, rfl, ?_, ?_, ?_, ?_, ?_⟩
    · have e : classKey exampleUtil exampleInterface1 = str "__M__I1" := by decide
      rw [← e]
      refine hc.2.2.1
        [Visit.structStart ⟨str "::M::S"⟩, Visit.dataMember ⟨str "x"⟩,
          Visit.structEnd ⟨str "::M::S"⟩, Visit.exceptionStart exampleException,
          Visit.exceptionEnd exampleException, Visit.enum exampleEnum]
        exampleInterface1
        [Visit.operation exampleOperation, Visit.classDefEnd exampleInterface1,
          Visit.classDefStart exampleClass1, Visit.classDefEnd exampleClass1] rfl ?_
      intro d2 hd2
      simp only [List.mem_cons, List.mem_singleton, Visit.classDefStart.injEq,
        reduceCtorEq, false_or, or_false, List.not_mem_nil] at hd2
      subst hd2
      decide
    · have e : classKey exampleUtil exampleClass1 = str "__M__C1" := by decide
      rw [← e]
      refine hc.2.2.1
        [Visit.structStart ⟨str "::M::S"⟩, Visit.dataMember ⟨str "x"⟩,
          Visit.structEnd ⟨str "::M::S"⟩, Visit.exceptionStart exampleException,
          Visit.exceptionEnd exampleException, Visit.enum exampleEnum,
          Visit.classDefStart exampleInterface1, Visit.operation exampleOperation,
          Visit.classDefEnd exampleInterface1]
        exampleClass1 [Visit.classDefEnd exampleClass1] rfl ?_
      intro d2 hd2
      simp only [List.mem_cons, List.mem_singleton, reduceCtorEq, false_or, or_false,
        List.not_mem_nil] at hd2
    · exact (hc.2.2.2.2.1 _ (hkey _ (by decide) (by decide))).trans rfl
    · exact (hc.2.2.2.2.1 _ (hkey _ (by decide) (by decide))).trans rfl
    · exact (hc.2.2.2.2.1 _ (hkey _ (by decide) (by decide))).trans rfl

/-! ## Lines the loader rejects -/

/-- The last index found splits the string into a part that ends with a byte that
satisfies `p` and a rest in which no byte does. -/
theorem lastIdx_split (p : Byte → Bool) (xs : Str) (i : Nat) (h : lastIdx p xs = some i) :
    (∃ y, (xs.take (i + 1)).getLast? = some y ∧ p y = true) ∧
      ∀ x ∈ xs.drop (i + 1), p x = false := by
  induction xs generalizing i with
  | nil => simp [lastIdx] at h
  | cons x xs ih =>
    simp only [lastIdx] at h
    cases hl : lastIdx p xs with
    | some k =>
      simp only [hl, Option.some.injEq] at h
      subst h
      obtain ⟨⟨y, hy1, hy2⟩, hrest⟩ := ih k hl
      refine ⟨⟨y, ?_, hy2⟩, ?_⟩
      · rw [List.take_succ_cons]
        cases ht : xs.take (k + 1) with
        | nil => rw [ht] at hy1; simp at hy1
        | cons z zs =>
          rw [ht] at hy1
          rw [List.getLast?_cons_cons]
          exact hy1
      · simpa using hrest
    | none =>
      simp only [hl] at h
      by_cases hx : p x = true
      · simp only [hx, if_true, Option.some.injEq] at h
        subst h
        refine ⟨⟨x, by simp, hx⟩, ?_⟩
        simpa using lastIdx_eq_none p xs hl
      · simp [hx] at h

/-- The stripped line and the text of the line: a line is blank exactly when its
text is empty; otherwise the text is the stripped line from its first byte that is
not white space, followed by white space only, and the stripped line ends with a byte
that is not white space. -/
theorem strip_split (line : Str) :
    (find_first_not_of (stripLine line) delim 0 = none ∧ lineText line = []) ∨
    (∃ beg tail, find_first_not_of (stripLine line) delim 0 = some beg
      ∧ beg < (stripLine line).length
      ∧ lineText line = (stripLine line).drop beg ++ tail
      ∧ (∀ x ∈ tail, x ∈ delim)
      ∧ ∃ y, (stripLine line).getLast? = some y ∧ y ∉ delim) := by
  rw [stripLine_eq]
  unfold lineText find_first_not_of
  generalize (cstring line).takeWhile (fun x => decide (x ≠ byte ';')) = c
  have hq : ∀ x : Byte, decide (x ∈ delim) = !decide (x ∉ delim) := by intro x; simp
  cases hf : firstIdx (fun x => decide (x ∉ delim)) c with
  | none =>
    left
    have hall := firstIdx_eq_none _ c hf
    rw [lastIdx_none _ c hall]
    simp only [List.drop_zero, hf, Option.map_none', true_and]
    rw [List.dropWhile_eq_nil_iff]
    intro x hx
    have := hall x hx
    simpa using this
  | some b =>
    right
    obtain ⟨hb1, -, hb3⟩ := firstIdx_some _ (fun x => decide (x ∈ delim)) hq c b hf
    cases hl : lastIdx (fun x => decide (x ∉ delim)) c with
    | none =>
      have := lastIdx_eq_none _ c hl
      have hc := firstIdx_none _ c this
      rw [hc] at hf
      exact absurd hf (by simp)
    | some idx =>
      obtain ⟨hi1, hi2⟩ := lastIdx_some _ c idx hl
      obtain ⟨⟨y, hy1, hy2⟩, hrest⟩ := lastIdx_split _ c idx hl
      have hbi : b ≤ idx := hi2 b hf
      simp only [List.drop_zero]
      refine ⟨b, c.drop (idx + 1), ?_, ?_, ?_, ?_, y, hy1, ?_⟩
      · rw [firstIdx_take _ c b (idx + 1) hf (by omega)]
        rfl
      · rw [List.length_take]
        omega
      · rw [← hb3]
        conv_lhs => rw [← List.take_append_drop (idx + 1) c]
        apply List.drop_append_of_le_length
        rw [List.length_take]
        omega
      · intro x hx
        have := hrest x hx
        simpa using this
      · simpa using hy2

/-- C12, as stated, fails: the descriptor `[a]`, `[b]`, `foo=1` fails on its third
line, of an unknown key; the section `a`, which precedes the offending line, was
created when the header `[b]` was read and stays registered: the registry, which held
only `x` before the load, holds `x` and `a` after it. -/
theorem C12_counterexample :
    (loadProfiles (createProfile exampleEnv) (str "p.ini") (str "[a]\n[b]\nfoo=1\n")
        exampleIdleWorld).1 =
      Status.error (str "unknown profile entry in file p.ini:\nfoo=1\n") ∧
    exampleIdleWorld.profiles.map (fun e => e.1) = [str "x"] ∧
    (loadProfiles (createProfile exampleEnv) (str "p.ini") (str "[a]\n[b]\nfoo=1\n")
        exampleIdleWorld).2.world.profiles.map (fun e => e.1) = [str "x", str "a"] ∧
    exampleIdleWorld.profiles.find (str "a") = none ∧
    ((loadProfiles (createProfile exampleEnv) (str "p.ini") (str "[a]\n[b]\nfoo=1\n")
        exampleIdleWorld).2.world.profiles.find (str "a")).isSome = true ∧
    (loadProfiles (createProfile exampleEnv) (str "p.ini") (str "[a]\n[b]\nfoo=1\n")
        exampleIdleWorld).2.calls = [(str "a", [], [], [])] := by
  refine ⟨by decide, by decide, by decide, rfl, by decide, by decide⟩

/-- What a pass through the loop body does to the state and to the record of calls:
nothing; or one create call that succeeds, after which the loop goes on; or one
create call that does not succeed, with whose result the loader returns. -/
theorem processLine_trace {σ : Type} (create : σ → Str → Str → Str → Str → Status × σ)
    (profiles : Str) (l : Loader σ) (line : Str) :
    (∃ l1, (processLine create profiles l line = LineResult.next l1 ∨
        ∃ st, processLine create profiles l line = LineResult.stop st l1) ∧
      l1.world = l.world ∧ l1.calls = l.calls)
    ∨ ((callCreate create l).1 = Status.ok ∧
      ∃ l1, processLine create profiles l line = LineResult.next l1 ∧
        l1.world = (callCreate create l).2.world ∧ l1.calls = (callCreate create l).2.calls)
    ∨ ((callCreate create l).1 ≠ Status.ok ∧
      processLine create profiles l line =
        LineResult.stop (callCreate create l).1 (callCreate create l).2) := by
  generalize hpl : processLine create profiles l line = pl
  unfold processLine at hpl
  cases h1 : find_first_not_of (stripLine line) delim 0 with
  | none =>
    simp only [h1] at hpl
    subst hpl
    exact Or.inl ⟨l, Or.inl rfl, rfl, rfl⟩
  | some beg =>
    simp only [h1] at hpl
    by_cases hb : (stripLine line)[beg]? = some (byte '[')
    · simp only [hb, if_true] at hpl
      cases hf : find_first_of (stripLine line) (str " \t]") (beg + 1) with
      | none =>
        simp only [hf] at hpl
        subst hpl
        exact Or.inl ⟨l, Or.inr ⟨_, rfl⟩, rfl, rfl⟩
      | some fin =>
        simp only [hf] at hpl
        by_cases hl : (stripLine line).getLast? ≠ some (byte ']')
        · rw [if_pos hl] at hpl
          subst hpl
          exact Or.inl ⟨l, Or.inr ⟨_, rfl⟩, rfl, rfl⟩
        · rw [if_neg hl] at hpl
          by_cases hn : l.currentName.isEmpty = true
          · simp only [hn, Bool.not_true, Bool.false_eq_true, if_false] at hpl
            subst hpl
            exact Or.inl ⟨_, Or.inl rfl, rfl, rfl⟩
          · have hn2 : l.currentName.isEmpty = false := by simpa using hn
            simp only [hn2, Bool.not_false, if_true] at hpl
            cases hc : callCreate create l with
            | mk st2 l2 =>
              rw [hc] at hpl
              cases st2 with
              | ok =>
                simp only at hpl
                subst hpl
                exact Or.inr (Or.inl ⟨rfl, _, rfl, rfl, rfl⟩)
              | error msg =>
                simp only at hpl
                subst hpl
                exact Or.inr (Or.inr ⟨fun c => Status.noConfusion c, rfl⟩)
              | assertFailed =>
                simp only at hpl
                subst hpl
                exact Or.inr (Or.inr ⟨fun c => Status.noConfusion c, rfl⟩)
    · simp only [hb, if_false] at hpl
      cases hf : find_first_of (stripLine line) (delim ++ str "=") beg with
      | none =>
        simp only [hf] at hpl
        subst hpl
        exact Or.inl ⟨l, Or.inr ⟨_, rfl⟩, rfl, rfl⟩
      | some fin =>
        simp only [hf] at hpl
        cases he : find (stripLine line) (byte '=') fin with
        | none =>
          simp only [he] at hpl
          subst hpl
          exact Or.inl ⟨l, Or.inr ⟨_, rfl⟩, rfl, rfl⟩
        | some eq =>
          simp only [he] at hpl
          left
          split at hpl
          · subst hpl
            exact ⟨l, Or.inr ⟨_, rfl⟩, rfl, rfl⟩
          · rename_i l1 hl1
            have hw : l1.world = l.world ∧ l1.calls = l.calls := by
              split at hl1
              · cases hl1; exact ⟨rfl, rfl⟩
              · split at hl1
                · cases hl1; exact ⟨rfl, rfl⟩
                · split at hl1
                  · cases hl1; exact ⟨rfl, rfl⟩
                  · cases hl1
            split at hpl
            · subst hpl
              exact ⟨l1, Or.inr ⟨_, rfl⟩, hw.1, hw.2⟩
            · subst hpl
              exact ⟨l1, Or.inl rfl, hw.1, hw.2⟩

/-- An invariant of the state and of the record of calls that every successful
create call keeps holds when the loader returns, or held just before a create call
that did not succeed and with whose result the loader returns. -/
theorem loadLines_trace {σ : Type} (create : σ → Str → Str → Str → Str → Status × σ)
    (Q : σ → List (Str × Str × Str × Str) → Prop)
    (hstep : ∀ w cs n c o s, Q w cs → (create w n c o s).1 = Status.ok →
      Q (create w n c o s).2 (cs ++ [(n, c, o, s)]))
    (profiles : Str) (lines : List Str) (l : Loader σ) (h0 : Q l.world l.calls) :
    Q (loadLines create profiles lines l).2.world (loadLines create profiles lines l).2.calls
    ∨ ∃ w cs n c o s, Q w cs ∧ (create w n c o s).1 ≠ Status.ok ∧
        (loadLines create profiles lines l).1 = (create w n c o s).1 ∧
        (loadLines create profiles lines l).2.world = (create w n c o s).2 ∧
        (loadLines create profiles lines l).2.calls = cs ++ [(n, c, o, s)] := by
  have hcall : ∀ l0 : Loader σ, Q l0.world l0.calls → (callCreate create l0).1 = Status.ok →
      Q (callCreate create l0).2.world (callCreate create l0).2.calls :=
    fun l0 hq hok => hstep _ _ _ _ _ _ hq hok
  induction lines generalizing l with
  | nil =>
    rw [loadLines, atEnd]
    by_cases hn : l.currentName.isEmpty = true
    · simp only [hn, Bool.not_true, Bool.false_eq_true, if_false]
      exact Or.inl h0
    · have hn2 : l.currentName.isEmpty = false := by simpa using hn
      simp only [hn2, Bool.not_false, if_true]
      by_cases hok : (callCreate create l).1 = Status.ok
      · exact Or.inl (hcall l h0 hok)
      · exact Or.inr ⟨l.world, l.calls, _, _, _, _, h0, hok, rfl, rfl, rfl⟩
  | cons line rest ih =>
    rw [loadLines]
    rcases processLine_trace create profiles l line with
      ⟨l1, hpl, hw, hc⟩ | ⟨hok, l1, hpl, hw, hc⟩ | ⟨hfail, hpl⟩
    · rcases hpl with hpl | ⟨st, hpl⟩
      · rw [hpl]
        exact ih l1 (by rw [hw, hc]; exact h0)
      · rw [hpl]
        left
        show Q l1.world l1.calls
        rw [hw, hc]
        exact h0
    · rw [hpl]
      exact ih l1 (by rw [hw, hc]; exact hcall l h0 hok)
    · rw [hpl]
      exact Or.inr ⟨l.world, l.calls, _, _, _, _, h0, hfail, rfl, rfl, rfl⟩

/-! ## Constants of scalar type -/

/-- C21: for every constant of builtin type bool, byte, short, int, float or double
with value text `v`, `visitConst` writes `define("<flat>", v);` and a line end, with
`v` copied as it stands, and changes nothing else of the visitor; no assertion
fails. -/
theorem C21_scalar_constant_verbatim (u : Util) (v : CodeVisitor) (p : ConstDef)
    (k : BuiltinKind) (hk : k ∈ verbatimKinds) (ht : p.type = SliceType.builtin k) :
    visitConst u v p =
        some { v with out := (v.out ++ str "define(\"" ++ u.flatten p.scopedName ++
          str "\", " ++ p.value ++ str ");" ++ endl) }
    ∧ (visitConst u v p).map (fun r => r.out) =
        some (v.out ++ str "define(\"" ++ u.flatten p.scopedName ++ str "\", " ++ p.value ++
          str ");" ++ endl)
    ∧ (visitConst u v p).map (fun r => r.classes) = some v.classes
    ∧ (visitConst u v p).map (fun r => r.warnings) = some v.warnings := by
  have e : visitConst u v p =
      some { v with out := (v.out ++ str "define(\"" ++ u.flatten p.scopedName ++
        str "\", " ++ p.value ++ str ");" ++ endl) } := by
    simp only [verbatimKinds, List.mem_cons, List.mem_singleton, List.not_mem_nil,
      or_false] at hk
    unfold visitConst
    rw [ht]
    rcases hk with h | h | h | h | h | h <;> subst h <;> rfl
  rw [e]
  exact ⟨rfl, rfl, rfl, rfl⟩

/-- C21, run on an `int`, a `bool` and a `double` constant. -/
theorem C21_scalar_constant_verbatim_witness :
    (visitConst exampleUtil emptyVisitor
        ⟨str "::M::N", SliceType.builtin BuiltinKind.KindInt, str "-42"⟩).map
        (fun r => r.out) = some (str "define(\"__M__N\", -42);\n") ∧
    (visitConst exampleUtil emptyVisitor
        ⟨str "::M::B", SliceType.builtin BuiltinKind.KindBool, str "true"⟩).map
        (fun r => r.out) = some (str "define(\"__M__B\", true);\n") ∧
    (visitConst exampleUtil emptyVisitor
        ⟨str "::M::D", SliceType.builtin BuiltinKind.KindDouble, str "6.02e23"⟩).map
        (fun r => r.out) = some (str "define(\"__M__D\", 6.02e23);\n") :=
  ⟨(C21_scalar_constant_verbatim exampleUtil emptyVisitor
      ⟨str "::M::N", SliceType.builtin BuiltinKind.KindInt, str "-42"⟩ BuiltinKind.KindInt
      (by decide) rfl).2.1.trans (by decide),
    (C21_scalar_constant_verbatim exampleUtil emptyVisitor
      ⟨str "::M::B", SliceType.builtin BuiltinKind.KindBool, str "true"⟩ BuiltinKind.KindBool
      (by decide) rfl).2.1.trans (by decide),
    (C21_scalar_constant_verbatim exampleUtil emptyVisitor
      ⟨str "::M::D", SliceType.builtin BuiltinKind.KindDouble, str "6.02e23"⟩
      BuiltinKind.KindDouble (by decide) rfl).2.1.trans (by decide)⟩

/-! ## Dictionaries -/

/-- What a constant generates does not depend on the warnings raised before. -/
theorem visitConst_generated (u : Util) (out : Str) (classes : StrMap ClassDef)
    (w1 w2 : List Str) (p : ConstDef) :
    (visitConst u ⟨out, classes, w1⟩ p).map generated =
      (visitConst u ⟨out, classes, w2⟩ p).map generated := by
  unfold visitConst
  cases p.type with
  | builtin b =>
    cases b <;> simp [generated]
    split <;> rfl
  | enum en => simp only []; split <;> rfl
  | struct s => rfl
  | sequence => rfl
  | dictionary => rfl
  | proxy => rfl
  | classDecl => rfl

/-- What a callback generates does not depend on the warnings raised before. -/
theorem visitOne_generated (u : Util) (v1 v2 : CodeVisitor) (x : Visit)
    (h : generated v1 = generated v2) :
    (visitOne u v1 x).map generated = (visitOne u v2 x).map generated := by
  obtain ⟨out1, classes1, w1⟩ := v1
  obtain ⟨out2, classes2, w2⟩ := v2
  simp only [generated, Prod.mk.injEq] at h
  obtain ⟨h1, h2⟩ := h
  subst h1 h2
  cases x with
  | const p => exact visitConst_generated u out1 classes1 w1 w2 p
  | operation p =>
    simp only [visitOne, visitOperation]
    cases p.container <;> rfl
  | classDecl p =>
    simp only [visitOne, visitClassDecl, Option.map_some', Option.some.injEq]
    cases p.definition <;> rfl
  | dictionary p =>
    simp only [visitOne, visitDictionary, Option.map_some', Option.some.injEq]
    split <;> rfl
  | classDefStart p => rfl
  | classDefEnd p => rfl
  | exceptionStart p => rfl
  | exceptionEnd p => rfl
  | structStart p => rfl
  | structEnd p => rfl
  | dataMember p => rfl
  | enum p => rfl

/-- What a run of the visitor generates does not depend on the warnings raised
before it. -/
theorem visitAll_generated (u : Util) (v1 v2 : CodeVisitor) (visits : List Visit)
    (h : generated v1 = generated v2) :
    (visitAll u v1 visits).map generated = (visitAll u v2 visits).map generated := by
  induction visits generalizing v1 v2 with
  | nil => simp [visitAll, h]
  | cons x xs ih =>
    have hx := visitOne_generated u v1 v2 x h
    rw [visitAll, visitAll]
    cases h1 : visitOne u v1 x with
    | none =>
      rw [h1] at hx
      cases h2 : visitOne u v2 x with
      | none => rfl
      | some r2 => rw [h2] at hx; cases hx
    | some r1 =>
      rw [h1] at hx
      cases h2 : visitOne u v2 x with
      | none => rw [h2] at hx; cases hx
      | some r2 =>
        rw [h2] at hx
        simp only [Option.map_some', Option.some.injEq] at hx
        exact ih r1 r2 hx

/-- A run over two lists of callbacks is the run over the first followed by the run
over the second. -/
theorem visitAll_append (u : Util) (v : CodeVisitor) (xs ys : List Visit) :
    visitAll u v (xs ++ ys) = (visitAll u v xs).bind (fun v1 => visitAll u v1 ys) := by
  induction xs generalizing v with
  | nil => rfl
  | cons x xs ih =>
    rw [List.cons_append, visitAll, visitAll]
    cases visitOne u v x with
    | none => rfl
    | some v1 => exact ih v1

/-- C22: for every dictionary whose key type is not a native key type,
`visitDictionary` raises one warning, which names the dictionary, and goes on: it
appends nothing to the generated source and nothing to the class index, and a unit
with the dictionary generates the same source and the same class index as the unit
without it, failing an assertion in the one exactly when it fails in the other. -/
theorem C22_unsupported_dictionary (u : Util) (v : CodeVisitor) (p : DictionaryDef)
    (h : u.isNativeKey p.keyType = false) :
    (visitDictionary u v p).warnings =
        v.warnings ++ [str "skipping dictionary " ++ p.scopedName ++
          str " - unsupported key type"]
    ∧ (visitDictionary u v p).out = v.out
    ∧ (visitDictionary u v p).classes = v.classes
    ∧ (∀ before after : List Visit,
        (visitAll u v (before ++ Visit.dictionary p :: after)).map generated =
          (visitAll u v (before ++ after)).map generated) := by
  have e : visitDictionary u v p =
      { v with warnings := v.warnings ++ [str "skipping dictionary " ++ p.scopedName ++
        str " - unsupported key type"] } := by
    simp [visitDictionary, h]
  refine ⟨by rw [e], by rw [e], by rw [e], ?_⟩
  intro before after
  rw [visitAll_append, visitAll_append]
  cases visitAll u v before with
  | none => rfl
  | some v1 =>
    show (visitAll u v1 (Visit.dictionary p :: after)).map generated =
      (visitAll u v1 after).map generated
    rw [visitAll]
    show (visitAll u (visitDictionary u v1 p) after).map generated =
      (visitAll u v1 after).map generated
    apply visitAll_generated
    simp [visitDictionary, h, generated]

/-- C22, run on the dictionary `::M::D`, keyed by a struct: the visitor raises the
warning, and the unit with the enum `E`, the dictionary and the class `C1` generates
the text of the enum and of the class, as the unit without the dictionary does. -/
theorem C22_unsupported_dictionary_witness :
    exampleUtil.isNativeKey exampleDictionary.keyType = false ∧
    (visitDictionary exampleUtil emptyVisitor exampleDictionary).warnings =
      [str "skipping dictionary ::M::D - unsupported key type"] ∧
    (visitAll exampleUtil emptyVisitor exampleDictionaryUnit).map (fun r => r.out) =
      some (str ("class __M__E\n\x7b\nconst A = 0;\nconst B = 1;\nconst C = 2;\n\x7d\n" ++
        "class __M__C1 extends Ice_ObjectImpl\n\x7b\n\x7d\n")) ∧
    (visitAll exampleUtil emptyVisitor exampleDictionaryUnit).map generated =
      (visitAll exampleUtil emptyVisitor
        [Visit.enum exampleEnum, Visit.classDefStart exampleClass1,
          Visit.classDefEnd exampleClass1]).map generated :=
  ⟨rfl,
    (C22_unsupported_dictionary exampleUtil emptyVisitor exampleDictionary rfl).1.trans
      (by decide),
    by decide,
    (C22_unsupported_dictionary exampleUtil emptyVisitor exampleDictionary rfl).2.2.2
      [Visit.enum exampleEnum]
      [Visit.classDefStart exampleClass1, Visit.classDefEnd exampleClass1]⟩

/-! ## Reading string literals back -/

set_option maxRecDepth 100000 in
/-- The three octal digits written for a byte are octal digits, the first of them is
none of backslash, quote and dollar, and their value is the byte. -/
theorem octal_digits (c : Byte) :
    isOctalDigit (octalDigit (c.val / 64)) = true
    ∧ isOctalDigit (octalDigit (c.val / 8)) = true
    ∧ isOctalDigit (octalDigit c.val) = true
    ∧ octalDigit (c.val / 64) ≠ byte '\\'
    ∧ octalDigit (c.val / 64) ≠ byte '"'
    ∧ octalDigit (c.val / 64) ≠ byte '$'
    ∧ byteOf (octalValue [octalDigit (c.val / 64), octalDigit (c.val / 8), octalDigit c.val]) =
        c := by
  revert c
  decide

/-- The host reads a byte other than a backslash as itself. -/
theorem hostReadFuel_plain (f : Nat) (c : Byte) (rest : Str) (hc : c ≠ byte '\\') :
    hostReadFuel (f + 1) (c :: rest) = c :: hostReadFuel f rest := by
  simp only [hostReadFuel, hc, if_false]

/-- The host reads a backslash followed by a backslash, a quote or a dollar as that
second byte. -/
theorem hostReadFuel_escape (f : Nat) (d : Byte) (rest : Str)
    (hd : d = byte '\\' ∨ d = byte '"' ∨ d = byte '$') :
    hostReadFuel (f + 1) (byte '\\' :: d :: rest) = d :: hostReadFuel f rest := by
  simp only [hostReadFuel, if_true, hd]

/-- The host reads a backslash followed by three octal digits as the byte of their
value. -/
theorem hostReadFuel_octal (f : Nat) (d1 d2 d3 : Byte) (rest : Str)
    (o1 : isOctalDigit d1 = true) (o2 : isOctalDigit d2 = true) (o3 : isOctalDigit d3 = true)
    (n1 : d1 ≠ byte '\\') (n2 : d1 ≠ byte '"') (n3 : d1 ≠ byte '$') :
    hostReadFuel (f + 1) (byte '\\' :: d1 :: d2 :: d3 :: rest) =
      byteOf (octalValue [d1, d2, d3]) :: hostReadFuel f rest := by
  simp only [hostReadFuel, if_true, n1, n2, n3, or_self, if_false, o1, o2, o3,
    List.takeWhile_cons, List.take_succ_cons, List.take_zero, List.length_cons,
    List.length_nil, List.drop_succ_cons, List.drop_zero]

/-- A value without backslash is read back by the host from the body written for
it. -/
theorem hostReadFuel_render (s : Str) (hs : byte '\\' ∉ s) (fuel : Nat)
    (hfuel : (s.map renderByte).flatten.length ≤ fuel) :
    hostReadFuel fuel (s.map renderByte).flatten = s := by
  induction s generalizing fuel with
  | nil =>
    cases fuel <;> rfl
  | cons c cs ih =>
    have hc : c ≠ byte '\\' := fun e => hs (e ▸ List.mem_cons_self _ _)
    have hcs : byte '\\' ∉ cs := fun h => hs (List.mem_cons_of_mem _ h)
    rw [List.map_cons, List.flatten_cons] at hfuel ⊢
    rw [List.length_append] at hfuel
    by_cases h1 : c = byte '$'
    · subst h1
      have hr : renderByte (byte '$') = [byte '\\', byte '$'] := by decide
      rw [hr] at hfuel ⊢
      cases fuel with
      | zero => simp at hfuel
      | succ f =>
        simp only [List.length_cons, List.length_nil] at hfuel
        rw [List.cons_append, List.cons_append, List.nil_append,
          hostReadFuel_escape f _ _ (by decide), ih hcs f (by omega)]
    · by_cases h2 : c = byte '"'
      · subst h2
        have hr : renderByte (byte '"') = [byte '\\', byte '"'] := by decide
        rw [hr] at hfuel ⊢
        cases fuel with
        | zero => simp at hfuel
        | succ f =>
          simp only [List.length_cons, List.length_nil] at hfuel
          rw [List.cons_append, List.cons_append, List.nil_append,
            hostReadFuel_escape f _ _ (by decide), ih hcs f (by omega)]
      · by_cases h3 : c ∈ basicSourceChars
        · have hr : renderByte c = [c] := by simp [renderByte, h1, h2, h3]
          rw [hr] at hfuel ⊢
          cases fuel with
          | zero => simp at hfuel
          | succ f =>
            simp only [List.length_cons, List.length_nil] at hfuel
            rw [List.cons_append, List.nil_append, hostReadFuel_plain f c _ hc,
              ih hcs f (by omega)]
        · obtain ⟨o1, o2, o3, n1, n2, n3, hv⟩ := octal_digits c
          have hr : renderByte c =
              [byte '\\', octalDigit (c.val / 64), octalDigit (c.val / 8), octalDigit c.val] := by
            simp only [renderByte, h1, h2, h3, if_false, not_false_eq_true, if_true, octal3_eq]
            rfl
          rw [hr] at hfuel ⊢
          cases fuel with
          | zero => simp at hfuel
          | succ f =>
            simp only [List.length_cons, List.length_nil] at hfuel
            rw [List.cons_append, List.cons_append, List.cons_append, List.cons_append,
              List.nil_append, hostReadFuel_octal f _ _ _ _ o1 o2 o3 n1 n2 n3, hv,
              ih hcs f (by omega)]

/-- The host reads back from the literal of `visitConst` every value without
backslash; so two such values never have the same literal. -/
theorem hostRead_writeStringBody (s : Str) (hs : byte '\\' ∉ s) :
    hostRead (writeStringBody s []) = s := by
  rw [writeStringBody_eq, List.nil_append]
  exact hostReadFuel_render s hs _ (Nat.le_refl _)

/-- C23, evaluated where it fails. The string loop of `visitConst` copies a
backslash as it stands. So the value of two backslashes is written with the body
backslash, backslash, which the host reads back as one backslash; the value
backslash, quote is written with the body backslash, backslash, quote, in which the
first unescaped quote is the one of the body and not the closing quote; and the
one-byte value of code 1 and the four-byte value backslash, `0`, `0`, `1` are both
written with the body backslash, `0`, `0`, `1`, so two different values produce the
same literal. A value without backslash, such as `a$"` followed by the byte of code
1, is read back as it was. -/
theorem C23_string_literal_roundtrip_fails :
    writeStringBody [byte '\\', byte '\\'] [] = [byte '\\', byte '\\']
    ∧ hostRead (writeStringBody [byte '\\', byte '\\'] []) = [byte '\\']
    ∧ hostRead (writeStringBody [byte '\\', byte '\\'] []) ≠ [byte '\\', byte '\\']
    ∧ hasUnescaped (byte '"') (writeStringBody [byte '\\', byte '"'] []) = true
    ∧ writeStringBody [1] [] = str "\\001"
    ∧ writeStringBody (str "\\001") [] = str "\\001"
    ∧ ([1] : Str) ≠ str "\\001"
    ∧ (visitConst exampleUtil emptyVisitor
        ⟨str "::S", SliceType.builtin BuiltinKind.KindString, [1]⟩).map (fun r => r.out) =
      (visitConst exampleUtil emptyVisitor
        ⟨str "::S", SliceType.builtin BuiltinKind.KindString, str "\\001"⟩).map
        (fun r => r.out)
    ∧ hostRead (writeStringBody (str "\\001") []) = [1]
    ∧ hostRead (writeStringBody (str "a$\"" ++ [1]) []) = str "a$\"" ++ [1] := by
  refine ⟨by decide, by decide, by decide, by decide, by decide, by decide, by decide,
    by decide, by decide, by decide⟩

/-! ## Lines without a separator -/

/-- A text that ends with a byte that is not white space, followed by white space
only, is split in one way only. -/
theorem trim_unique (a b ta tb : Str) (h : a ++ ta = b ++ tb)
    (ha : ∀ x ∈ a, x ∉ delim) (hta : ∀ x ∈ ta, x ∈ delim) (htb : ∀ x ∈ tb, x ∈ delim)
    (hb : ∃ y, b.getLast? = some y ∧ y ∉ delim) : a = b := by
  rcases List.append_eq_append_iff.mp h with ⟨a2, h1, h2⟩ | ⟨c2, h1, h2⟩
  · cases a2 with
    | nil => simpa using h1.symm
    | cons z zs =>
      exfalso
      obtain ⟨y, hy1, hy2⟩ := hb
      rw [h1, List.getLast?_append_of_ne_nil _ (List.cons_ne_nil z zs)] at hy1
      have hy3 : y ∈ z :: zs := List.mem_of_getLast?_eq_some hy1
      exact hy2 (hta y (by rw [h2]; exact List.mem_append_left _ hy3))
  · cases c2 with
    | nil => simpa using h1
    | cons z zs =>
      exfalso
      have hz1 : z ∈ a := by rw [h1]; simp
      have hz2 : z ∈ tb := by rw [h2]; simp
      exact ha z hz1 (htb z hz2)

/-- The loop body on a line whose text is one word, without white space and without
`=`, that does not open with `[`: the search for the end of the key finds nothing and
the assertion fails. -/
theorem processLine_bare_word {σ : Type} (create : σ → Str → Str → Str → Str → Status × σ)
    (profiles : Str) (l : Loader σ) (line word tail : Str)
    (hline : lineText line = word ++ tail) (hne : word ≠ [])
    (hword : ∀ x ∈ word, x ∉ delim ++ str "=") (htail : ∀ x ∈ tail, x ∈ delim)
    (hopen : word.head? ≠ some (byte '[')) :
    find_first_of (stripLine line) (delim ++ str "=")
        ((find_first_not_of (stripLine line) delim 0).getD 0) = none
    ∧ processLine create profiles l line = LineResult.stop Status.assertFailed l := by
  rcases strip_split line with ⟨_, hblank⟩ | ⟨beg, tail2, hbeg, hlt, htext, htail2, y, hy1, hy2⟩
  · rw [hline] at hblank
    simp at hblank
    exact absurd hblank.1 hne
  · rw [hline] at htext
    have hlast : ((stripLine line).drop beg).getLast? = some y := by
      rw [List.getLast?_drop, if_neg (by omega)]
      exact hy1
    have hw : word = (stripLine line).drop beg :=
      trim_unique word _ tail tail2 htext
        (fun x hx hd => hword x hx (List.mem_append_left _ hd)) htail htail2 ⟨y, hlast, hy2⟩
    have hfo : find_first_of (stripLine line) (delim ++ str "=") beg = none := by
      unfold find_first_of
      rw [← hw, firstIdx_none _ word (fun x hx => by simpa using hword x hx)]
      rfl
    have hhead : (stripLine line)[beg]? ≠ some (byte '[') := by
      rw [← List.head?_drop, ← hw]
      exact hopen
    refine ⟨by rw [hbeg]; exact hfo, ?_⟩
    unfold processLine
    simp only [hbeg, hhead, if_false, hfo]

/-- C24, evaluated where it fails: the line `abc` is not blank and does not open
with `[`, and after comment stripping and trimming it holds no white space and no
`=`; the search for the end of the key finds nothing, so the assertion
`end != string::npos` fails and the line is not reported as an invalid profile entry.
The same holds for `  abc  ; note`, whose white space and comment are stripped. A
line without `=` is reported as an invalid profile entry when white space is left
inside it, as in `abc def`. -/
theorem C24_bare_word_trips_assertion :
    lineText (str "abc") = str "abc"
    ∧ isSectionHeader (str "abc") = false
    ∧ stripLine (str "abc") = str "abc"
    ∧ find_first_not_of (stripLine (str "abc")) delim 0 = some 0
    ∧ find_first_of (stripLine (str "abc")) (delim ++ str "=") 0 = none
    ∧ processLine okCreate (str "p.ini") ⟨(), str "a", [], [], [], []⟩ (str "abc") =
        LineResult.stop Status.assertFailed ⟨(), str "a", [], [], [], []⟩
    ∧ (loadProfiles okCreate (str "p.ini") (str "[a]\nabc\n") ()).1 = Status.assertFailed
    ∧ (loadProfiles okCreate (str "p.ini") (str "[a]\nabc\n") ()).1 ≠
        Status.error (str "invalid profile entry in file p.ini:\nabc\n")
    ∧ (loadProfiles okCreate (str "p.ini") (str "[a]\n  abc  ; note\n") ()).1 =
        Status.assertFailed
    ∧ (loadProfiles okCreate (str "p.ini") (str "[a]\nabc def\n") ()).1 =
        Status.error (str "invalid profile entry in file p.ini:\nabc def\n") := by
  refine ⟨by decide, by decide, by decide, by decide, by decide, ?_, by decide, by decide,
    by decide, by decide⟩
  exact (processLine_bare_word okCreate (str "p.ini") ⟨(), str "a", [], [], [], []⟩ (str "abc")
    (str "abc") [] (by decide) (by decide) (by decide) (by decide) (by decide)).2

/-! ## Rejected lines in a file -/

/-- One more create call after a sequence of create calls that all succeeded. -/
theorem createAll_snoc {σ : Type} (create : σ → Str → Str → Str → Str → Status × σ)
    (w w1 : σ) (cs : List (Str × Str × Str × Str)) (a : Str × Str × Str × Str)
    (h : createAll create w cs = (Status.ok, w1, cs)) :
    createAll create w (cs ++ [a]) =
      ((create w1 a.1 a.2.1 a.2.2.1 a.2.2.2).1, (create w1 a.1 a.2.1 a.2.2.1 a.2.2.2).2,
        cs ++ [a]) := by
  induction cs generalizing w with
  | nil =>
    simp only [createAll, Prod.mk.injEq, true_and, and_true] at h
    subst h
    simp only [List.nil_append, createAll]
    cases hc : create w a.1 a.2.1 a.2.2.1 a.2.2.2 with
    | mk st w2 => cases st <;> rfl
  | cons c cs ih =>
    simp only [createAll] at h
    rw [List.cons_append, createAll]
    cases hc : create w c.1 c.2.1 c.2.2.1 c.2.2.2 with
    | mk st w2 =>
      rw [hc] at h
      cases st with
      | ok =>
        simp only [Prod.mk.injEq, List.cons.injEq, true_and] at h
        have h2 : createAll create w2 cs = (Status.ok, w1, cs) := by
          ext1
          · exact h.1
          · ext1
            · exact h.2.1
            · exact h.2.2
        simp only []
        rw [ih w2 h2]
      | error msg =>
        simp only [Prod.mk.injEq, reduceCtorEq, false_and] at h
      | assertFailed =>
        simp only [Prod.mk.injEq, reduceCtorEq, false_and] at h

/-- C12, amended: the loader changes the registry only through its create calls and
undoes none of them. The state it leaves is the one that its create calls, made in
order, have left, each but the last having succeeded. Every profile registered
before the load began is still registered, unchanged. When every create call made
succeeded, also when the load then fails on a later line, all their sections are
registered. When the last create call failed, the load returns its status, the state
is the one from before that call, the sections of the calls before it are
registered, and its own section is registered only if its name was registered before
the load or by one of those calls. No name other than those of the create calls made
is added to the registry. -/
theorem C12_no_rollback (env : Env) (profiles text : Str) (w : World env) :
    (createAll (createProfile env) w
        (loadProfiles (createProfile env) profiles text w).2.calls).2 =
      ((loadProfiles (createProfile env) profiles text w).2.world,
        (loadProfiles (createProfile env) profiles text w).2.calls)
    ∧ (∀ name profile, w.profiles.find name = some profile →
        (loadProfiles (createProfile env) profiles text w).2.world.profiles.find name =
          some profile)
    ∧ ((createAll (createProfile env) w
          (loadProfiles (createProfile env) profiles text w).2.calls).1 = Status.ok →
        ∀ c ∈ (loadProfiles (createProfile env) profiles text w).2.calls,
          (loadProfiles (createProfile env) profiles text w).2.world.profiles.find c.1 ≠ none)
    ∧ ((createAll (createProfile env) w
          (loadProfiles (createProfile env) profiles text w).2.calls).1 ≠ Status.ok →
        (loadProfiles (createProfile env) profiles text w).1 =
          (createAll (createProfile env) w
            (loadProfiles (createProfile env) profiles text w).2.calls).1
        ∧ (loadProfiles (createProfile env) profiles text w).2.calls ≠ []
        ∧ createAll (createProfile env) w
            (loadProfiles (createProfile env) profiles text w).2.calls.dropLast =
          (Status.ok, (loadProfiles (createProfile env) profiles text w).2.world,
            (loadProfiles (createProfile env) profiles text w).2.calls.dropLast)
        ∧ (∀ name,
            (loadProfiles (createProfile env) profiles text w).2.world.profiles.find name ≠
              none →
            w.profiles.find name ≠ none ∨
              name ∈ (loadProfiles (createProfile env) profiles text w).2.calls.dropLast.map
                (fun c => c.1))
        ∧ ∀ c, (loadProfiles (createProfile env) profiles text w).2.calls.getLast? = some c →
            createProfile env (loadProfiles (createProfile env) profiles text w).2.world
                c.1 c.2.1 c.2.2.1 c.2.2.2 =
              ((createAll (createProfile env) w
                (loadProfiles (createProfile env) profiles text w).2.calls).1,
                (loadProfiles (createProfile env) profiles text w).2.world)
            ∧ ((loadProfiles (createProfile env) profiles text w).2.world.profiles.find c.1 ≠
                none ↔
              (w.profiles.find c.1 ≠ none ∨
                c.1 ∈ (loadProfiles (createProfile env) profiles text w).2.calls.dropLast.map
                  (fun c => c.1))))
    ∧ (∀ c ∈ (loadProfiles (createProfile env) profiles text w).2.calls.dropLast,
        (loadProfiles (createProfile env) profiles text w).2.world.profiles.find c.1 ≠ none)
    ∧ ((loadProfiles (createProfile env) profiles text w).1 = Status.ok →
        ∀ c ∈ (loadProfiles (createProfile env) profiles text w).2.calls,
          (loadProfiles (createProfile env) profiles text w).2.world.profiles.find c.1 ≠ none)
    ∧ (∀ name,
        (loadProfiles (createProfile env) profiles text w).2.world.profiles.find name ≠ none →
        w.profiles.find name ≠ none ∨
          name ∈ (loadProfiles (createProfile env) profiles text w).2.calls.map
            (fun c => c.1)) := by
  have htrace := loadLines_trace (createProfile env)
    (fun w1 cs =>
      createAll (createProfile env) w cs = (Status.ok, w1, cs)
      ∧ (∀ name profile, w.profiles.find name = some profile →
        w1.profiles.find name = some profile)
      ∧ (∀ c ∈ cs, w1.profiles.find c.1 ≠ none)
      ∧ (∀ name, w1.profiles.find name ≠ none →
        w.profiles.find name ≠ none ∨
          name ∈ cs.map (fun c : Str × Str × Str × Str => c.1)))
    (by
      intro w1 cs n c o s ⟨q0, q1, q2, q3⟩ hok
      have hsnoc := createAll_snoc (createProfile env) w w1 cs (n, c, o, s) q0
      rcases createProfile_result env w1 n c o s with ⟨hfail, _⟩ | ⟨_, hfree, p, ws, _, e⟩
      · exact absurd hok hfail
      · refine ⟨?_, ?_, ?_, ?_⟩
        · rw [hsnoc]
          simp only [hok]
        · rw [e]
          intro name profile hfound
          have hne : n ≠ name := by
            intro hn
            rw [hn, q1 name profile hfound] at hfree
            cases hfree
          show (w1.profiles.assign n p).find name = some profile
          rw [StrMap.find_assign_ne _ _ _ _ hne]
          exact q1 name profile hfound
        · rw [e]
          intro c1 hc1
          show (w1.profiles.assign n p).find c1.1 ≠ none
          rcases List.mem_append.mp hc1 with hc1 | hc1
          · have hne : n ≠ c1.1 := by
              intro hn
              rw [hn] at hfree
              exact q2 c1 hc1 hfree
            rw [StrMap.find_assign_ne _ _ _ _ hne]
            exact q2 c1 hc1
          · rw [List.mem_singleton.mp hc1, StrMap.find_assign_self]
            simp
        · rw [e]
          intro name hname
          by_cases hn : n = name
          · right
            simp [hn]
          · have hname2 : (w1.profiles.assign n p).find name ≠ none := hname
            rw [StrMap.find_assign_ne _ _ _ _ hn] at hname2
            rcases q3 name hname2 with h | h
            · exact Or.inl h
            · right
              rw [List.map_append]
              exact List.mem_append_left _ h)
    profiles (readLines 1024 text.length text) ⟨w, [], [], [], [], []⟩
    ⟨rfl, fun _ _ h => h, fun c hc => (by cases hc), fun name h => Or.inl h⟩
  unfold loadProfiles
  rcases htrace with ⟨q0, q1, q2, q3⟩ |
    ⟨w1, cs, n, c, o, s, ⟨q0, q1, q2, q3⟩, hfail, hst, hw, hc⟩
  · rw [q0]
    refine ⟨rfl, q1, fun _ => q2, fun h => absurd rfl h,
      fun c hc => q2 c (List.mem_of_mem_dropLast hc), fun _ => q2, q3⟩
  · have hsame : (createProfile env w1 n c o s).2 = w1 := by
      rcases createProfile_result env w1 n c o s with ⟨_, e⟩ | ⟨hok, _⟩
      · exact e
      · exact absurd hok hfail
    have hsnoc := createAll_snoc (createProfile env) w w1 cs (n, c, o, s) q0
    simp only [hsame] at hsnoc
    rw [hsame] at hw
    rw [hw, hc, hst, hsnoc, List.dropLast_concat, List.getLast?_concat]
    have hsub : ∀ name, w1.profiles.find name ≠ none →
        w.profiles.find name ≠ none ∨
          name ∈ (cs ++ [(n, c, o, s)]).map (fun c : Str × Str × Str × Str => c.1) := by
      intro name hname
      rcases q3 name hname with h | h
      · exact Or.inl h
      · right
        rw [List.map_append]
        exact List.mem_append_left _ h
    refine ⟨rfl, q1, fun hok => absurd hok hfail, fun _ => ⟨rfl, by simp, q0, q3, ?_⟩, q2,
      fun hok => absurd hok hfail, hsub⟩
    intro c1 hc1
    simp only [Option.some.injEq] at hc1
    subst hc1
    refine ⟨Prod.ext rfl hsame, q3 n, ?_⟩
    rintro (h | h)
    · obtain ⟨p, hp⟩ := Option.ne_none_iff_exists'.mp h
      rw [q1 n p hp]
      simp
    · obtain ⟨c1, hc1, hn⟩ := List.mem_map.mp h
      have := q2 c1 hc1
      rw [hn] at this
      exact this

/-- C12 amended, run twice in the world where only `x` is registered. The descriptor
`[a]`, `[b]`, `[c]`, `foo=1` fails on its last line, after the create calls for `a`
and `b` succeeded: `x` is still found, `a` and `b` are registered, and `c`, open at
the offending line, is not. The descriptor `[a]`, `[b]`, `slice=-x`, `[c]` fails in
the create call for `b`, on the unknown option `-x`: `a` is registered and `b` is
not. -/
theorem C12_no_rollback_witness :
    ((loadProfiles (createProfile exampleEnv) (str "p.ini") (str "[a]\n[b]\n[c]\nfoo=1\n")
        exampleIdleWorld).1 =
      Status.error (str "unknown profile entry in file p.ini:\nfoo=1\n") ∧
    (loadProfiles (createProfile exampleEnv) (str "p.ini") (str "[a]\n[b]\n[c]\nfoo=1\n")
        exampleIdleWorld).2.calls = [(str "a", [], [], []), (str "b", [], [], [])] ∧
    (loadProfiles (createProfile exampleEnv) (str "p.ini") (str "[a]\n[b]\n[c]\nfoo=1\n")
        exampleIdleWorld).2.world.profiles.find (str "x") = some exampleProfile ∧
    (loadProfiles (createProfile exampleEnv) (str "p.ini") (str "[a]\n[b]\n[c]\nfoo=1\n")
        exampleIdleWorld).2.world.profiles.find (str "a") ≠ none ∧
    (loadProfiles (createProfile exampleEnv) (str "p.ini") (str "[a]\n[b]\n[c]\nfoo=1\n")
        exampleIdleWorld).2.world.profiles.find (str "b") ≠ none ∧
    (loadProfiles (createProfile exampleEnv) (str "p.ini") (str "[a]\n[b]\n[c]\nfoo=1\n")
        exampleIdleWorld).2.world.profiles.find (str "c") = none)
    ∧ ((loadProfiles (createProfile exampleEnv) (str "p.ini")
        (str "[a]\n[b]\nslice=-x\n[c]\n") exampleIdleWorld).1 =
      Status.error (str "unknown option `-x' in ice.slice") ∧
    (loadProfiles (createProfile exampleEnv) (str "p.ini")
        (str "[a]\n[b]\nslice=-x\n[c]\n") exampleIdleWorld).2.calls =
      [(str "a", [], [], []), (str "b", [], [], str "-x")] ∧
    (loadProfiles (createProfile exampleEnv) (str "p.ini")
        (str "[a]\n[b]\nslice=-x\n[c]\n") exampleIdleWorld).2.world.profiles.find (str "a") ≠
      none ∧
    (loadProfiles (createProfile exampleEnv) (str "p.ini")
        (str "[a]\n[b]\nslice=-x\n[c]\n") exampleIdleWorld).2.world.profiles.find (str "b") =
      none) :=
  ⟨⟨by decide, by decide,
    (C12_no_rollback exampleEnv (str "p.ini") (str "[a]\n[b]\n[c]\nfoo=1\n")
      exampleIdleWorld).2.1 (str "x") exampleProfile rfl,
    (C12_no_rollback exampleEnv (str "p.ini") (str "[a]\n[b]\n[c]\nfoo=1\n")
      exampleIdleWorld).2.2.1 (by decide) (str "a", [], [], []) (by decide),
    (C12_no_rollback exampleEnv (str "p.ini") (str "[a]\n[b]\n[c]\nfoo=1\n")
      exampleIdleWorld).2.2.1 (by decide) (str "b", [], [], []) (by decide),
    Classical.byContradiction (fun hc =>
      ((C12_no_rollback exampleEnv (str "p.ini") (str "[a]\n[b]\n[c]\nfoo=1\n")
        exampleIdleWorld).2.2.2.2.2.2 (str "c") hc).elim (fun h => h rfl)
        (fun h => absurd h (by decide)))⟩,
    by decide, by decide,
    (C12_no_rollback exampleEnv (str "p.ini") (str "[a]\n[b]\nslice=-x\n[c]\n")
      exampleIdleWorld).2.2.2.2.1 (str "a", [], [], []) (by decide),
    Classical.byContradiction (fun hc =>
      (((((C12_no_rollback exampleEnv (str "p.ini") (str "[a]\n[b]\nslice=-x\n[c]\n")
        exampleIdleWorld).2.2.2.1 (by decide)).2.2.2.2 (str "b", [], [], str "-x")
        (by decide)).2).mp hc).elim (fun h => h rfl) (fun h => absurd h (by decide)))⟩
end IcePHP

namespace IceInternal

open IcePHP

/-! ## The constructor and the destructor of `Direct` -/

/-- The argument of `findServantLocator` in the constructor is the category of the
identity. -/
theorem category_eq (identity : Str) :
    (match find identity (byte '#') 0 with
      | some pos => substr identity 0 pos
      | none => []) = category identity := by
  unfold find substr category
  rw [List.drop_zero]
  cases h : firstIdx (fun x => decide (x = byte '#')) identity with
  | none =>
    have hall := firstIdx_eq_none _ identity h
    have hno : byte '#' ∉ identity := by
      intro hm
      have := hall _ hm
      simp at this
    simp [hno]
  | some k =>
    have hmem : byte '#' ∈ identity := by
      by_contra hno
      rw [firstIdx_none _ identity (fun x hx => by
        simp only [decide_eq_false_iff_not]
        intro e
        exact hno (e ▸ hx))] at h
      cases h
    obtain ⟨_, h2, _⟩ :=
      firstIdx_some _ (fun x => decide (x ≠ byte '#')) (by intro x; simp) identity k h
    simp only [Option.map_some', Nat.add_zero, List.drop_zero, hmem, if_true]
    exact h2

/-- The ways the constructor ends, by the answers of the adapter and of the
locator. -/
theorem construct_eq (env : DirectEnv) (adapter : env.ObjectAdapter) (ref : Reference)
    (operation : Str) :
    Direct.construct env adapter ref operation =
      match env.identityToServant adapter ref.identity with
      | some servant => (Except.ok ⟨adapter, ref, operation, some servant, none, none⟩, [])
      | none =>
        match env.findServantLocator adapter (category ref.identity) with
        | none => (Except.error Thrown.ObjectNotExistException, [])
        | some locator =>
          match env.locate locator adapter ref.identity operation none with
          | LocateResult.returned (some servant) cookie =>
            (Except.ok ⟨adapter, ref, operation, some servant, some locator, cookie⟩, [])
          | LocateResult.returned none _ => (Except.error Thrown.ObjectNotExistException, [])
          | LocateResult.threw e _ => (Except.error (Thrown.rethrown e), []) := by
  have hc := category_eq ref.identity
  unfold Direct.construct
  cases hf : find ref.identity (byte '#') 0 with
  | none =>
    rw [hf] at hc
    rw [← hc]
    cases hs : env.identityToServant adapter ref.identity with
    | some servant => rfl
    | none =>
      simp only [Option.isNone_none, if_true]
      cases hl : env.findServantLocator adapter [] with
      | none => rfl
      | some locator =>
        simp only []
        cases hr : env.locate locator adapter ref.identity operation none with
        | returned servant cookie =>
          cases servant with
          | none => rfl
          | some s => rfl
        | threw e cookie => rfl
  | some pos =>
    rw [hf] at hc
    rw [← hc]
    cases hs : env.identityToServant adapter ref.identity with
    | some servant => rfl
    | none =>
      simp only [Option.isNone_none, if_true]
      cases hl : env.findServantLocator adapter (substr ref.identity 0 pos) with
      | none => rfl
      | some locator =>
        simp only []
        cases hr : env.locate locator adapter ref.identity operation none with
        | returned servant cookie =>
          cases servant with
          | none => rfl
          | some s => rfl
        | threw e cookie => rfl

/-- The constructor keeps the servant of the adapter. -/
theorem construct_kept (env : DirectEnv) (adapter : env.ObjectAdapter) (ref : Reference)
    (operation : Str) (servant : env.Object)
    (hs : env.identityToServant adapter ref.identity = some servant) :
    Direct.construct env adapter ref operation =
      (Except.ok ⟨adapter, ref, operation, some servant, none, none⟩, []) := by
  rw [construct_eq, hs]

/-- The constructor throws when there is neither a servant nor a locator. -/
theorem construct_no_locator (env : DirectEnv) (adapter : env.ObjectAdapter) (ref : Reference)
    (operation : Str) (hs : env.identityToServant adapter ref.identity = none)
    (hl : env.findServantLocator adapter (category ref.identity) = none) :
    Direct.construct env adapter ref operation =
      (Except.error Thrown.ObjectNotExistException, []) := by
  rw [construct_eq, hs]
  simp only [hl]

/-- The constructor takes the servant the locator returns. -/
theorem construct_located (env : DirectEnv) (adapter : env.ObjectAdapter) (ref : Reference)
    (operation : Str) (locator : env.ServantLocator) (servant : env.Object)
    (cookie : Option env.LocalObject)
    (hs : env.identityToServant adapter ref.identity = none)
    (hl : env.findServantLocator adapter (category ref.identity) = some locator)
    (hr : env.locate locator adapter ref.identity operation none =
      LocateResult.returned (some servant) cookie) :
    Direct.construct env adapter ref operation =
      (Except.ok ⟨adapter, ref, operation, some servant, some locator, cookie⟩, []) := by
  rw [construct_eq, hs]
  simp only [hl, hr]

/-- The constructor throws when the locator returns no servant. -/
theorem construct_not_located (env : DirectEnv) (adapter : env.ObjectAdapter)
    (ref : Reference) (operation : Str) (locator : env.ServantLocator)
    (cookie : Option env.LocalObject)
    (hs : env.identityToServant adapter ref.identity = none)
    (hl : env.findServantLocator adapter (category ref.identity) = some locator)
    (hr : env.locate locator adapter ref.identity operation none =
      LocateResult.returned none cookie) :
    Direct.construct env adapter ref operation =
      (Except.error Thrown.ObjectNotExistException, []) := by
  rw [construct_eq, hs]
  simp only [hl, hr]

/-- The constructor throws again what the locator throws. -/
theorem construct_threw (env : DirectEnv) (adapter : env.ObjectAdapter) (ref : Reference)
    (operation : Str) (locator : env.ServantLocator) (e : env.Exception)
    (cookie : Option env.LocalObject)
    (hs : env.identityToServant adapter ref.identity = none)
    (hl : env.findServantLocator adapter (category ref.identity) = some locator)
    (hr : env.locate locator adapter ref.identity operation none =
      LocateResult.threw e cookie) :
    Direct.construct env adapter ref operation = (Except.error (Thrown.rethrown e), []) := by
  rw [construct_eq, hs]
  simp only [hl, hr]

/-- The category of an identity with a `#` is the text before the first `#`. -/
theorem category_split (pre post : Str) (hpre : byte '#' ∉ pre) :
    category (pre ++ byte '#' :: post) = pre := by
  unfold category
  rw [if_pos (by simp)]
  induction pre with
  | nil => simp
  | cons x xs ih =>
    have hx : x ≠ byte '#' := fun e => hpre (e ▸ List.mem_cons_self _ _)
    have hxs : byte '#' ∉ xs := fun h => hpre (List.mem_cons_of_mem _ h)
    rw [List.cons_append, List.takeWhile_cons, if_pos (by simpa using hx), ih hxs]

/-- C25: the constructor of `Direct` either ends with a servant that is not null or
throws. It keeps the servant the adapter has for the identity of the reference when
there is one, and then records no locator. Otherwise it looks up the servant locator
of the category of the identity (the text before the first `#`, the empty category
when there is no `#`) and takes the servant that `locate` of this locator returns. It
throws `ObjectNotExistException` exactly when the adapter has no servant for the
identity and either there is no such locator or the locator returns no servant; an
exception of `locate` is thrown again. The constructor never calls `finished`. For an
object that was built, a locator is recorded exactly when the adapter had no servant,
and the destructor calls `finished`, once, on that locator with the servant, exactly
in that case. -/
theorem C25_direct_constructor (env : DirectEnv) (adapter : env.ObjectAdapter)
    (ref : Reference) (operation : Str) :
    (∀ d, (Direct.construct env adapter ref operation).1 = Except.ok d → d._servant ≠ none)
    ∧ (∀ servant, env.identityToServant adapter ref.identity = some servant →
        Direct.construct env adapter ref operation =
          (Except.ok ⟨adapter, ref, operation, some servant, none, none⟩, []))
    ∧ (env.identityToServant adapter ref.identity = none →
        ∀ locator servant cookie,
          env.findServantLocator adapter (category ref.identity) = some locator →
          env.locate locator adapter ref.identity operation none =
            LocateResult.returned (some servant) cookie →
          Direct.construct env adapter ref operation =
            (Except.ok ⟨adapter, ref, operation, some servant, some locator, cookie⟩, []))
    ∧ ((Direct.construct env adapter ref operation).1 =
          Except.error Thrown.ObjectNotExistException ↔
        env.identityToServant adapter ref.identity = none ∧
          (env.findServantLocator adapter (category ref.identity) = none ∨
            ∃ locator cookie,
              env.findServantLocator adapter (category ref.identity) = some locator ∧
              env.locate locator adapter ref.identity operation none =
                LocateResult.returned none cookie))
    ∧ (∀ e, (Direct.construct env adapter ref operation).1 = Except.error (Thrown.rethrown e) ↔
        env.identityToServant adapter ref.identity = none ∧
          ∃ locator cookie,
            env.findServantLocator adapter (category ref.identity) = some locator ∧
            env.locate locator adapter ref.identity operation none =
              LocateResult.threw e cookie)
    ∧ (Direct.construct env adapter ref operation).2 = []
    ∧ (∀ d, (Direct.construct env adapter ref operation).1 = Except.ok d →
        (d._locator ≠ none ↔ env.identityToServant adapter ref.identity = none)
        ∧ (Direct.destruct d ≠ [] ↔ env.identityToServant adapter ref.identity = none)
        ∧ (∀ locator, d._locator = some locator →
            ∃ servant, d._servant = some servant ∧
              Direct.destruct d =
                [⟨locator, adapter, ref.identity, servant, operation, d._cookie⟩])
        ∧ (d._locator = none → Direct.destruct d = []))
    ∧ (byte '#' ∉ ref.identity → category ref.identity = [])
    ∧ (∀ pre post, ref.identity = pre ++ byte '#' :: post → byte '#' ∉ pre →
        category ref.identity = pre) := by
  have hcat1 : byte '#' ∉ ref.identity → category ref.identity = [] := by
    intro h
    simp [category, h]
  have hcat2 : ∀ pre post, ref.identity = pre ++ byte '#' :: post → byte '#' ∉ pre →
      category ref.identity = pre := by
    intro pre post e hpre
    rw [e]
    exact category_split pre post hpre
  cases hs : env.identityToServant adapter ref.identity with
  | some servant =>
    rw [construct_kept env adapter ref operation servant hs]
    refine ⟨?_, ?_, ?_, ?_, ?_, rfl, ?_, hcat1, hcat2⟩
    · intro d hd
      simp only [Except.ok.injEq] at hd
      rw [← hd]
      simp
    · intro s2 h2
      cases h2
      rfl
    · intro h
      cases h
    · simp
    · intro e
      simp
    · intro d hd
      simp only [Except.ok.injEq] at hd
      rw [← hd]
      simp [Direct.destruct, Direct.finishedIfLocated]
  | none =>
    cases hl : env.findServantLocator adapter (category ref.identity) with
    | none =>
      rw [construct_no_locator env adapter ref operation hs hl]
      refine ⟨?_, ?_, ?_, ?_, ?_, rfl, ?_, hcat1, hcat2⟩
      · intro d hd
        cases hd
      · intro s2 h2
        cases h2
      · intro _ locator servant cookie h
        cases h
      · simp
      · intro e
        simp
      · intro d hd
        cases hd
    | some locator =>
      cases hr : env.locate locator adapter ref.identity operation none with
      | threw e cookie =>
        rw [construct_threw env adapter ref operation locator e cookie hs hl hr]
        refine ⟨?_, ?_, ?_, ?_, ?_, rfl, ?_, hcat1, hcat2⟩
        · intro d hd
          cases hd
        · intro s2 h2
          cases h2
        · intro _ loc2 servant c2 h1 h2
          cases h1
          rw [hr] at h2
          cases h2
        · simp [hr]
        · intro e2
          simp only [Except.error.injEq, Thrown.rethrown.injEq, true_and, Option.some.injEq]
          constructor
          · intro h
            exact ⟨locator, cookie, rfl, by rw [hr, h]⟩
          · rintro ⟨loc2, c2, h1, h2⟩
            subst h1
            rw [hr] at h2
            cases h2
            rfl
        · intro d hd
          cases hd
      | returned servant cookie =>
        cases servant with
        | none =>
          rw [construct_not_located env adapter ref operation locator cookie hs hl hr]
          refine ⟨?_, ?_, ?_, ?_, ?_, rfl, ?_, hcat1, hcat2⟩
          · intro d hd
            cases hd
          · intro s2 h2
            cases h2
          · intro _ loc2 servant c2 h1 h2
            cases h1
            rw [hr] at h2
            cases h2
          · exact ⟨fun _ => ⟨rfl, Or.inr ⟨locator, cookie, rfl, hr⟩⟩, fun _ => rfl⟩
          · intro e2
            simp only [Except.error.injEq, reduceCtorEq, true_and, Option.some.injEq, false_iff,
              not_exists, not_and]
            intro loc2 c2 h1 h2
            subst h1
            rw [hr] at h2
            cases h2
          · intro d hd
            cases hd
        | some s =>
          rw [construct_located env adapter ref operation locator s cookie hs hl hr]
          refine ⟨?_, ?_, ?_, ?_, ?_, rfl, ?_, hcat1, hcat2⟩
          · intro d hd
            simp only [Except.ok.injEq] at hd
            rw [← hd]
            simp
          · intro s2 h2
            cases h2
          · intro _ loc2 servant c2 h1 h2
            cases h1
            rw [hr] at h2
            cases h2
            rfl
          · simp only [reduceCtorEq, true_and, false_or, Option.some.injEq, false_iff,
              not_exists, not_and]
            intro loc2 c2 h1 h2
            subst h1
            rw [hr] at h2
            cases h2
          · intro e2
            simp only [reduceCtorEq, true_and, Option.some.injEq, false_iff, not_exists,
              not_and]
            intro loc2 c2 h1 h2
            subst h1
            rw [hr] at h2
            cases h2
          · intro d hd
            simp only [Except.ok.injEq] at hd
            rw [← hd]
            simp [Direct.destruct, Direct.finishedIfLocated]

/-- C25, run on the example adapter: the identity `known` keeps the servant `A` of
the adapter and records no locator, so the destructor calls nothing; `cat#obj` takes
the servant `B` from the locator `L` of the category `cat`, and the destructor calls
`finished` on `L` once; `other#x`, whose category has no locator, and `x`, for which
the locator of the empty category returns nothing, throw
`ObjectNotExistException`. -/
theorem C25_direct_constructor_witness :
    Direct.construct exampleDirectEnv () ⟨str "known"⟩ (str "op") =
      (Except.ok ⟨(), ⟨str "known"⟩, str "op", some (str "A"), none, none⟩, [])
    ∧ @Direct.destruct exampleDirectEnv
        ⟨(), ⟨str "known"⟩, str "op", some (str "A"), none, none⟩ = []
    ∧ Direct.construct exampleDirectEnv () ⟨str "cat#obj"⟩ (str "op") =
      (Except.ok ⟨(), ⟨str "cat#obj"⟩, str "op", some (str "B"), some (str "L"), some (7 : Nat)⟩, [])
    ∧ @Direct.destruct exampleDirectEnv
        ⟨(), ⟨str "cat#obj"⟩, str "op", some (str "B"), some (str "L"), some (7 : Nat)⟩ =
      [⟨str "L", (), str "cat#obj", str "B", str "op", some (7 : Nat)⟩]
    ∧ (Direct.construct exampleDirectEnv () ⟨str "other#x"⟩ (str "op")).1 =
      Except.error Thrown.ObjectNotExistException
    ∧ (Direct.construct exampleDirectEnv () ⟨str "x"⟩ (str "op")).1 =
      Except.error Thrown.ObjectNotExistException
    ∧ (Direct.construct exampleDirectEnv () ⟨str "cat#boom"⟩ (str "op")).1 =
      Except.error (Thrown.rethrown (str "failure")) :=
  ⟨(C25_direct_constructor exampleDirectEnv () ⟨str "known"⟩ (str "op")).2.1 (str "A") rfl,
    ((C25_direct_constructor exampleDirectEnv () ⟨str "known"⟩ (str "op")).2.2.2.2.2.2.1
      ⟨(), ⟨str "known"⟩, str "op", some (str "A"), none, none⟩
      (congrArg Prod.fst ((C25_direct_constructor exampleDirectEnv () ⟨str "known"⟩
        (str "op")).2.1 (str "A") rfl))).2.2.2 rfl,
    (C25_direct_constructor exampleDirectEnv () ⟨str "cat#obj"⟩ (str "op")).2.2.1 rfl
      (str "L") (str "B") (some (7 : Nat)) (rfl) (rfl),
    rfl,
    (C25_direct_constructor exampleDirectEnv () ⟨str "other#x"⟩ (str "op")).2.2.2.1.mpr
      ⟨rfl, Or.inl (rfl)⟩,
    (C25_direct_constructor exampleDirectEnv () ⟨str "x"⟩ (str "op")).2.2.2.1.mpr
      ⟨rfl, Or.inr ⟨str "D", none, rfl, rfl⟩⟩,
    ((C25_direct_constructor exampleDirectEnv () ⟨str "cat#boom"⟩ (str "op")).2.2.2.2.1
      (str "failure")).mpr ⟨rfl, str "L", none, rfl, rfl⟩⟩

end IceInternal
